import Mathlib

/-!
# Room broadcast server (`server.js`)

A shallow embedding of the Socket.IO part of `server.js`: the in-memory
`rooms` registry, the per-socket fields `username` and `currentRoom`, and the
three handlers `join-room`, `roll-dice` and `disconnect`.

* A JavaScript `Map` with string keys is an association list in insertion
  order (`JSMap`), with `has`, `get`, `set` and `delete`.
* A JavaScript `Set` of strings is a list in insertion order (`setAdd`,
  `setDelete`); `Array.from` of the set is the list itself.
* A socket is a `Session`: the two fields the handlers write, and the list of
  gateway rooms the socket is attached to (`socket.rooms`).
* `io.to(roomId).emit` and `socket.emit` are recorded as `Emit` values; who
  receives a room broadcast is decided by `receives` from the attachments.
* The gateway attaches every socket, on connection, to a private room named by
  its `socket.id`, and a room identifier is any string a client sends, the id
  of a socket included. Session handles are numbers; `State.connected ids` is
  the start state in which session `sid` has the id `ids sid` and is attached
  to its private room. `State.init` leaves the private rooms out; the registry,
  the socket fields and the emissions of a run do not depend on them
  (`run_connected`).
* `Date.now()` is an input of the `roll-dice` event.
-/

namespace DiceServer

/-! ## JavaScript `Map` and `Set` -/

/-- A `Map` with string keys, as an association list in insertion order. -/
abbrev JSMap (α : Type) := List (String × α)

/-- The `Map.prototype.get` lookup; `none` stands for `undefined`. -/
def mapGet {α : Type} : JSMap α → String → Option α
  | [], _ => none
  | (k', v) :: rest, k => if k' = k then some v else mapGet rest k

/-- The `Map.prototype.has` test. -/
def mapHas {α : Type} (m : JSMap α) (k : String) : Bool :=
  (mapGet m k).isSome

/-- The `Map.prototype.set` update: an existing key keeps its position, a new
key goes to the end. -/
def mapSet {α : Type} : JSMap α → String → α → JSMap α
  | [], k, v => [(k, v)]
  | (k', v') :: rest, k, v =>
    if k' = k then (k', v) :: rest else (k', v') :: mapSet rest k v

/-- The `Map.prototype.delete` removal. -/
def mapDelete {α : Type} (m : JSMap α) (k : String) : JSMap α :=
  m.filter (fun p => !decide (p.1 = k))

/-- The `Set.prototype.add` insertion: a value already present stays where it
is, a new one goes to the end. -/
def setAdd (s : List String) (x : String) : List String :=
  if x ∈ s then s else s ++ [x]

/-- The `Set.prototype.delete` removal. -/
def setDelete (s : List String) (x : String) : List String :=
  s.filter (fun y => !decide (y = x))

/-- The `Array.prototype.slice(-n)` call on an array: its last `n` elements. -/
def sliceLast {α : Type} (n : Nat) (xs : List α) : List α :=
  xs.drop (xs.length - n)

/-! ## Data model -/

/-- The `rollData` object built by the `roll-dice` handler. -/
structure RollData where
  username : String
  diceType : String
  result : Int
  timestamp : Nat
  deriving DecidableEq, Repr

/-- A value of the `rooms` map: `{ users: new Set(), rolls: [] }`. -/
structure Room where
  users : List String
  rolls : List RollData
  deriving DecidableEq, Repr

/-- A socket handle (`socket.id`). -/
abbrev SessionId := Nat

/-- The part of a socket the handlers use: `socket.username`,
`socket.currentRoom` (`none` is `undefined`) and the gateway rooms the socket
is attached to (`socket.rooms`): the rooms of its `socket.join` calls and,
from connection to disconnect, the private room named by its `socket.id`. -/
structure Session where
  username : Option String
  currentRoom : Option String
  joined : List String
  deriving DecidableEq, Repr

/-- The server state: the `rooms` map and the live sockets. -/
structure State where
  rooms : JSMap Room
  sessions : SessionId → Session

/-- Addressee of an emission: `io.to(roomId)` or the socket itself. -/
inductive Target where
  | room (roomId : String)
  | session (sid : SessionId)
  deriving DecidableEq, Repr

/-- The four outbound messages. -/
inductive Payload where
  | userJoined (username : String) (users : List String)
  | userLeft (username : String) (users : List String)
  | rollHistory (rolls : List RollData)
  | diceRolled (roll : RollData)
  deriving DecidableEq, Repr

/-- One call of `emit`. -/
structure Emit where
  target : Target
  payload : Payload
  deriving DecidableEq, Repr

/-- The three inbound events; `now` is the value of `Date.now()` at receipt. -/
inductive Event where
  | joinRoom (sid : SessionId) (roomId username : String)
  | rollDice (sid : SessionId) (roomId diceType : String) (result : Int)
      (username : String) (now : Nat)
  | disconnect (sid : SessionId)
  deriving DecidableEq, Repr

/-- A socket with no field set, attached to no room. -/
def Session.fresh : Session :=
  { username := none, currentRoom := none, joined := [] }

/-- The state at process start: `rooms` is empty and no socket has done
anything. The private rooms of the sockets are left out. -/
def State.init : State :=
  { rooms := [], sessions := fun _ => Session.fresh }

/-- The state at process start with the sockets connected: `rooms` is empty,
no socket has done anything, and the gateway has attached every socket to the
private room named by its id, `ids sid` for session `sid`. -/
def State.connected (ids : SessionId → String) : State :=
  { rooms := [], sessions := fun sid => { Session.fresh with joined := [ids sid] } }

/-- Replace the session stored under `sid`. -/
def setSession (f : SessionId → Session) (sid : SessionId) (s : Session) :
    SessionId → Session :=
  fun i => if i = sid then s else f i

/-- JavaScript truthiness of a string field that may be `undefined`. -/
def truthy : Option String → Bool
  | none => false
  | some s => decide (s ≠ "")

/-! ## Handlers -/

/-- The `join-room` handler. -/
def joinRoom (st : State) (sid : SessionId) (roomId username : String) :
    State × List Emit :=
  -- socket.join(roomId); socket.username = username; socket.currentRoom = roomId
  let sess : Session :=
    { username := some username
      currentRoom := some roomId
      joined := setAdd (st.sessions sid).joined roomId }
  -- if (!rooms.has(roomId)) rooms.set(roomId, { users: new Set(), rolls: [] })
  let rooms1 : JSMap Room :=
    if mapHas st.rooms roomId then st.rooms
    else mapSet st.rooms roomId { users := [], rolls := [] }
  -- rooms.get(roomId).users.add(username)
  let rooms2 : JSMap Room :=
    match mapGet rooms1 roomId with
    | some room => mapSet rooms1 roomId { room with users := setAdd room.users username }
    | none => rooms1
  let users : List String :=
    match mapGet rooms2 roomId with
    | some room => room.users
    | none => []
  let rolls : List RollData :=
    match mapGet rooms2 roomId with
    | some room => room.rolls
    | none => []
  ({ rooms := rooms2, sessions := setSession st.sessions sid sess },
   [ { target := Target.room roomId, payload := Payload.userJoined username users },
     { target := Target.session sid, payload := Payload.rollHistory (sliceLast 20 rolls) } ])

/-- The `roll-dice` handler. -/
def rollDice (st : State) (roomId diceType : String) (result : Int)
    (username : String) (now : Nat) : State × List Emit :=
  if mapHas st.rooms roomId = false then (st, [])
  else
    let rollData : RollData :=
      { username := username, diceType := diceType, result := result, timestamp := now }
    match mapGet st.rooms roomId with
    | none => (st, [])
    | some room =>
      -- rooms.get(roomId).rolls.push(rollData)
      let rolls1 := room.rolls ++ [rollData]
      -- if (rolls.length > 50) rolls.shift()
      let rolls2 := if rolls1.length > 50 then rolls1.tail else rolls1
      ({ st with rooms := mapSet st.rooms roomId { room with rolls := rolls2 } },
       [ { target := Target.room roomId, payload := Payload.diceRolled rollData } ])

/-- The `disconnect` handler. The gateway has detached the socket from all its
rooms before the handler runs. -/
def disconnect (st : State) (sid : SessionId) : State × List Emit :=
  let sess := st.sessions sid
  let sessions := setSession st.sessions sid { sess with joined := [] }
  -- if (socket.currentRoom && socket.username)
  if truthy sess.currentRoom && truthy sess.username then
    match sess.currentRoom, sess.username with
    | some currentRoom, some username =>
      -- const room = rooms.get(socket.currentRoom); if (room)
      match mapGet st.rooms currentRoom with
      | some room =>
        -- room.users.delete(socket.username)
        let room1 : Room := { room with users := setDelete room.users username }
        let rooms1 := mapSet st.rooms currentRoom room1
        let out : List Emit :=
          [ { target := Target.room currentRoom,
              payload := Payload.userLeft username room1.users } ]
        -- if (room.users.size === 0) rooms.delete(socket.currentRoom)
        let rooms2 := if room1.users.length = 0 then mapDelete rooms1 currentRoom else rooms1
        ({ rooms := rooms2, sessions := sessions }, out)
      | none => ({ st with sessions := sessions }, [])
    | _, _ => ({ st with sessions := sessions }, [])
  else ({ st with sessions := sessions }, [])

/-- Dispatch of one inbound event to its handler. -/
def step (st : State) : Event → State × List Emit
  | Event.joinRoom sid roomId username => joinRoom st sid roomId username
  | Event.rollDice _ roomId diceType result username now =>
    rollDice st roomId diceType result username now
  | Event.disconnect sid => disconnect st sid

/-- The state after processing the events one at a time, in order. -/
def run (st : State) : List Event → State
  | [] => st
  | e :: es => run (step st e).1 es

/-- Every emission made while processing the events, each paired with the
state right after the step that made it. -/
def emissions (st : State) : List Event → List (State × Emit)
  | [] => []
  | e :: es => ((step st e).2.map fun m => ((step st e).1, m)) ++ emissions (step st e).1 es

/-- Does session `sid` receive emission `m` when the sockets are as in `st`? A
room broadcast reaches the sockets attached to the room, the private room of a
socket included when the state holds it. -/
def receives (st : State) (sid : SessionId) (m : Emit) : Bool :=
  match m.target with
  | Target.room roomId => decide (roomId ∈ (st.sessions sid).joined)
  | Target.session s => decide (s = sid)

/-- The payloads delivered to session `sid` while processing the events. -/
def observed (sid : SessionId) (st : State) (es : List Event) : List Payload :=
  ((emissions st es).filter fun p => receives p.1 sid p.2).map fun p => p.2.payload

/-! ## Notions used in the statements -/

/-- The member names of room `roomId` as the registry holds them; a room that
is absent has none. -/
def members (st : State) (roomId : String) : List String :=
  match mapGet st.rooms roomId with
  | some room => room.users
  | none => []

/-- The retained history of room `roomId`; a room that is absent has none. -/
def history (st : State) (roomId : String) : List RollData :=
  match mapGet st.rooms roomId with
  | some room => room.rolls
  | none => []

/-- The record pushed by `roll-dice` followed by the single `shift`. -/
def pushRoll (rolls : List RollData) (r : RollData) : List RollData :=
  if (rolls ++ [r]).length > 50 then (rolls ++ [r]).tail else rolls ++ [r]

/-- The sockets after a disconnect: the gateway has detached the socket. -/
def detach (st : State) (sid : SessionId) : SessionId → Session :=
  setSession st.sessions sid { (st.sessions sid) with joined := [] }

/-- Every entry of the registry has at least one member name. -/
def NoEmptyRoom (st : State) : Prop :=
  ∀ p ∈ st.rooms, p.2.users ≠ []

/-- The records of the accepted-or-not `roll-dice` submissions addressed to
`roomId`, in the order of the events. -/
def submitted (roomId : String) : List Event → List RollData
  | [] => []
  | Event.rollDice _ r diceType result username now :: es =>
    if r = roomId then
      { username := username, diceType := diceType, result := result, timestamp := now } ::
        submitted roomId es
    else submitted roomId es
  | _ :: es => submitted roomId es

/-- Room `roomId` is in the registry before the events and after each of
them: it is never deleted on the way. -/
def staysAlive (roomId : String) (st : State) : List Event → Bool
  | [] => mapHas st.rooms roomId
  | e :: es => mapHas st.rooms roomId && staysAlive roomId (step st e).1 es

/-- The room and name a disconnect acts on: the socket's `currentRoom` and
`username` when both are truthy. -/
def leaving (sess : Session) : Option (String × String) :=
  match sess.currentRoom, sess.username with
  | some r, some u => if r ≠ "" ∧ u ≠ "" then some (r, u) else none
  | _, _ => none

/-- The registry entry of a room after name `u` was deleted from its member
set: no entry when no name is left. -/
def leaveRoom (u : String) (room : Room) : Option Room :=
  if (setDelete room.users u).length = 0 then none
  else some { room with users := setDelete room.users u }

/-- The events without the `roll-dice` submissions addressed to `roomId`. -/
def purge (roomId : String) : List Event → List Event
  | [] => []
  | Event.rollDice sid r diceType result username now :: es =>
    if r = roomId then purge roomId es
    else Event.rollDice sid r diceType result username now :: purge roomId es
  | e :: es => e :: purge roomId es

/-- Session `sid` sends no `join-room` for `roomId` among the events. -/
def neverJoins (sid : SessionId) (roomId : String) : List Event → Bool
  | [] => true
  | Event.joinRoom s r _ :: es =>
    !(decide (s = sid) && decide (r = roomId)) && neverJoins sid roomId es
  | _ :: es => neverJoins sid roomId es

/-- The payloads session `sid` receives from the step that processes `e`. -/
def observedStep (sid : SessionId) (st : State) (e : Event) : List Payload :=
  ((step st e).2.filter fun m => receives (step st e).1 sid m).map fun m => m.payload

/-- Two states with the same sockets, the same rooms and member sets, and the
same histories except possibly in room `a`. -/
def AgreeOutside (a : String) (st1 st2 : State) : Prop :=
  st1.sessions = st2.sessions ∧
  ∀ r : String,
    (mapGet st1.rooms r).map Room.users = (mapGet st2.rooms r).map Room.users ∧
    (r ≠ a → mapGet st1.rooms r = mapGet st2.rooms r)

/-- The join and leave calls of the events by display name, in order: `true`
with the name of a join, `false` with the name a disconnecting session last
joined under. `names` gives the display name of each session so far. -/
def nameOps (names : SessionId → Option String) : List Event → List (Bool × String)
  | [] => []
  | Event.joinRoom sid _ u :: es =>
    (true, u) :: nameOps (fun i => if i = sid then some u else names i) es
  | Event.disconnect sid :: es =>
    match names sid with
    | some u => (false, u) :: nameOps names es
    | none => nameOps names es
  | Event.rollDice _ _ _ _ _ _ :: es => nameOps names es

/-- The last call on name `n` in a list of calls: `some true` a join, `some
false` a leave, `none` when the name does not occur. -/
def lastOp (n : String) : List (Bool × String) → Option Bool
  | [] => none
  | (b, m) :: ops =>
    match lastOp n ops with
    | some b' => some b'
    | none => if m = n then some b else none

/-- Every `join-room` among the events is for room `roomId` and carries a
non-empty name. -/
def joinsOnly (roomId : String) : List Event → Bool
  | [] => true
  | Event.joinRoom _ r u :: es =>
    decide (r = roomId) && !decide (u = "") && joinsOnly roomId es
  | _ :: es => joinsOnly roomId es

/-- The display names `names` are those of the sockets of `st`, all of them in
room `roomId`. -/
def Tracks (roomId : String) (names : SessionId → Option String) (st : State) : Prop :=
  ∀ sid : SessionId, leaving (st.sessions sid) = (names sid).map fun u => (roomId, u)

/-- Every room of the registry retains at most 50 records. -/
def HistoryBounded (st : State) : Prop :=
  ∀ p ∈ st.rooms, p.2.rolls.length ≤ 50

/-- The room of the last `join-room` sent by session `sid` among the events. -/
def lastJoined (sid : SessionId) : List Event → Option String
  | [] => none
  | e :: es =>
    match lastJoined sid es with
    | some r => some r
    | none =>
      match e with
      | Event.joinRoom s r _ => if s = sid then some r else none
      | _ => none

/-- The one room an event can change after the events `es`: the `roomId` of the
payload for `join-room` and `roll-dice`, the room the session joined last for
`disconnect`. -/
def affected (es : List Event) : Event → Option String
  | Event.joinRoom _ r _ => some r
  | Event.rollDice _ r _ _ _ _ => some r
  | Event.disconnect sid => lastJoined sid es

/-- The record of event `e` when it is a `roll-dice` submission to `roomId`
that is accepted: the room is in the registry when the submission arrives. -/
def acceptedStep (roomId : String) (st : State) : Event → List RollData
  | Event.rollDice _ r diceType result username now =>
    if r = roomId ∧ mapHas st.rooms roomId = true then
      [{ username := username, diceType := diceType, result := result, timestamp := now }]
    else []
  | _ => []

/-- The records of the accepted `roll-dice` submissions to `roomId`, in the
order of the events. -/
def accepted (roomId : String) (st : State) : List Event → List RollData
  | [] => []
  | e :: es => acceptedStep roomId st e ++ accepted roomId (step st e).1 es

/-- The record of an emission when it is a `dice-rolled` broadcast to room
`roomId`. -/
def rolledIn (roomId : String) (m : Emit) : Option RollData :=
  match m.target, m.payload with
  | Target.room r, Payload.diceRolled roll => if r = roomId then some roll else none
  | _, _ => none

/-- The records broadcast to room `roomId` as `dice-rolled` while processing
the events, in order. -/
def broadcastsTo (roomId : String) (st : State) (es : List Event) : List RollData :=
  (emissions st es).filterMap fun p => rolledIn roomId p.2

/-- The member list of an emission when it is a `user-joined` or `user-left`
notification. -/
def membershipOf (m : Emit) : Option (List String) :=
  match m.payload with
  | Payload.userJoined _ users => some users
  | Payload.userLeft _ users => some users
  | _ => none

/-- The one room an event can change in state `st`: the `roomId` of the
payload for `join-room` and `roll-dice`, `socket.currentRoom` for `disconnect`. -/
def touched (st : State) : Event → Option String
  | Event.joinRoom _ r _ => some r
  | Event.rollDice _ r _ _ _ _ => some r
  | Event.disconnect sid => (st.sessions sid).currentRoom

/-- The names of the `join-room` events for room `roomId`, in order. -/
def joinedNames (roomId : String) : List Event → List String
  | [] => []
  | Event.joinRoom _ r u :: es =>
    if r = roomId then u :: joinedNames roomId es else joinedNames roomId es
  | _ :: es => joinedNames roomId es

/-- The distinct names of a list in the order of their first occurrence. -/
def firstOccurrences : List String → List String
  | [] => []
  | x :: xs => x :: (firstOccurrences xs).filter fun y => !decide (y = x)

/-- No `disconnect` among the events. -/
def noDisconnect : List Event → Bool
  | [] => true
  | Event.disconnect _ :: _ => false
  | _ :: es => noDisconnect es

/-- No room of the registry lists a member name twice. -/
def MembersNodup (st : State) : Prop :=
  ∀ p ∈ st.rooms, p.2.users.Nodup

/-- Two states with the same registry whose sockets have the same `username`
and `currentRoom`: they differ at most in the attachments. -/
def SameFields (st1 st2 : State) : Prop :=
  st1.rooms = st2.rooms ∧
  ∀ sid : SessionId,
    (st1.sessions sid).username = (st2.sessions sid).username ∧
    (st1.sessions sid).currentRoom = (st2.sessions sid).currentRoom

/-! ## Concrete inputs -/

/-- Socket ids for the examples: session `sid` has the id `socket-sid`. -/
def exampleIds : SessionId → String :=
  fun sid => "socket-" ++ toString sid

/-- Session 1 joins room `b`; session 0 joins the room named by the socket id of
session 1 and rolls there. -/
def exampleOwnIdRoom : List Event :=
  [Event.joinRoom 1 "b" "y", Event.joinRoom 0 "socket-1" "x",
   Event.rollDice 0 "socket-1" "d20" 17 "x" 1000]

/-- A registry with the single room `"t"`, joined by session 0 as `"a"`. -/
def exampleTable : State :=
  run State.init [Event.joinRoom 0 "t" "a"]

/-- A second join followed by 51 rolls submitted to room `"t"`. -/
def exampleRolls51 : List Event :=
  Event.joinRoom 1 "t" "b" ::
    (List.range 51).map fun i =>
      Event.rollDice (i % 2) "t" "d20" (Int.ofNat i) "a" (1000 + i)

/-- Session 0 in room `"a"` as `"x"` and session 1 in room `"b"` as `"y"`. -/
def exampleTwoRooms : State :=
  run State.init [Event.joinRoom 0 "a" "x", Event.joinRoom 1 "b" "y"]

/-- Two rooms with one member each, and a roll submitted to each. -/
def exampleTwoRoomEvents : List Event :=
  [ Event.joinRoom 0 "a" "x", Event.joinRoom 1 "b" "y",
    Event.rollDice 0 "a" "d20" 17 "x" 1000, Event.rollDice 1 "b" "d6" 3 "y" 1001,
    Event.joinRoom 2 "a" "z", Event.disconnect 0 ]

/-- Sessions 0 and 1 both in room `"r"` under the one name `"a"`. -/
def exampleSameName : State :=
  run State.init [Event.joinRoom 0 "r" "a", Event.joinRoom 1 "r" "a"]

/-- Room `"t"` with the single member `"a"` (session 0) and one retained roll. -/
def exampleOneRoll : State :=
  run State.init [Event.joinRoom 0 "t" "a", Event.rollDice 0 "t" "d20" 17 "a" 1000]

/-- Room `"r"` with the members `"a"` (session 0) and `"b"` (session 1). -/
def exampleTwoMembers : State :=
  run State.init [Event.joinRoom 0 "r" "a", Event.joinRoom 1 "r" "b"]

/-- Session 0 joins room `"x"` and then room `"y"`, both as `"a"`. -/
def exampleSwitch : List Event :=
  [Event.joinRoom 0 "x" "a", Event.joinRoom 0 "y" "a"]

/-- The scenario of the specification: alice and bob join `"table1"`, each
rolls once, alice disconnects. The clock reads `t1` and `t2` at the rolls. -/
def scenarioTable1 (t1 t2 : Nat) : List Event :=
  [ Event.joinRoom 0 "table1" "alice", Event.joinRoom 1 "table1" "bob",
    Event.rollDice 0 "table1" "d20" 17 "alice" t1,
    Event.rollDice 1 "table1" "d6" 3 "bob" t2,
    Event.disconnect 0 ]

/-- Sessions 0 and 1 both in room `"r"` under the empty name. -/
def exampleSameEmptyName : State :=
  run State.init [Event.joinRoom 0 "r" "", Event.joinRoom 1 "r" ""]

/-- In room `"r"`: `"a"` joins, `"b"` joins, `"a"` leaves. -/
def exampleRejoin : List Event :=
  [Event.joinRoom 0 "r" "a", Event.joinRoom 1 "r" "b", Event.disconnect 0]

end DiceServer

/-!
# Credential endpoints (`server.js`, `/api/signup` and `/api/login`)

The request body is parsed JSON, so `username` and `password` are JavaScript
values: a string, a number, or nothing. `bcrypt` and `jsonwebtoken` are outside
the repository and enter as the functions of `Env`; `bcryptjs` rejects an
argument that is not a string. A response is the JSON body with its status.
-/

namespace Auth

open DiceServer

/-- A field of the parsed request body. -/
inductive JSVal where
  | undefined
  | str (s : String)
  | num (n : Int)
  deriving DecidableEq, Repr

/-- JavaScript truthiness: what `!value` negates. -/
def JSVal.truthy : JSVal → Bool
  | JSVal.undefined => false
  | JSVal.str s => !decide (s = "")
  | JSVal.num n => !decide (n = 0)

/-- The `length` of a JavaScript string: its number of UTF-16 code units. -/
def utf16Length (s : String) : Nat :=
  (s.toList.map fun c => if c.toNat < 65536 then 1 else 2).sum

/-- A value of the `users` map. -/
structure User where
  username : String
  password : String
  createdAt : Nat
  deriving DecidableEq, Repr

/-- What the handler sends: `res.json({ token, username })`, or
`res.status(status).json({ error })`. -/
inductive Response where
  | token (token username : String)
  | error (status : Nat) (error : String)
  deriving DecidableEq, Repr

/-- The collaborators of one request: `String.prototype.toLowerCase`,
`bcrypt.hash(password, 10)`, `bcrypt.compare`, `jwt.sign` of the username with
the server secret, and `Date.now()`. -/
structure Env where
  toLowerCase : String → String
  hash : String → String
  compare : String → String → Bool
  sign : String → String
  now : Nat

/-- The `POST /api/signup` handler: the users map afterwards and the response. -/
def signup (env : Env) (users : JSMap User) (username password : JSVal) :
    JSMap User × Response :=
  -- if (!username || !password)
  if !username.truthy || !password.truthy then
    (users, Response.error 400 "Username and password required")
  else
    match username with
    | JSVal.str u =>
      -- if (users.has(username.toLowerCase()))
      if mapHas users (env.toLowerCase u) then
        (users, Response.error 400 "Username already exists")
      else
        match password with
        | JSVal.str p =>
          -- if (password.length < 6)
          if utf16Length p < 6 then
            (users, Response.error 400 "Password must be at least 6 characters")
          else
            (mapSet users (env.toLowerCase u)
               { username := u, password := env.hash p, createdAt := env.now },
             Response.token (env.sign u) u)
        -- `password.length` is undefined and `undefined < 6` is false; `bcrypt.hash`
        -- rejects the value, which the `catch` turns into the 500 response
        | _ => (users, Response.error 500 "Server error")
    -- `username.toLowerCase` is not a function: the `catch` answers
    | _ => (users, Response.error 500 "Server error")

/-- The `POST /api/login` handler: the users map afterwards and the response. -/
def login (env : Env) (users : JSMap User) (username password : JSVal) :
    JSMap User × Response :=
  -- if (!username || !password)
  if !username.truthy || !password.truthy then
    (users, Response.error 400 "Username and password required")
  else
    match username with
    | JSVal.str u =>
      -- const user = users.get(username.toLowerCase()); if (!user)
      match mapGet users (env.toLowerCase u) with
      | none => (users, Response.error 401 "Invalid credentials")
      | some user =>
        match password with
        | JSVal.str p =>
          -- const validPassword = await bcrypt.compare(password, user.password)
          if env.compare p user.password then
            (users, Response.token (env.sign user.username) user.username)
          else (users, Response.error 401 "Invalid credentials")
        -- `bcrypt.compare` rejects the value: the `catch` answers
        | _ => (users, Response.error 500 "Server error")
    -- `username.toLowerCase` is not a function: the `catch` answers
    | _ => (users, Response.error 500 "Server error")

/-- Is the response the success body, a token with a username? -/
def Response.isToken : Response → Bool
  | Response.token _ _ => true
  | Response.error _ _ => false

/-- Collaborators for the examples: ASCII lower-casing, a tagged copy as the
hash, and a tagged copy as the token. -/
def exampleEnv : Env :=
  { toLowerCase := fun s => String.mk (s.toList.map Char.toLower)
    hash := fun p => "hash:" ++ p
    compare := fun p h => decide (h = "hash:" ++ p)
    sign := fun u => "token:" ++ u
    now := 1000 }

/-- One registered user, `"Bob"` with the password `"secret1"`. -/
def exampleUsers : JSMap User :=
  [("bob", { username := "Bob", password := "hash:secret1", createdAt := 1000 })]

end Auth

/-!
# Compendium search (`isaac-compendium/assets/js/utils.js`)

A JavaScript string is the list of its UTF-16 code units; the code unit type is
a parameter. `toLowerCase` is a parameter as well.
-/

namespace Compendium

/-- The `String.prototype.includes` test: `query` occurs in `text` as a
contiguous block. -/
def includes {α : Type} [DecidableEq α] (text query : List α) : Bool :=
  text.tails.any fun t => query.isPrefixOf t

/-- The `for` loop of `fuzzySearch`, with `n` iterations left to run: the value
of `queryIndex` when the loop is left. -/
def fuzzyLoop {α : Type} [DecidableEq α] (query text : List α) : Nat → Nat → Nat → Nat
  | 0, _, queryIndex => queryIndex
  | n + 1, i, queryIndex =>
    -- i < text.length && queryIndex < query.length
    if i < text.length ∧ queryIndex < query.length then
      -- if (text[i] === query[queryIndex]) queryIndex++
      if text[i]? = query[queryIndex]? then fuzzyLoop query text n (i + 1) (queryIndex + 1)
      else fuzzyLoop query text n (i + 1) queryIndex
    else queryIndex

/-- The `fuzzySearch` function on two strings. The loop gets `text.length`
iterations, which is all it can use. -/
def fuzzySearch {α : Type} [DecidableEq α] (toLowerCase : List α → List α)
    (query text : List α) : Bool :=
  -- if (!query || !text) return false
  if query.isEmpty || text.isEmpty then false
  else
    -- query = query.toLowerCase(); text = text.toLowerCase()
    -- if (text.includes(query)) return true
    if includes (toLowerCase text) (toLowerCase query) then true
    else
      decide (fuzzyLoop (toLowerCase query) (toLowerCase text) (toLowerCase text).length 0 0 =
        (toLowerCase query).length)

/-- The function without its `includes` shortcut. -/
def fuzzySearchLoopOnly {α : Type} [DecidableEq α] (toLowerCase : List α → List α)
    (query text : List α) : Bool :=
  if query.isEmpty || text.isEmpty then false
  else
    decide (fuzzyLoop (toLowerCase query) (toLowerCase text) (toLowerCase text).length 0 0 =
      (toLowerCase query).length)

end Compendium

/-!
# The game (`isaac-game/js`): player, items, dungeon

JavaScript numbers are rationals here, exact for every constant of the source.
The calls into the user interface, the audio and the particle system have no
effect on the objects modelled and are left out.
-/

namespace IsaacGame

/-- The `tear` object pushed by `Player.shoot`, without its `update` method. -/
structure Tear where
  x : ℚ
  y : ℚ
  vx : ℚ
  vy : ℚ
  radius : ℚ
  damage : ℚ
  alive : Bool
  distanceTraveled : ℚ
  maxDistance : ℚ
  deriving DecidableEq

/-- The fields of a `Player`, without the reference to the game. -/
structure Player where
  x : ℚ
  y : ℚ
  radius : ℚ
  maxHealth : ℚ
  health : ℚ
  speed : ℚ
  damage : ℚ
  tearDelay : ℚ
  tearSpeed : ℚ
  range : ℚ
  tears : List Tear
  tearCooldown : ℚ
  invulnerable : Bool
  invulnerableTime : ℚ
  invulnerableDuration : ℚ
  animationTime : ℚ
  walkCycle : ℚ
  deriving DecidableEq

/-- The `Player` constructor. -/
def Player.new (x y : ℚ) : Player :=
  { x := x
    y := y
    radius := 14
    maxHealth := 6
    health := 6
    speed := 200
    damage := 1
    tearDelay := 3 / 10
    tearSpeed := 400
    range := 300
    tears := []
    tearCooldown := 0
    invulnerable := false
    invulnerableTime := 0
    invulnerableDuration := 1
    animationTime := 0
    walkCycle := 0 }

/-- The `Player.takeDamage` method. -/
def Player.takeDamage (p : Player) (amount : ℚ) : Player :=
  -- if (this.invulnerable) return
  if p.invulnerable then p
  else
    -- this.health -= amount; if (this.health < 0) this.health = 0
    { p with
      health := if p.health - amount < 0 then 0 else p.health - amount
      invulnerable := true
      invulnerableTime := p.invulnerableDuration }

/-- The `Player.heal` method. -/
def Player.heal (p : Player) (amount : ℚ) : Player :=
  { p with health := min p.maxHealth (p.health + amount) }

/-- An entry of the `items` table. -/
structure Item where
  id : String
  name : String
  description : String
  rarity : String
  effect : Player → Player

/-- The `items` table. -/
def items : List Item :=
  [ { id := "speed_up", name := "Runner Shoes", description := "Speed Up!", rarity := "common",
      effect := fun player => { player with speed := player.speed + 40 } },
    { id := "super_speed", name := "Rocket Boots", description := "Huge Speed Up!",
      rarity := "rare",
      effect := fun player => { player with speed := player.speed + 80 } },
    { id := "damage_up", name := "Strength Pill", description := "Damage Up!",
      rarity := "common",
      effect := fun player => { player with damage := player.damage + 1 / 2 } },
    { id := "mega_damage", name := "Power Crystal", description := "Massive Damage Up!",
      rarity := "rare",
      effect := fun player => { player with damage := player.damage + 3 / 2 } },
    { id := "health_up", name := "Max Health Up", description := "+1 Max Health",
      rarity := "uncommon",
      effect := fun player =>
        { player with maxHealth := player.maxHealth + 2, health := player.health + 2 } },
    { id := "full_heal", name := "Full Health", description := "Fully Healed!",
      rarity := "uncommon",
      effect := fun player => { player with health := player.maxHealth } },
    { id := "tear_delay_down", name := "Rapid Fire", description := "Tears Up!",
      rarity := "common",
      effect := fun player =>
        { player with tearDelay := max (1 / 10) (player.tearDelay - 1 / 20) } },
    { id := "machine_gun", name := "Machine Gun Tears", description := "Extreme Fire Rate!",
      rarity := "rare",
      effect := fun player =>
        { player with tearDelay := max (1 / 10) (player.tearDelay - 3 / 20) } },
    { id := "range_up", name := "Long Barrel", description := "Range Up!", rarity := "common",
      effect := fun player => { player with range := player.range + 80 } },
    { id := "sniper_scope", name := "Sniper Scope", description := "Huge Range Up!",
      rarity := "uncommon",
      effect := fun player => { player with range := player.range + 150 } },
    { id := "shot_speed_up", name := "Velocity Boost", description := "Shot Speed Up!",
      rarity := "common",
      effect := fun player => { player with tearSpeed := player.tearSpeed + 100 } },
    { id := "all_stats_up", name := "Golden Crown", description := "All Stats Up!",
      rarity := "special",
      effect := fun player =>
        { player with
          speed := player.speed + 30
          damage := player.damage + 3 / 10
          tearDelay := max (1 / 10) (player.tearDelay - 3 / 100)
          range := player.range + 50
          maxHealth := player.maxHealth + 2
          health := player.health + 2 } },
    { id := "glass_cannon", name := "Glass Cannon", description := "High Risk, High Reward!",
      rarity := "special",
      effect := fun player =>
        { player with
          damage := player.damage + 2
          tearDelay := max (1 / 10) (player.tearDelay - 1 / 10)
          maxHealth := 2
          health := min player.health 2 } },
    { id := "tank_mode", name := "Tank Armor", description := "Slow but Tough!",
      rarity := "uncommon",
      effect := fun player =>
        { player with
          maxHealth := player.maxHealth + 6
          health := player.health + 6
          speed := max 100 (player.speed - 40) } },
    { id := "invincibility", name := "Guardian Angel",
      description := "Extended Invulnerability!", rarity := "rare",
      effect := fun player =>
        { player with invulnerableDuration := player.invulnerableDuration + 1 / 2 } },
    { id := "tear_size_up", name := "Giant Tears", description := "Bigger Tears!",
      rarity := "uncommon",
      effect := fun player => { player with damage := player.damage + 3 / 10 } } ]

/-- The health invariant: `0 <= health <= maxHealth`. -/
def HealthOk (p : Player) : Prop :=
  0 ≤ p.health ∧ p.health ≤ p.maxHealth

/-! ## Dungeon (`dungeon.js`, with the fields of `room.js` it uses)

Room objects are shared between `this.grid`, `this.rooms` and the special room
fields; here `rooms` is the array `this.rooms` itself and every other reference
to a room is its index in that array. `grid y x` is `this.grid[y][x]`, `none`
for `null`. The results of `Math.random()` are the values `rand 0`, `rand 1`,
... in the order of the calls; the number of calls made so far is threaded
through the generation. The recursion of `generateRooms` is bounded by a fuel
argument; `generate` gives it as much as it can use. -/

/-- The `doors` object of a room. -/
structure Doors where
  north : Bool
  south : Bool
  east : Bool
  west : Bool
  deriving DecidableEq, Repr

/-- A `Room`: grid position, type, flags and doors. -/
structure Room where
  x : Int
  y : Int
  type : String
  visited : Bool
  cleared : Bool
  doors : Doors
  deriving DecidableEq, Repr

/-- The `Room` constructor. -/
def Room.new (x y : Int) (type : String) : Room :=
  { x := x, y := y, type := type, visited := false, cleared := false,
    doors := { north := false, south := false, east := false, west := false } }

/-- The fields of a `DungeonGenerator`. -/
structure DungeonGenerator where
  width : Int
  height : Int
  grid : Int → Int → Option Nat
  rooms : List Room
  currentX : Int
  currentY : Int
  startRoom : Option Nat
  bossRoom : Option Nat
  treasureRooms : List Nat

/-- The `DungeonGenerator` constructor. -/
def DungeonGenerator.new (width height : Int) : DungeonGenerator :=
  { width := width, height := height, grid := fun _ _ => none, rooms := [],
    currentX := 0, currentY := 0, startRoom := none, bossRoom := none, treasureRooms := [] }

/-- The value of `Math.floor(Math.random() * n)` when `Math.random()` gave `r`. -/
def randomIndex (r : ℚ) (n : Nat) : Nat :=
  (Int.floor (r * n)).toNat

/-- An entry of the `directions` array of `generateRooms`. -/
structure Direction where
  dx : Int
  dy : Int
  name : String
  deriving DecidableEq, Repr

/-- The `directions` array before the shuffle. -/
def directions : List Direction :=
  [ { dx := 0, dy := -1, name := "north" }, { dx := 0, dy := 1, name := "south" },
    { dx := 1, dy := 0, name := "east" }, { dx := -1, dy := 0, name := "west" } ]

/-- The exchange `[a[i], a[j]] = [a[j], a[i]]`. -/
def swap (a : List Direction) (i j : Nat) : List Direction :=
  match a[i]?, a[j]? with
  | some di, some dj => (a.set i dj).set j di
  | _, _ => a

/-- The shuffle loop of `generateRooms`, `i` running over 3, 2, 1, with `k`
random values used before: the shuffled array and the number of values used. -/
def shuffle (rand : Nat → ℚ) (k : Nat) : List Direction × Nat :=
  let a3 := swap directions 3 (randomIndex (rand k) 4)
  let a2 := swap a3 2 (randomIndex (rand (k + 1)) 3)
  let a1 := swap a2 1 (randomIndex (rand (k + 2)) 2)
  (a1, k + 3)

/-- Creation of a room at `(x, y)`: `this.grid[y][x] = room; this.rooms.push(room)`. -/
def addRoom (d : DungeonGenerator) (x y : Int) (type : String) : DungeonGenerator :=
  { d with
    grid := fun y' x' => if y' = y ∧ x' = x then some d.rooms.length else d.grid y' x'
    rooms := d.rooms ++ [Room.new x y type] }

/-- The loop `for (const dir of directions)` of `generateRooms(x, y, targetCount)`
over the directions still to try; `recur` is the recursive call. -/
def tryDirections (rand : Nat → ℚ)
    (recur : DungeonGenerator × Nat → Int → Int → Option (DungeonGenerator × Nat))
    (x y : Int) (targetCount : Nat) :
    List Direction → DungeonGenerator × Nat → Option (DungeonGenerator × Nat)
  | [], s => some s
  | dir :: rest, s =>
    -- if (this.rooms.length >= targetCount) break
    if targetCount ≤ s.1.rooms.length then some s
    -- if (newX < 0 || newX >= this.width || newY < 0 || newY >= this.height) continue
    else if x + dir.dx < 0 ∨ s.1.width ≤ x + dir.dx ∨ y + dir.dy < 0 ∨ s.1.height ≤ y + dir.dy then
      tryDirections rand recur x y targetCount rest s
    -- if (this.grid[newY][newX] !== null) continue
    else if (s.1.grid (y + dir.dy) (x + dir.dx)).isSome then
      tryDirections rand recur x y targetCount rest s
    -- if (Math.random() < 0.7)
    else if rand s.2 < 7 / 10 then
      match recur (addRoom s.1 (x + dir.dx) (y + dir.dy) "normal", s.2 + 1)
          (x + dir.dx) (y + dir.dy) with
      | none => none
      | some s2 => tryDirections rand recur x y targetCount rest s2
    else tryDirections rand recur x y targetCount rest (s.1, s.2 + 1)

/-- The method `generateRooms(x, y, targetCount)`, with fuel for the depth of the
recursion; `none` when the fuel runs out. -/
def generateRooms (rand : Nat → ℚ) (targetCount : Nat) :
    Nat → DungeonGenerator × Nat → Int → Int → Option (DungeonGenerator × Nat)
  | 0, s, _, _ =>
    if targetCount ≤ s.1.rooms.length then some s else none
  | fuel + 1, s, x, y =>
    -- if (this.rooms.length >= targetCount) return
    if targetCount ≤ s.1.rooms.length then some s
    else
      tryDirections rand (generateRooms rand targetCount fuel) x y targetCount
        (shuffle rand s.2).1 (s.1, (shuffle rand s.2).2)

/-- Assignment `room.type = type` to the room with index `i`. -/
def setType : List Room → Nat → String → List Room
  | [], _, _ => []
  | room :: rest, 0, type => { room with type := type } :: rest
  | room :: rest, i + 1, type => room :: setType rest i type

/-- The loop of `placeBossRoom` over the rooms from index `i` on: the largest
distance found so far and the room that has it. -/
def farthestFrom (sx sy : Int) (start : Nat) :
    List Room → Nat → Int × Option Nat → Int × Option Nat
  | [], _, acc => acc
  | room :: rest, i, acc =>
    -- if (room === this.startRoom) continue
    if i = start then farthestFrom sx sy start rest (i + 1) acc
    -- if (dist > maxDist)
    else if acc.1 < |room.x - sx| + |room.y - sy| then
      farthestFrom sx sy start rest (i + 1) (|room.x - sx| + |room.y - sy|, some i)
    else farthestFrom sx sy start rest (i + 1) acc

/-- The method `placeBossRoom`. -/
def placeBossRoom (d : DungeonGenerator) : DungeonGenerator :=
  match d.startRoom with
  | none => d
  | some start =>
    match d.rooms[start]? with
    | none => d
    | some s =>
      match (farthestFrom s.x s.y start d.rooms 0 (0, none)).2 with
      | none => d
      | some i => { d with rooms := setType d.rooms i "boss", bossRoom := some i }

/-- The indices of the rooms of type `normal`, from index `i` on. -/
def normalRooms : List Room → Nat → List Nat
  | [], _ => []
  | room :: rest, i =>
    if room.type = "normal" then i :: normalRooms rest (i + 1) else normalRooms rest (i + 1)

/-- The loop of `placeTreasureRooms` with `count` iterations left. -/
def placeTreasures (rand : Nat → ℚ) :
    Nat → List Nat → DungeonGenerator × Nat → DungeonGenerator × Nat
  | 0, _, s => s
  | count + 1, normal, s =>
    -- i < treasureCount && normalRooms.length > 0
    if normal.length = 0 then s
    else
      match normal[randomIndex (rand s.2) normal.length]? with
      | none => s
      | some i =>
        placeTreasures rand count (normal.eraseIdx (randomIndex (rand s.2) normal.length))
          ({ s.1 with
              rooms := setType s.1.rooms i "treasure"
              treasureRooms := s.1.treasureRooms ++ [i] }, s.2 + 1)

/-- The method `placeTreasureRooms`. -/
def placeTreasureRooms (rand : Nat → ℚ) (s : DungeonGenerator × Nat) :
    DungeonGenerator × Nat :=
  -- const treasureCount = Math.random() < 0.5 ? 1 : 2
  placeTreasures rand (if rand s.2 < 1 / 2 then 1 else 2) (normalRooms s.1.rooms 0)
    (s.1, s.2 + 1)

/-- The body of the loop of `connectRooms` for one room. -/
def connectRoom (d : DungeonGenerator) (room : Room) : Room :=
  { room with
    doors :=
      { north :=
          if 0 < room.y ∧ (d.grid (room.y - 1) room.x).isSome = true then true
          else room.doors.north
        south :=
          if room.y < d.height - 1 ∧ (d.grid (room.y + 1) room.x).isSome = true then true
          else room.doors.south
        east :=
          if room.x < d.width - 1 ∧ (d.grid room.y (room.x + 1)).isSome = true then true
          else room.doors.east
        west :=
          if 0 < room.x ∧ (d.grid room.y (room.x - 1)).isSome = true then true
          else room.doors.west } }

/-- The method `connectRooms`. -/
def connectRooms (d : DungeonGenerator) : DungeonGenerator :=
  { d with rooms := d.rooms.map (connectRoom d) }

/-- The method `generate`, for a positive width and height: the generator
afterwards and the number of random values used; `none` when `generateRooms`
runs out of fuel. -/
def generate (rand : Nat → ℚ) (d : DungeonGenerator) : Option (DungeonGenerator × Nat) :=
  -- this.grid = ...; this.currentX = Math.floor(this.width / 2); ...
  let d1 : DungeonGenerator :=
    { d with grid := fun _ _ => none, currentX := d.width / 2, currentY := d.height / 2 }
  -- this.startRoom = new Room(...); this.grid[...][...] = this.startRoom; this.rooms.push(...)
  let d2 : DungeonGenerator :=
    { addRoom d1 d1.currentX d1.currentY "start" with startRoom := some d1.rooms.length }
  -- const targetRooms = Math.floor(Math.random() * (maxRooms - minRooms + 1)) + minRooms
  let targetRooms := randomIndex (rand 0) (15 - 8 + 1) + 8
  match generateRooms rand targetRooms targetRooms (d2, 1) d2.currentX d2.currentY with
  | none => none
  | some s =>
    let s1 := placeTreasureRooms rand (placeBossRoom s.1, s.2)
    some (connectRooms s1.1, s1.2)

/-- The method `getCurrentRoom`. -/
def getCurrentRoom (d : DungeonGenerator) : Option Room :=
  match d.grid d.currentY d.currentX with
  | none => none
  | some i => d.rooms[i]?

/-- The method `canMove`. -/
def canMove (d : DungeonGenerator) (direction : String) : Bool :=
  match getCurrentRoom d with
  | none => false
  | some room =>
    if direction = "north" then room.doors.north && decide (0 < d.currentY)
    else if direction = "south" then room.doors.south && decide (d.currentY < d.height - 1)
    else if direction = "east" then room.doors.east && decide (d.currentX < d.width - 1)
    else if direction = "west" then room.doors.west && decide (0 < d.currentX)
    else false

/-- The method `move`: the generator afterwards and the value returned. -/
def move (d : DungeonGenerator) (direction : String) : DungeonGenerator × Bool :=
  if canMove d direction = false then (d, false)
  else if direction = "north" then ({ d with currentY := d.currentY - 1 }, true)
  else if direction = "south" then ({ d with currentY := d.currentY + 1 }, true)
  else if direction = "east" then ({ d with currentX := d.currentX + 1 }, true)
  else if direction = "west" then ({ d with currentX := d.currentX - 1 }, true)
  else (d, true)

/-- The generator after a sequence of `move` calls. -/
def moves (d : DungeonGenerator) : List String → DungeonGenerator
  | [] => d
  | direction :: rest => moves (move d direction).1 rest

/-- The cell `(x, y)` is inside the grid. -/
def Inside (d : DungeonGenerator) (x y : Int) : Prop :=
  0 ≤ x ∧ x < d.width ∧ 0 ≤ y ∧ y < d.height

/-- The grid positions of the rooms, in the order of `this.rooms`. -/
def coords (d : DungeonGenerator) : List (Int × Int) :=
  d.rooms.map fun room => (room.x, room.y)

/-- The grid and the rooms agree: a cell that holds a room is inside the grid
and holds the room that has the position of the cell, and every room is held
by the cell at its position. -/
def Consistent (d : DungeonGenerator) : Prop :=
  (∀ (x y : Int) (i : Nat), d.grid y x = some i → (coords d)[i]? = some (x, y) ∧ Inside d x y) ∧
  (∀ (i : Nat) (x y : Int), (coords d)[i]? = some (x, y) → d.grid y x = some i)

/-- No room has a door yet. -/
def NoDoors (d : DungeonGenerator) : Prop :=
  ∀ doors ∈ d.rooms.map Room.doors,
    doors = { north := false, south := false, east := false, west := false }

/-- The current position is inside the grid, on a cell that holds a room. -/
def OnRoom (d : DungeonGenerator) : Prop :=
  Inside d d.currentX d.currentY ∧ (d.grid d.currentY d.currentX).isSome = true

/-- Every room has a door in a direction exactly when the adjacent cell in
that direction is inside the grid and holds a room. -/
def DoorsMatch (d : DungeonGenerator) : Prop :=
  ∀ room ∈ d.rooms,
    (room.doors.north = true ↔
      Inside d room.x (room.y - 1) ∧ (d.grid (room.y - 1) room.x).isSome = true) ∧
    (room.doors.south = true ↔
      Inside d room.x (room.y + 1) ∧ (d.grid (room.y + 1) room.x).isSome = true) ∧
    (room.doors.east = true ↔
      Inside d (room.x + 1) room.y ∧ (d.grid room.y (room.x + 1)).isSome = true) ∧
    (room.doors.west = true ↔
      Inside d (room.x - 1) room.y ∧ (d.grid room.y (room.x - 1)).isSome = true)

/-- What holds of the generator while `generateRooms` runs. -/
def GenInv (d : DungeonGenerator) : Prop :=
  Consistent d ∧ NoDoors d ∧ OnRoom d

/-- The generator `d2` differs from `d1` at most in the types of the rooms and
the special room fields. -/
def SameLayout (d1 d2 : DungeonGenerator) : Prop :=
  d2.width = d1.width ∧ d2.height = d1.height ∧ d2.grid = d1.grid ∧
  d2.currentX = d1.currentX ∧ d2.currentY = d1.currentY ∧
  (d2.rooms.map fun room => (room.x, room.y, room.doors)) =
    d1.rooms.map fun room => (room.x, room.y, room.doors)

/-- The generator when `generate` calls `generateRooms`: the grid emptied, the
position at the centre and the start room created there. -/
def withStartRoom (d : DungeonGenerator) : DungeonGenerator :=
  { addRoom { d with grid := fun _ _ => none, currentX := d.width / 2, currentY := d.height / 2 }
      (d.width / 2) (d.height / 2) "start" with
    startRoom := some d.rooms.length }

/-- The value of `targetRooms` in `generate`. -/
def targetRooms (rand : Nat → ℚ) : Nat :=
  randomIndex (rand 0) (15 - 8 + 1) + 8

/-- Every `Math.random()` call gives 0.875. -/
def randHigh : Nat → ℚ :=
  fun _ => 7 / 8

/-- Every `Math.random()` call gives 0.5. -/
def randHalf : Nat → ℚ :=
  fun _ => 1 / 2

end IsaacGame

namespace DiceServer

/-! ## Lemmas on `Map` and `Set` -/

section MapLemmas

variable {α : Type}

theorem mapHas_eq_false_iff (m : JSMap α) (k : String) :
    mapHas m k = false ↔ mapGet m k = none := by
  unfold mapHas
  cases mapGet m k <;> simp

theorem mapHas_eq_true_iff (m : JSMap α) (k : String) :
    mapHas m k = true ↔ ∃ v, mapGet m k = some v := by
  unfold mapHas
  cases mapGet m k <;> simp

theorem mapGet_mapSet_same (m : JSMap α) (k : String) (v : α) :
    mapGet (mapSet m k v) k = some v := by
  induction m with
  | nil => simp [mapSet, mapGet]
  | cons p rest ih =>
    obtain ⟨k', v'⟩ := p
    by_cases h : k' = k
    · simp [mapSet, mapGet, h]
    · simp [mapSet, mapGet, h, ih]

theorem mapGet_mapSet_ne (m : JSMap α) (k k' : String) (v : α) (h : k' ≠ k) :
    mapGet (mapSet m k v) k' = mapGet m k' := by
  have h' : ¬ k = k' := fun e => h e.symm
  induction m with
  | nil => simp [mapSet, mapGet, h']
  | cons p rest ih =>
    obtain ⟨k0, v0⟩ := p
    by_cases h0 : k0 = k
    · subst h0
      simp [mapSet, mapGet, h']
    · by_cases h1 : k0 = k'
      · subst h1
        simp [mapSet, mapGet, h0]
      · simp [mapSet, mapGet, h0, h1, ih]

theorem mapSet_mapSet (m : JSMap α) (k : String) (v w : α) :
    mapSet (mapSet m k v) k w = mapSet m k w := by
  induction m with
  | nil => simp [mapSet]
  | cons p rest ih =>
    obtain ⟨k0, v0⟩ := p
    by_cases h0 : k0 = k
    · simp [mapSet, h0]
    · simp [mapSet, h0, ih]

theorem mem_mapSet (m : JSMap α) (k : String) (v : α) (p : String × α)
    (h : p ∈ mapSet m k v) : p ∈ m ∨ p = (k, v) := by
  induction m with
  | nil =>
    right
    simpa [mapSet] using h
  | cons q rest ih =>
    obtain ⟨k0, v0⟩ := q
    by_cases h0 : k0 = k
    · simp only [mapSet, h0, if_true, List.mem_cons] at h
      rcases h with h | h
      · right; exact h
      · left; exact List.mem_cons_of_mem _ h
    · simp only [mapSet, h0, if_false, List.mem_cons] at h
      rcases h with h | h
      · left; rw [h]; exact List.mem_cons_self _ _
      · rcases ih h with h' | h'
        · left; exact List.mem_cons_of_mem _ h'
        · right; exact h'

theorem mem_mapDelete (m : JSMap α) (k : String) (p : String × α)
    (h : p ∈ mapDelete m k) : p ∈ m ∧ p.1 ≠ k := by
  simpa [mapDelete] using h

theorem mapGet_mapDelete_same (m : JSMap α) (k : String) :
    mapGet (mapDelete m k) k = none := by
  induction m with
  | nil => simp [mapDelete, mapGet]
  | cons p rest ih =>
    obtain ⟨k0, v0⟩ := p
    by_cases h0 : k0 = k
    · simpa [mapDelete, List.filter_cons, h0] using ih
    · simpa [mapDelete, List.filter_cons, h0, mapGet] using ih

theorem mapGet_mapDelete_ne (m : JSMap α) (k k' : String) (h : k' ≠ k) :
    mapGet (mapDelete m k) k' = mapGet m k' := by
  have h' : ¬ k = k' := fun e => h e.symm
  induction m with
  | nil => simp [mapDelete, mapGet]
  | cons p rest ih =>
    obtain ⟨k0, v0⟩ := p
    unfold mapDelete at ih
    by_cases h0 : k0 = k
    · subst h0
      simp [mapDelete, List.filter_cons, mapGet, h', ih]
    · by_cases h1 : k0 = k'
      · subst h1
        simp [mapDelete, List.filter_cons, h0, mapGet]
      · simp [mapDelete, List.filter_cons, h0, mapGet, h1, ih]

theorem mapGet_some_mem (m : JSMap α) (k : String) (v : α)
    (h : mapGet m k = some v) : (k, v) ∈ m := by
  induction m with
  | nil => simp [mapGet] at h
  | cons p rest ih =>
    obtain ⟨k0, v0⟩ := p
    by_cases h0 : k0 = k
    · simp only [mapGet, h0, if_true, Option.some.injEq] at h
      rw [h0, h]
      exact List.mem_cons_self _ _
    · simp only [mapGet, h0, if_false] at h
      exact List.mem_cons_of_mem _ (ih h)

end MapLemmas

theorem setAdd_ne_nil (s : List String) (x : String) : setAdd s x ≠ [] := by
  unfold setAdd
  by_cases h : x ∈ s
  · simp only [h, if_true]
    exact List.ne_nil_of_mem h
  · simp [h]

theorem mem_setAdd (s : List String) (x y : String) :
    y ∈ setAdd s x ↔ y ∈ s ∨ y = x := by
  unfold setAdd
  by_cases h : x ∈ s
  · simp only [h, if_true]
    constructor
    · exact Or.inl
    · rintro (h' | h')
      · exact h'
      · rw [h']; exact h
  · simp [h]

theorem mem_setDelete (s : List String) (x y : String) :
    y ∈ setDelete s x ↔ y ∈ s ∧ y ≠ x := by
  simp [setDelete]

/-! ## What each handler does to the registry and what it emits -/

theorem joinRoom_rooms (st : State) (sid : SessionId) (roomId username : String) :
    (joinRoom st sid roomId username).1.rooms =
      mapSet st.rooms roomId
        { users := setAdd (members st roomId) username, rolls := history st roomId } := by
  unfold joinRoom members history
  cases h : mapGet st.rooms roomId with
  | none =>
    have hh : mapHas st.rooms roomId = false := (mapHas_eq_false_iff _ _).2 h
    simp [hh, mapGet_mapSet_same, mapSet_mapSet]
  | some room =>
    have hh : mapHas st.rooms roomId = true := (mapHas_eq_true_iff _ _).2 ⟨room, h⟩
    simp [hh, h]

theorem joinRoom_sessions (st : State) (sid : SessionId) (roomId username : String) :
    (joinRoom st sid roomId username).1.sessions =
      setSession st.sessions sid
        { username := some username, currentRoom := some roomId,
          joined := setAdd (st.sessions sid).joined roomId } := rfl

theorem joinRoom_emits (st : State) (sid : SessionId) (roomId username : String) :
    (joinRoom st sid roomId username).2 =
      [ { target := Target.room roomId,
          payload := Payload.userJoined username (setAdd (members st roomId) username) },
        { target := Target.session sid,
          payload := Payload.rollHistory (sliceLast 20 (history st roomId)) } ] := by
  unfold joinRoom members history
  cases h : mapGet st.rooms roomId with
  | none =>
    have hh : mapHas st.rooms roomId = false := (mapHas_eq_false_iff _ _).2 h
    simp [hh, mapGet_mapSet_same, mapSet_mapSet]
  | some room =>
    have hh : mapHas st.rooms roomId = true := (mapHas_eq_true_iff _ _).2 ⟨room, h⟩
    simp [hh, h, mapGet_mapSet_same]

theorem rollDice_absent (st : State) (roomId diceType : String) (result : Int)
    (username : String) (now : Nat) (h : mapGet st.rooms roomId = none) :
    rollDice st roomId diceType result username now = (st, []) := by
  have hh : mapHas st.rooms roomId = false := (mapHas_eq_false_iff _ _).2 h
  simp [rollDice, hh]

theorem rollDice_present (st : State) (roomId diceType : String) (result : Int)
    (username : String) (now : Nat) (room : Room) (h : mapGet st.rooms roomId = some room) :
    rollDice st roomId diceType result username now =
      ({ st with rooms := (mapSet st.rooms roomId
            { room with rolls := pushRoll room.rolls ⟨username, diceType, result, now⟩ }) },
       [ { target := Target.room roomId,
           payload := Payload.diceRolled ⟨username, diceType, result, now⟩ } ]) := by
  have hh : mapHas st.rooms roomId = true := (mapHas_eq_true_iff _ _).2 ⟨room, h⟩
  simp [rollDice, hh, h, pushRoll]

theorem disconnect_sessions (st : State) (sid : SessionId) :
    (disconnect st sid).1.sessions = detach st sid := by
  unfold disconnect detach
  dsimp only
  split
  · split
    · split <;> rfl
    · rfl
  · rfl

theorem disconnect_skip (st : State) (sid : SessionId)
    (h : (truthy (st.sessions sid).currentRoom && truthy (st.sessions sid).username) = false) :
    disconnect st sid = ({ st with sessions := detach st sid }, []) := by
  unfold disconnect detach
  simp [h]

theorem disconnect_absent (st : State) (sid : SessionId) (r u : String)
    (hr : (st.sessions sid).currentRoom = some r) (hu : (st.sessions sid).username = some u)
    (h : mapGet st.rooms r = none) :
    disconnect st sid = ({ st with sessions := detach st sid }, []) := by
  unfold disconnect detach
  simp only [hr, hu, h]
  split <;> rfl

theorem disconnect_present (st : State) (sid : SessionId) (r u : String) (room : Room)
    (hr : (st.sessions sid).currentRoom = some r) (hu : (st.sessions sid).username = some u)
    (hr0 : r ≠ "") (hu0 : u ≠ "") (h : mapGet st.rooms r = some room) :
    disconnect st sid =
      ({ rooms :=
           if (setDelete room.users u).length = 0 then
             mapDelete (mapSet st.rooms r { room with users := setDelete room.users u }) r
           else mapSet st.rooms r { room with users := setDelete room.users u },
         sessions := detach st sid },
       [ { target := Target.room r,
           payload := Payload.userLeft u (setDelete room.users u) } ]) := by
  unfold disconnect detach
  simp [hr, hu, h, truthy, hr0, hu0]

theorem disconnect_cases (st : State) (sid : SessionId) :
    disconnect st sid = ({ st with sessions := detach st sid }, []) ∨
    ∃ r u room, (st.sessions sid).currentRoom = some r ∧ (st.sessions sid).username = some u ∧
      r ≠ "" ∧ u ≠ "" ∧ mapGet st.rooms r = some room ∧
      disconnect st sid =
        ({ rooms :=
             if (setDelete room.users u).length = 0 then
               mapDelete (mapSet st.rooms r { room with users := setDelete room.users u }) r
             else mapSet st.rooms r { room with users := setDelete room.users u },
           sessions := detach st sid },
         [ { target := Target.room r,
             payload := Payload.userLeft u (setDelete room.users u) } ]) := by
  cases hr : (st.sessions sid).currentRoom with
  | none =>
    left
    exact disconnect_skip st sid (by simp [hr, truthy])
  | some r =>
    cases hu : (st.sessions sid).username with
    | none =>
      left
      exact disconnect_skip st sid (by simp [hu, truthy])
    | some u =>
      by_cases hr0 : r = ""
      · left
        exact disconnect_skip st sid (by simp [hr, truthy, hr0])
      · by_cases hu0 : u = ""
        · left
          exact disconnect_skip st sid (by simp [hu, truthy, hu0])
        · cases h : mapGet st.rooms r with
          | none =>
            left
            exact disconnect_absent st sid r u hr hu h
          | some room =>
            right
            exact ⟨r, u, room, rfl, rfl, hr0, hu0, h,
              disconnect_present st sid r u room hr hu hr0 hu0 h⟩

/-! ## No empty room -/

theorem noEmptyRoom_init : NoEmptyRoom State.init := by
  intro p hp
  simp [State.init] at hp

theorem noEmptyRoom_joinRoom (st : State) (sid : SessionId) (roomId username : String)
    (h : NoEmptyRoom st) : NoEmptyRoom (joinRoom st sid roomId username).1 := by
  intro p hp
  rw [joinRoom_rooms] at hp
  rcases mem_mapSet _ _ _ _ hp with hp | hp
  · exact h p hp
  · rw [hp]
    exact setAdd_ne_nil _ _

theorem noEmptyRoom_rollDice (st : State) (roomId diceType : String) (result : Int)
    (username : String) (now : Nat) (h : NoEmptyRoom st) :
    NoEmptyRoom (rollDice st roomId diceType result username now).1 := by
  cases hg : mapGet st.rooms roomId with
  | none =>
    rw [rollDice_absent st roomId diceType result username now hg]
    exact h
  | some room =>
    rw [rollDice_present st roomId diceType result username now room hg]
    intro p hp
    rcases mem_mapSet _ _ _ _ hp with hp | hp
    · exact h p hp
    · rw [hp]
      exact h (roomId, room) (mapGet_some_mem _ _ _ hg)

theorem noEmptyRoom_disconnect (st : State) (sid : SessionId) (h : NoEmptyRoom st) :
    NoEmptyRoom (disconnect st sid).1 := by
  rcases disconnect_cases st sid with hd | ⟨r, u, room, _, _, _, _, _, hd⟩
  · rw [hd]
    exact h
  · rw [hd]
    intro p hp
    by_cases he : (setDelete room.users u).length = 0
    · simp only [he, if_true] at hp
      obtain ⟨hp1, hp2⟩ := mem_mapDelete _ _ _ hp
      rcases mem_mapSet _ _ _ _ hp1 with hp1 | hp1
      · exact h p hp1
      · rw [hp1] at hp2
        exact absurd rfl hp2
    · simp only [he, if_false] at hp
      rcases mem_mapSet _ _ _ _ hp with hp | hp
      · exact h p hp
      · rw [hp]
        intro hnil
        apply he
        show (setDelete room.users u).length = 0
        have : (setDelete room.users u) = [] := hnil
        rw [this]
        rfl

theorem noEmptyRoom_step (st : State) (e : Event) (h : NoEmptyRoom st) :
    NoEmptyRoom (step st e).1 := by
  cases e with
  | joinRoom sid roomId username => exact noEmptyRoom_joinRoom st sid roomId username h
  | rollDice sid roomId diceType result username now =>
    exact noEmptyRoom_rollDice st roomId diceType result username now h
  | disconnect sid => exact noEmptyRoom_disconnect st sid h

theorem noEmptyRoom_run (es : List Event) :
    ∀ st : State, NoEmptyRoom st → NoEmptyRoom (run st es) := by
  induction es with
  | nil => intro st h; exact h
  | cons e es ih => intro st h; exact ih _ (noEmptyRoom_step st e h)

/-- C1: in every state reached from the empty registry by join-room, roll-dice
and disconnect events, every room of the registry has at least one member name;
put the other way, the member set of a room identifier is empty exactly when
the registry has no room under that identifier. -/
theorem C1_reachable_rooms_nonempty (es : List Event) :
    (∀ p ∈ (run State.init es).rooms, p.2.users ≠ []) ∧
    (∀ roomId : String,
      members (run State.init es) roomId = [] ↔
        mapHas (run State.init es).rooms roomId = false) := by
  have hinv : NoEmptyRoom (run State.init es) := noEmptyRoom_run es _ noEmptyRoom_init
  refine ⟨hinv, ?_⟩
  intro roomId
  rw [mapHas_eq_false_iff]
  unfold members
  cases hg : mapGet (run State.init es).rooms roomId with
  | none => simp
  | some room =>
    have hne := hinv (roomId, room) (mapGet_some_mem _ _ _ hg)
    simp only [reduceCtorEq, iff_false]
    exact hne

/-! ## History: which events touch it -/

theorem history_joinRoom (st : State) (sid : SessionId) (roomId username r : String) :
    history (joinRoom st sid roomId username).1 r = history st r := by
  unfold history
  rw [joinRoom_rooms]
  by_cases h : r = roomId
  · subst h
    rw [mapGet_mapSet_same]
    rfl
  · rw [mapGet_mapSet_ne _ _ _ _ h]

theorem history_rollDice_same (st : State) (roomId diceType : String) (result : Int)
    (username : String) (now : Nat) (h : mapHas st.rooms roomId = true) :
    history (rollDice st roomId diceType result username now).1 roomId =
      pushRoll (history st roomId) ⟨username, diceType, result, now⟩ := by
  obtain ⟨room, hg⟩ := (mapHas_eq_true_iff _ _).1 h
  rw [rollDice_present st roomId diceType result username now room hg]
  unfold history
  simp only [mapGet_mapSet_same, hg]

theorem history_rollDice_ne (st : State) (roomId diceType : String) (result : Int)
    (username : String) (now : Nat) (r : String) (h : r ≠ roomId) :
    history (rollDice st roomId diceType result username now).1 r = history st r := by
  cases hg : mapGet st.rooms roomId with
  | none => rw [rollDice_absent st roomId diceType result username now hg]
  | some room =>
    rw [rollDice_present st roomId diceType result username now room hg]
    unfold history
    simp only [mapGet_mapSet_ne _ _ _ _ h]

theorem history_disconnect (st : State) (sid : SessionId) (r : String)
    (h : mapHas (disconnect st sid).1.rooms r = true) :
    history (disconnect st sid).1 r = history st r := by
  rcases disconnect_cases st sid with hd | ⟨r0, u, room, _, _, _, _, hg, hd⟩
  · rw [hd]
    rfl
  · rw [hd] at h ⊢
    unfold history
    by_cases hr : r = r0
    · subst hr
      by_cases he : (setDelete room.users u).length = 0
      · simp only [he, if_true] at h
        rw [(mapHas_eq_false_iff _ _).2 (mapGet_mapDelete_same _ _)] at h
        exact absurd h (by decide)
      · simp only [he, if_false, mapGet_mapSet_same, hg]
    · by_cases he : (setDelete room.users u).length = 0
      · simp only [he, if_true, mapGet_mapDelete_ne _ _ _ hr, mapGet_mapSet_ne _ _ _ _ hr]
      · simp only [he, if_false, mapGet_mapSet_ne _ _ _ _ hr]

theorem pushRoll_length_le (rolls : List RollData) (r : RollData) (h : rolls.length ≤ 50) :
    (pushRoll rolls r).length ≤ 50 := by
  unfold pushRoll
  split
  · simp only [List.length_tail, List.length_append, List.length_singleton]
    omega
  · rename_i hn
    omega

theorem sliceLast_of_length_le {α : Type} (n : Nat) (xs : List α) (h : xs.length ≤ n) :
    sliceLast n xs = xs := by
  unfold sliceLast
  rw [Nat.sub_eq_zero_of_le h]
  rfl

theorem sliceLast_length {α : Type} (n : Nat) (xs : List α) :
    (sliceLast n xs).length = min n xs.length := by
  unfold sliceLast
  rw [List.length_drop]
  omega

theorem sliceLast_pushRoll_append (rolls : List RollData) (r : RollData)
    (rest : List RollData) (h : rolls.length ≤ 50) :
    sliceLast 50 (pushRoll rolls r ++ rest) = sliceLast 50 (rolls ++ r :: rest) := by
  unfold pushRoll
  split
  · rename_i hlen
    cases rolls with
    | nil => simp at hlen
    | cons x xs =>
      simp only [List.length_cons, List.length_append, List.length_singleton,
        List.length_nil] at hlen h
      have hlen2 : 50 ≤ (xs ++ r :: rest).length := by
        simp only [List.length_append, List.length_cons]
        omega
      have hY : ((x :: xs) ++ [r]).tail ++ rest = xs ++ r :: rest := by simp
      rw [hY]
      show sliceLast 50 (xs ++ r :: rest) = sliceLast 50 (x :: (xs ++ r :: rest))
      generalize xs ++ r :: rest = Y at hlen2
      unfold sliceLast
      have e : (x :: Y).length - 50 = (Y.length - 50) + 1 := by
        simp only [List.length_cons]
        omega
      rw [e, List.drop_succ_cons]
  · simp only [List.append_assoc, List.singleton_append]

theorem staysAlive_head (roomId : String) (st : State) (es : List Event)
    (h : staysAlive roomId st es = true) : mapHas st.rooms roomId = true := by
  cases es with
  | nil => exact h
  | cons e es =>
    simp only [staysAlive, Bool.and_eq_true] at h
    exact h.1

theorem history_run (roomId : String) (es : List Event) :
    ∀ st : State, (history st roomId).length ≤ 50 → staysAlive roomId st es = true →
      history (run st es) roomId =
        sliceLast 50 (history st roomId ++ submitted roomId es) := by
  induction es with
  | nil =>
    intro st hlen _
    simp only [run, submitted, List.append_nil]
    exact (sliceLast_of_length_le 50 _ hlen).symm
  | cons e es ih =>
    intro st hlen halive
    simp only [staysAlive, Bool.and_eq_true] at halive
    obtain ⟨hst, hrest⟩ := halive
    have hst1 := staysAlive_head roomId _ es hrest
    cases e with
    | joinRoom sid r username =>
      have hh : history (step st (Event.joinRoom sid r username)).1 roomId =
          history st roomId := history_joinRoom st sid r username roomId
      have := ih _ (by rw [hh]; exact hlen) hrest
      simp only [run, submitted]
      rw [this, hh]
    | disconnect sid =>
      have hh : history (step st (Event.disconnect sid)).1 roomId = history st roomId :=
        history_disconnect st sid roomId hst1
      have := ih _ (by rw [hh]; exact hlen) hrest
      simp only [run, submitted]
      rw [this, hh]
    | rollDice sid r diceType result username now =>
      by_cases hr : r = roomId
      · subst hr
        have hh : history (step st (Event.rollDice sid r diceType result username now)).1 r =
            pushRoll (history st r) ⟨username, diceType, result, now⟩ :=
          history_rollDice_same st r diceType result username now hst
        have := ih _ (by rw [hh]; exact pushRoll_length_le _ _ hlen) hrest
        simp only [run, submitted, if_true]
        rw [this, hh]
        exact sliceLast_pushRoll_append _ _ _ hlen
      · have hh : history (step st (Event.rollDice sid r diceType result username now)).1
            roomId = history st roomId :=
          history_rollDice_ne st r diceType result username now roomId (fun e => hr e.symm)
        have := ih _ (by rw [hh]; exact hlen) hrest
        simp only [run, submitted, hr, if_false]
        rw [this, hh]

/-- C2: take a room that exists with an empty history and any events during
which the room is never deleted; if more than 50 roll-dice submissions among
them are addressed to the room, the retained history afterwards has exactly 50
records and is the last 50 submitted records, oldest first. With 51
submissions the history is the submitted records without the first one. -/
theorem C2_history_keeps_last_50 (st : State) (roomId : String) (es : List Event)
    (hempty : history st roomId = [])
    (halive : staysAlive roomId st es = true)
    (hN : 50 < (submitted roomId es).length) :
    history (run st es) roomId = sliceLast 50 (submitted roomId es) ∧
    (history (run st es) roomId).length = 50 ∧
    ((submitted roomId es).length = 51 →
      history (run st es) roomId = (submitted roomId es).tail) := by
  have hmain := history_run roomId es st (by rw [hempty]; exact Nat.zero_le _) halive
  rw [hempty, List.nil_append] at hmain
  refine ⟨hmain, ?_, ?_⟩
  · rw [hmain, sliceLast_length]
    omega
  · intro h51
    rw [hmain]
    unfold sliceLast
    rw [h51]
    cases submitted roomId es with
    | nil => rfl
    | cons x xs => rfl

theorem C2_history_keeps_last_50_witness :
    (history exampleTable "t" = [] ∧ staysAlive "t" exampleTable exampleRolls51 = true ∧
      50 < (submitted "t" exampleRolls51).length) ∧
    (history (run exampleTable exampleRolls51) "t" =
        sliceLast 50 (submitted "t" exampleRolls51) ∧
      (history (run exampleTable exampleRolls51) "t").length = 50 ∧
      ((submitted "t" exampleRolls51).length = 51 →
        history (run exampleTable exampleRolls51) "t" =
          (submitted "t" exampleRolls51).tail)) :=
  ⟨⟨by decide, by decide, by decide⟩,
   C2_history_keeps_last_50 exampleTable "t" exampleRolls51
     (by decide) (by decide) (by decide)⟩

/-! ## Join: the history replay -/

/-- C3: a join-room event emits one roll-history message; it carries the last
`min 20 n` of the `n` records the room retains at join time, oldest first (none
when the room is new), it is addressed to the joining socket, and the joining
session is the only one that receives it. The other emission of the join is the
user-joined broadcast. -/
theorem C3_join_replays_last_20 (st : State) (sid : SessionId) (roomId username : String) :
    (∃ users : List String,
      (step st (Event.joinRoom sid roomId username)).2 =
        [ { target := Target.room roomId, payload := Payload.userJoined username users },
          { target := Target.session sid,
            payload := Payload.rollHistory
              ((history st roomId).drop
                ((history st roomId).length - min 20 (history st roomId).length)) } ]) ∧
    ((history st roomId).drop
        ((history st roomId).length - min 20 (history st roomId).length)).length =
      min 20 (history st roomId).length ∧
    (∀ (other : SessionId) (rolls : List RollData),
      receives (step st (Event.joinRoom sid roomId username)).1 other
          { target := Target.session sid, payload := Payload.rollHistory rolls } = true ↔
        other = sid) := by
  have hdrop : (history st roomId).length - min 20 (history st roomId).length =
      (history st roomId).length - 20 := by omega
  refine ⟨⟨setAdd (members st roomId) username, ?_⟩, ?_, ?_⟩
  · show (joinRoom st sid roomId username).2 = _
    rw [joinRoom_emits, hdrop]
    rfl
  · rw [List.length_drop]
    omega
  · intro other rolls
    simp only [receives, decide_eq_true_eq]
    exact ⟨fun h => h.symm, fun h => h.symm⟩

/-! ## Roll: the missing room -/

/-- C5: a roll-dice submission whose room identifier is not in the registry is
dropped: the handler returns, the whole state (every room, its members and its
history, and every socket) is what it was, so no room is created, and nothing is
emitted. -/
theorem C5_roll_to_absent_room_dropped (st : State) (sid : SessionId)
    (roomId diceType : String) (result : Int) (username : String) (now : Nat)
    (h : mapHas st.rooms roomId = false) :
    step st (Event.rollDice sid roomId diceType result username now) = (st, []) := by
  show rollDice st roomId diceType result username now = (st, [])
  exact rollDice_absent st roomId diceType result username now
    ((mapHas_eq_false_iff _ _).1 h)

theorem C5_roll_to_absent_room_dropped_witness :
    mapHas exampleTable.rooms "nowhere" = false ∧
    step exampleTable (Event.rollDice 0 "nowhere" "d20" 17 "a" 1000) = (exampleTable, []) :=
  ⟨by decide, C5_roll_to_absent_room_dropped exampleTable 0 "nowhere" "d20" 17 "a" 1000
    (by decide)⟩

/-! ## The registry entry of each room after a handler -/

theorem mapGet_joinRoom (st : State) (sid : SessionId) (roomId username r : String) :
    mapGet (joinRoom st sid roomId username).1.rooms r =
      if r = roomId then
        some { users := setAdd (members st roomId) username, rolls := history st roomId }
      else mapGet st.rooms r := by
  rw [joinRoom_rooms]
  by_cases h : r = roomId
  · subst h
    simp only [mapGet_mapSet_same, if_true]
  · simp only [mapGet_mapSet_ne _ _ _ _ h, h, if_false]

theorem mapGet_rollDice (st : State) (roomId diceType : String) (result : Int)
    (username : String) (now : Nat) (r : String) :
    mapGet (rollDice st roomId diceType result username now).1.rooms r =
      if r = roomId then
        (mapGet st.rooms roomId).map fun room =>
          { room with rolls := pushRoll room.rolls ⟨username, diceType, result, now⟩ }
      else mapGet st.rooms r := by
  cases hg : mapGet st.rooms roomId with
  | none =>
    rw [rollDice_absent st roomId diceType result username now hg]
    by_cases h : r = roomId
    · subst h
      simp only [hg, if_true, Option.map_none']
    · simp only [h, if_false]
  | some room =>
    rw [rollDice_present st roomId diceType result username now room hg]
    by_cases h : r = roomId
    · subst h
      simp only [mapGet_mapSet_same, if_true, Option.map_some']
    · simp only [mapGet_mapSet_ne _ _ _ _ h, h, if_false]

theorem rollDice_emits (st : State) (roomId diceType : String) (result : Int)
    (username : String) (now : Nat) :
    (rollDice st roomId diceType result username now).2 =
      if mapHas st.rooms roomId = true then
        [ { target := Target.room roomId,
            payload := Payload.diceRolled ⟨username, diceType, result, now⟩ } ]
      else [] := by
  cases hg : mapGet st.rooms roomId with
  | none =>
    rw [rollDice_absent st roomId diceType result username now hg]
    simp [(mapHas_eq_false_iff _ _).2 hg]
  | some room =>
    rw [rollDice_present st roomId diceType result username now room hg]
    simp [(mapHas_eq_true_iff _ _).2 ⟨room, hg⟩]

theorem rollDice_sessions (st : State) (roomId diceType : String) (result : Int)
    (username : String) (now : Nat) :
    (rollDice st roomId diceType result username now).1.sessions = st.sessions := by
  cases hg : mapGet st.rooms roomId with
  | none => rw [rollDice_absent st roomId diceType result username now hg]
  | some room => rw [rollDice_present st roomId diceType result username now room hg]

theorem leaving_eq_none_iff (sess : Session) :
    leaving sess = none ↔ (truthy sess.currentRoom && truthy sess.username) = false := by
  unfold leaving
  cases hr : sess.currentRoom with
  | none => simp [truthy]
  | some r =>
    cases hu : sess.username with
    | none => simp [truthy]
    | some u =>
      by_cases hr0 : r = ""
      · simp [truthy, hr0]
      · by_cases hu0 : u = ""
        · simp [truthy, hu0]
        · simp [truthy, hr0, hu0]

theorem leaving_eq_some (sess : Session) (r u : String) (h : leaving sess = some (r, u)) :
    sess.currentRoom = some r ∧ sess.username = some u ∧ r ≠ "" ∧ u ≠ "" := by
  unfold leaving at h
  cases hr : sess.currentRoom with
  | none => simp [hr] at h
  | some r1 =>
    cases hu : sess.username with
    | none => simp [hr, hu] at h
    | some u1 =>
      simp only [hr, hu] at h
      by_cases hc : r1 ≠ "" ∧ u1 ≠ ""
      · rw [if_pos hc] at h
        simp only [Option.some.injEq, Prod.mk.injEq] at h
        obtain ⟨h1, h2⟩ := h
        subst h1
        subst h2
        exact ⟨rfl, rfl, hc.1, hc.2⟩
      · rw [if_neg hc] at h
        cases h

theorem mapGet_disconnect (st : State) (sid : SessionId) (r : String) :
    mapGet (disconnect st sid).1.rooms r =
      match leaving (st.sessions sid) with
      | some (r0, u) =>
        if r = r0 then (mapGet st.rooms r0).bind (leaveRoom u) else mapGet st.rooms r
      | none => mapGet st.rooms r := by
  cases hl : leaving (st.sessions sid) with
  | none =>
    rw [disconnect_skip st sid ((leaving_eq_none_iff _).1 hl)]
  | some p =>
    obtain ⟨r0, u⟩ := p
    obtain ⟨hr, hu, hr0, hu0⟩ := leaving_eq_some _ _ _ hl
    cases hg : mapGet st.rooms r0 with
    | none =>
      rw [disconnect_absent st sid r0 u hr hu hg]
      by_cases h : r = r0
      · subst h
        simp [hg]
      · simp [h]
    | some room =>
      rw [disconnect_present st sid r0 u room hr hu hr0 hu0 hg]
      by_cases h : r = r0
      · subst h
        by_cases he : (setDelete room.users u).length = 0
        · have he2 : setDelete room.users u = [] := List.length_eq_zero.mp he
          simp [he, he2, hg, leaveRoom, mapGet_mapDelete_same]
        · have he2 : ¬ setDelete room.users u = [] := fun e => he (by rw [e]; rfl)
          simp [he, he2, hg, leaveRoom, mapGet_mapSet_same]
      · by_cases he : (setDelete room.users u).length = 0
        · simp [he, h, mapGet_mapDelete_ne _ _ _ h, mapGet_mapSet_ne _ _ _ _ h]
        · simp [he, h, mapGet_mapSet_ne _ _ _ _ h]

theorem disconnect_emits (st : State) (sid : SessionId) :
    (disconnect st sid).2 =
      match leaving (st.sessions sid) with
      | some (r0, u) =>
        match mapGet st.rooms r0 with
        | some room =>
          [ { target := Target.room r0,
              payload := Payload.userLeft u (setDelete room.users u) } ]
        | none => []
      | none => [] := by
  cases hl : leaving (st.sessions sid) with
  | none =>
    rw [disconnect_skip st sid ((leaving_eq_none_iff _).1 hl)]
  | some p =>
    obtain ⟨r0, u⟩ := p
    obtain ⟨hr, hu, hr0, hu0⟩ := leaving_eq_some _ _ _ hl
    cases hg : mapGet st.rooms r0 with
    | none =>
      rw [disconnect_absent st sid r0 u hr hu hg]
      simp only [hg]
    | some room =>
      rw [disconnect_present st sid r0 u room hr hu hr0 hu0 hg]
      simp only [hg]

/-! ## Rooms do not leak into each other -/

theorem members_congr (st1 st2 : State) (r : String)
    (h : (mapGet st1.rooms r).map Room.users = (mapGet st2.rooms r).map Room.users) :
    members st1 r = members st2 r := by
  unfold members
  cases h1 : mapGet st1.rooms r <;> cases h2 : mapGet st2.rooms r <;>
    simp_all

theorem history_congr (st1 st2 : State) (r : String)
    (h : mapGet st1.rooms r = mapGet st2.rooms r) :
    history st1 r = history st2 r := by
  unfold history
  rw [h]

theorem step_sessions_congr (st1 st2 : State) (e : Event)
    (h : st1.sessions = st2.sessions) :
    (step st1 e).1.sessions = (step st2 e).1.sessions := by
  cases e with
  | joinRoom sid r u =>
    show (joinRoom st1 sid r u).1.sessions = (joinRoom st2 sid r u).1.sessions
    rw [joinRoom_sessions, joinRoom_sessions, h]
  | rollDice sid r d res u now =>
    show (rollDice st1 r d res u now).1.sessions = (rollDice st2 r d res u now).1.sessions
    rw [rollDice_sessions, rollDice_sessions, h]
  | disconnect sid =>
    show (disconnect st1 sid).1.sessions = (disconnect st2 sid).1.sessions
    rw [disconnect_sessions, disconnect_sessions]
    unfold detach
    rw [h]

theorem agreeOutside_step (a : String) (st1 st2 : State) (e : Event)
    (h : AgreeOutside a st1 st2) : AgreeOutside a (step st1 e).1 (step st2 e).1 := by
  refine ⟨step_sessions_congr st1 st2 e h.1, ?_⟩
  intro r
  cases e with
  | joinRoom sid r0 u =>
    show (mapGet (joinRoom st1 sid r0 u).1.rooms r).map Room.users =
        (mapGet (joinRoom st2 sid r0 u).1.rooms r).map Room.users ∧
      (r ≠ a → mapGet (joinRoom st1 sid r0 u).1.rooms r =
        mapGet (joinRoom st2 sid r0 u).1.rooms r)
    rw [mapGet_joinRoom, mapGet_joinRoom]
    by_cases hr : r = r0
    · subst hr
      simp only [if_true, Option.map_some', Option.some.injEq]
      rw [members_congr st1 st2 r (h.2 r).1]
      refine ⟨rfl, fun hne => ?_⟩
      rw [history_congr st1 st2 r ((h.2 r).2 hne)]
    · simp only [hr, if_false]
      exact h.2 r
  | rollDice sid r0 d res u now =>
    show (mapGet (rollDice st1 r0 d res u now).1.rooms r).map Room.users =
        (mapGet (rollDice st2 r0 d res u now).1.rooms r).map Room.users ∧
      (r ≠ a → mapGet (rollDice st1 r0 d res u now).1.rooms r =
        mapGet (rollDice st2 r0 d res u now).1.rooms r)
    rw [mapGet_rollDice, mapGet_rollDice]
    by_cases hr : r = r0
    · subst hr
      simp only [if_true, Option.map_map]
      refine ⟨(h.2 r).1, fun hne => ?_⟩
      rw [(h.2 r).2 hne]
    · simp only [hr, if_false]
      exact h.2 r
  | disconnect sid =>
    show (mapGet (disconnect st1 sid).1.rooms r).map Room.users =
        (mapGet (disconnect st2 sid).1.rooms r).map Room.users ∧
      (r ≠ a → mapGet (disconnect st1 sid).1.rooms r =
        mapGet (disconnect st2 sid).1.rooms r)
    rw [mapGet_disconnect, mapGet_disconnect, h.1]
    cases leaving (st2.sessions sid) with
    | none => exact h.2 r
    | some p =>
      obtain ⟨r0, u⟩ := p
      by_cases hr : r = r0
      · subst hr
        simp only [if_true]
        have h1 := (h.2 r).1
        have h2 := (h.2 r).2
        cases hg1 : mapGet st1.rooms r with
        | none =>
          cases hg2 : mapGet st2.rooms r with
          | none => simp
          | some room2 => simp [hg1, hg2] at h1
        | some room1 =>
          cases hg2 : mapGet st2.rooms r with
          | none => simp [hg1, hg2] at h1
          | some room2 =>
            simp only [hg1, hg2, Option.map_some', Option.some.injEq] at h1
            refine ⟨?_, fun hne => ?_⟩
            · simp only [Option.some_bind, leaveRoom, h1]
              split <;> rfl
            · have := h2 hne
              rw [hg1, hg2] at this
              rw [this]
      · simp only [hr, if_false]
        exact h.2 r

theorem agreeOutside_rollDice_left (a : String) (st1 st2 : State) (diceType : String)
    (result : Int) (username : String) (now : Nat) (h : AgreeOutside a st1 st2) :
    AgreeOutside a (rollDice st1 a diceType result username now).1 st2 := by
  refine ⟨by rw [rollDice_sessions]; exact h.1, ?_⟩
  intro r
  rw [mapGet_rollDice]
  by_cases hr : r = a
  · subst hr
    simp only [if_true, Option.map_map]
    exact ⟨(h.2 r).1, fun hne => absurd rfl hne⟩
  · simp only [hr, if_false]
    exact h.2 r

theorem receives_congr (st1 st2 : State) (s : SessionId) (m : Emit)
    (h : st1.sessions = st2.sessions) : receives st1 s m = receives st2 s m := by
  unfold receives
  rw [h]

theorem receives_room_false (st : State) (s : SessionId) (a : String) (pl : Payload)
    (h : a ∉ (st.sessions s).joined) :
    receives st s { target := Target.room a, payload := pl } = false := by
  simp [receives, h]

theorem observed_cons (s : SessionId) (st : State) (e : Event) (es : List Event) :
    observed s st (e :: es) = observedStep s st e ++ observed s (step st e).1 es := by
  simp only [observed, emissions, observedStep, List.filter_append, List.map_append,
    List.filter_map, List.map_map]
  rfl

theorem neverJoins_cons (s : SessionId) (a : String) (e : Event) (es : List Event)
    (h : neverJoins s a (e :: es) = true) :
    neverJoins s a [e] = true ∧ neverJoins s a es = true := by
  cases e with
  | joinRoom sid r u =>
    simp only [neverJoins, Bool.and_eq_true, Bool.and_true] at h ⊢
    exact h
  | rollDice sid r d res u now => exact ⟨rfl, h⟩
  | disconnect sid => exact ⟨rfl, h⟩

theorem notAttached_step (a : String) (s : SessionId) (st : State) (e : Event)
    (hs : a ∉ (st.sessions s).joined) (hj : neverJoins s a [e] = true) :
    a ∉ ((step st e).1.sessions s).joined := by
  cases e with
  | joinRoom sid r u =>
    show a ∉ ((joinRoom st sid r u).1.sessions s).joined
    rw [joinRoom_sessions]
    unfold setSession
    by_cases hsid : s = sid
    · subst hsid
      simp only [if_true, mem_setAdd]
      simp only [neverJoins, decide_True, Bool.true_and, Bool.and_true,
        Bool.not_eq_true', decide_eq_false_iff_not] at hj
      rintro (h1 | h1)
      · exact hs h1
      · exact hj h1.symm
    · simp only [hsid, if_false]
      exact hs
  | rollDice sid r d res u now =>
    show a ∉ ((rollDice st r d res u now).1.sessions s).joined
    rw [rollDice_sessions]
    exact hs
  | disconnect sid =>
    show a ∉ ((disconnect st sid).1.sessions s).joined
    rw [disconnect_sessions]
    unfold detach setSession
    by_cases hsid : s = sid
    · subst hsid
      simp
    · simp only [hsid, if_false]
      exact hs

theorem observedStep_rollDice_unattached (a : String) (s : SessionId) (st : State)
    (sid : SessionId) (diceType : String) (result : Int) (username : String) (now : Nat)
    (hs : a ∉ (st.sessions s).joined) :
    observedStep s st (Event.rollDice sid a diceType result username now) = [] := by
  have hs2 := notAttached_step a s st (Event.rollDice sid a diceType result username now) hs rfl
  unfold observedStep
  have he : (step st (Event.rollDice sid a diceType result username now)).2 =
      (rollDice st a diceType result username now).2 := rfl
  rw [he, rollDice_emits]
  split
  · simp only [List.filter_cons, receives_room_false _ s a _ hs2]
    rfl
  · rfl

theorem observedStep_agree (a : String) (s : SessionId) (st1 st2 : State) (e : Event)
    (h : AgreeOutside a st1 st2) (hj : neverJoins s a [e] = true)
    (hroll : ∀ sid d res u now, e ≠ Event.rollDice sid a d res u now) :
    observedStep s st1 e = observedStep s st2 e := by
  have hrecv : (fun m => receives (step st1 e).1 s m) = fun m => receives (step st2 e).1 s m :=
    funext fun m => receives_congr _ _ s m (step_sessions_congr st1 st2 e h.1)
  unfold observedStep
  rw [hrecv]
  cases e with
  | joinRoom sid r u =>
    have e1 : (step st1 (Event.joinRoom sid r u)).2 = (joinRoom st1 sid r u).2 := rfl
    have e2 : (step st2 (Event.joinRoom sid r u)).2 = (joinRoom st2 sid r u).2 := rfl
    rw [e1, e2, joinRoom_emits, joinRoom_emits, members_congr st1 st2 r (h.2 r).1]
    by_cases hr : r = a
    · subst hr
      have hsid : ¬ sid = s := by
        simpa [neverJoins] using hj
      simp [List.filter_cons, receives, hsid]
    · rw [history_congr st1 st2 r ((h.2 r).2 hr)]
  | rollDice sid r d res u now =>
    have hr : r ≠ a := by
      intro hra
      subst hra
      exact hroll sid d res u now rfl
    have e1 : (step st1 (Event.rollDice sid r d res u now)).2 =
        (rollDice st1 r d res u now).2 := rfl
    have e2 : (step st2 (Event.rollDice sid r d res u now)).2 =
        (rollDice st2 r d res u now).2 := rfl
    rw [e1, e2, rollDice_emits, rollDice_emits]
    unfold mapHas
    rw [(h.2 r).2 hr]
  | disconnect sid =>
    have e1 : (step st1 (Event.disconnect sid)).2 = (disconnect st1 sid).2 := rfl
    have e2 : (step st2 (Event.disconnect sid)).2 = (disconnect st2 sid).2 := rfl
    rw [e1, e2, disconnect_emits, disconnect_emits, h.1]
    cases leaving (st2.sessions sid) with
    | none => rfl
    | some p =>
      obtain ⟨r0, u⟩ := p
      have h1 := (h.2 r0).1
      cases hg1 : mapGet st1.rooms r0 with
      | none =>
        cases hg2 : mapGet st2.rooms r0 with
        | none => simp only [hg1, hg2]
        | some room2 => simp [hg1, hg2] at h1
      | some room1 =>
        cases hg2 : mapGet st2.rooms r0 with
        | none => simp [hg1, hg2] at h1
        | some room2 =>
          simp only [hg1, hg2, Option.map_some', Option.some.injEq] at h1
          simp only [hg1, hg2, h1]

theorem observed_purge (a : String) (s : SessionId) (es : List Event) :
    ∀ st1 st2 : State, AgreeOutside a st1 st2 → a ∉ (st1.sessions s).joined →
      neverJoins s a es = true → observed s st1 es = observed s st2 (purge a es) := by
  induction es with
  | nil => intro st1 st2 _ _ _; rfl
  | cons e es ih =>
    intro st1 st2 h hs hj
    obtain ⟨hj1, hj2⟩ := neverJoins_cons s a e es hj
    have hs2 := notAttached_step a s st1 e hs hj1
    by_cases hroll : ∃ sid d res u now, e = Event.rollDice sid a d res u now
    · obtain ⟨sid, d, res, u, now, he⟩ := hroll
      subst he
      rw [observed_cons, observedStep_rollDice_unattached a s st1 sid d res u now hs]
      simp only [purge, if_true, List.nil_append]
      exact ih _ st2 (agreeOutside_rollDice_left a st1 st2 d res u now h) hs2 hj2
    · have hroll2 : ∀ sid d res u now, e ≠ Event.rollDice sid a d res u now :=
        fun sid d res u now he => hroll ⟨sid, d, res, u, now, he⟩
      have hp : purge a (e :: es) = e :: purge a es := by
        cases e with
        | joinRoom sid r u => rfl
        | disconnect sid => rfl
        | rollDice sid r d res u now =>
          have hr : ¬ r = a := by
            intro hra
            subst hra
            exact hroll2 sid d res u now rfl
          simp only [purge, hr, if_false]
      rw [hp, observed_cons, observed_cons, observedStep_agree a s st1 st2 e h hj1 hroll2]
      rw [ih _ _ (agreeOutside_step a st1 st2 e h) hs2 hj2]

theorem agreeOutside_refl (a : String) (st : State) : AgreeOutside a st st :=
  ⟨rfl, fun _ => ⟨rfl, fun _ => rfl⟩⟩

theorem emissions_not_to_unattached (a : String) (s : SessionId) (es : List Event) :
    ∀ st : State, a ∉ (st.sessions s).joined → neverJoins s a es = true →
      ∀ p ∈ emissions st es, receives p.1 s p.2 = true → p.2.target ≠ Target.room a := by
  induction es with
  | nil =>
    intro st _ _ p hp
    simp [emissions] at hp
  | cons e es ih =>
    intro st hs hj p hp hrecv htarget
    obtain ⟨hj1, hj2⟩ := neverJoins_cons s a e es hj
    have hs2 := notAttached_step a s st e hs hj1
    simp only [emissions, List.mem_append, List.mem_map] at hp
    rcases hp with ⟨m, _, hm⟩ | hp
    · subst hm
      have hm2 : m = { target := Target.room a, payload := m.payload } := by
        cases m
        simp only at htarget
        rw [htarget]
      rw [hm2, receives_room_false _ s a _ hs2] at hrecv
      exact absurd hrecv (by decide)
    · exact ih _ hs2 hj2 p hp hrecv htarget

theorem sameFields_step (st1 st2 : State) (e : Event) (h : SameFields st1 st2) :
    (step st1 e).2 = (step st2 e).2 ∧ SameFields (step st1 e).1 (step st2 e).1 := by
  obtain ⟨hr, hf⟩ := h
  have hm : ∀ r, members st1 r = members st2 r := fun r => by unfold members; rw [hr]
  have hh : ∀ r, history st1 r = history st2 r := fun r => by unfold history; rw [hr]
  cases e with
  | joinRoom sid r u =>
    refine ⟨?_, ?_, ?_⟩
    · show (joinRoom st1 sid r u).2 = (joinRoom st2 sid r u).2
      rw [joinRoom_emits, joinRoom_emits, hm, hh]
    · show (joinRoom st1 sid r u).1.rooms = (joinRoom st2 sid r u).1.rooms
      rw [joinRoom_rooms, joinRoom_rooms, hm, hh, hr]
    · intro s
      show ((joinRoom st1 sid r u).1.sessions s).username =
          ((joinRoom st2 sid r u).1.sessions s).username ∧
        ((joinRoom st1 sid r u).1.sessions s).currentRoom =
          ((joinRoom st2 sid r u).1.sessions s).currentRoom
      rw [joinRoom_sessions, joinRoom_sessions]
      unfold setSession
      by_cases hs : s = sid
      · simp only [hs, if_true, and_self]
      · simp only [hs, if_false]
        exact hf s
  | rollDice sid r d res u now =>
    show (rollDice st1 r d res u now).2 = (rollDice st2 r d res u now).2 ∧
      SameFields (rollDice st1 r d res u now).1 (rollDice st2 r d res u now).1
    cases hg : mapGet st2.rooms r with
    | none =>
      have hg1 : mapGet st1.rooms r = none := by rw [hr]; exact hg
      rw [rollDice_absent st1 r d res u now hg1, rollDice_absent st2 r d res u now hg]
      exact ⟨rfl, hr, hf⟩
    | some room =>
      have hg1 : mapGet st1.rooms r = some room := by rw [hr]; exact hg
      rw [rollDice_present st1 r d res u now room hg1,
        rollDice_present st2 r d res u now room hg]
      refine ⟨rfl, ?_, hf⟩
      show mapSet st1.rooms r _ = mapSet st2.rooms r _
      rw [hr]
  | disconnect sid =>
    show (disconnect st1 sid).2 = (disconnect st2 sid).2 ∧
      SameFields (disconnect st1 sid).1 (disconnect st2 sid).1
    have hsess : ∀ s : SessionId,
        ((disconnect st1 sid).1.sessions s).username =
          ((disconnect st2 sid).1.sessions s).username ∧
        ((disconnect st1 sid).1.sessions s).currentRoom =
          ((disconnect st2 sid).1.sessions s).currentRoom := by
      intro s
      rw [disconnect_sessions, disconnect_sessions]
      unfold detach setSession
      by_cases hs : s = sid
      · simp only [hs, if_true]
        exact hf sid
      · simp only [hs, if_false]
        exact hf s
    have hl : leaving (st1.sessions sid) = leaving (st2.sessions sid) := by
      unfold leaving
      rw [(hf sid).1, (hf sid).2]
    refine ⟨?_, ?_, hsess⟩
    · rw [disconnect_emits, disconnect_emits, hl, hr]
    · rcases disconnect_cases st1 sid with h1 | ⟨r1, u1, room1, hc1, hu1, hr1, hu1n, hg1, h1⟩
      · have hskip1 : leaving (st1.sessions sid) = none ∨
            ∃ r0 u0, leaving (st1.sessions sid) = some (r0, u0) ∧ mapGet st1.rooms r0 = none := by
          cases hl1 : leaving (st1.sessions sid) with
          | none => exact Or.inl rfl
          | some p =>
            obtain ⟨r0, u0⟩ := p
            right
            refine ⟨r0, u0, rfl, ?_⟩
            obtain ⟨hc0, hu0, hr0, hu0n⟩ := leaving_eq_some _ r0 u0 hl1
            cases hg0 : mapGet st1.rooms r0 with
            | none => rfl
            | some room0 =>
              have hpres := disconnect_present st1 sid r0 u0 room0 hc0 hu0 hr0 hu0n hg0
              rw [h1] at hpres
              have h2 := congrArg Prod.snd hpres
              simp at h2
        have hrooms1 : (disconnect st1 sid).1.rooms = st1.rooms := by rw [h1]
        have hrooms2 : (disconnect st2 sid).1.rooms = st2.rooms := by
          rcases hskip1 with hn | ⟨r0, u0, hl0, hg0⟩
          · rw [hl] at hn
            rw [disconnect_skip st2 sid ((leaving_eq_none_iff _).1 hn)]
          · rw [hl] at hl0
            rw [hr] at hg0
            obtain ⟨hc0, hu0, hr0, hu0n⟩ := leaving_eq_some _ r0 u0 hl0
            rw [disconnect_absent st2 sid r0 u0 hc0 hu0 hg0]
        rw [hrooms1, hrooms2]
        exact hr
      · have hc2 : (st2.sessions sid).currentRoom = some r1 := by rw [← (hf sid).2]; exact hc1
        have hu2 : (st2.sessions sid).username = some u1 := by rw [← (hf sid).1]; exact hu1
        have hg2 : mapGet st2.rooms r1 = some room1 := by rw [← hr]; exact hg1
        rw [h1, disconnect_present st2 sid r1 u1 room1 hc2 hu2 hr1 hu1n hg2]
        show (if (setDelete room1.users u1).length = 0 then _ else _) =
          (if (setDelete room1.users u1).length = 0 then _ else _)
        rw [hr]

theorem sameFields_run (es : List Event) :
    ∀ st1 st2 : State, SameFields st1 st2 →
      SameFields (run st1 es) (run st2 es) ∧
      (emissions st1 es).map Prod.snd = (emissions st2 es).map Prod.snd := by
  induction es with
  | nil =>
    intro st1 st2 h
    exact ⟨h, rfl⟩
  | cons e es ih =>
    intro st1 st2 h
    obtain ⟨hemit, hnext⟩ := sameFields_step st1 st2 e h
    obtain ⟨hrun, hrest⟩ := ih _ _ hnext
    refine ⟨hrun, ?_⟩
    show (((step st1 e).2.map fun m => ((step st1 e).1, m)) ++
        emissions (step st1 e).1 es).map Prod.snd =
      (((step st2 e).2.map fun m => ((step st2 e).1, m)) ++
        emissions (step st2 e).1 es).map Prod.snd
    rw [List.map_append, List.map_append, List.map_map, List.map_map, hrest, hemit]
    rfl

/-- The registry, the socket fields and the emissions of a run are the same
with and without the private rooms of the sockets. -/
theorem run_connected (ids : SessionId → String) (es : List Event) :
    (run (State.connected ids) es).rooms = (run State.init es).rooms ∧
    (∀ sid : SessionId,
      ((run (State.connected ids) es).sessions sid).username =
        ((run State.init es).sessions sid).username ∧
      ((run (State.connected ids) es).sessions sid).currentRoom =
        ((run State.init es).sessions sid).currentRoom) ∧
    (emissions (State.connected ids) es).map Prod.snd =
      (emissions State.init es).map Prod.snd := by
  have h0 : SameFields (State.connected ids) State.init := ⟨rfl, fun _ => ⟨rfl, rfl⟩⟩
  obtain ⟨⟨hr, hf⟩, he⟩ := sameFields_run es _ _ h0
  exact ⟨hr, hf, he⟩

/-- C6, as the code has it: a session that never joins room `a`, and whose
socket id is not `a`, observes nothing of what is submitted to `a`: from the
empty registry, with every socket attached to the private room named by its
id, the sequence of payloads delivered to it (dice-rolled, roll-history and the
membership messages) is the same as when every roll-dice submission to `a` is
taken out of the events, and no emission delivered to it is addressed to room
`a`. -/
theorem C6_rooms_isolated (ids : SessionId → String) (a : String) (s : SessionId)
    (es : List Event) (h : neverJoins s a es = true) (hid : a ≠ ids s) :
    observed s (State.connected ids) es = observed s (State.connected ids) (purge a es) ∧
    (∀ p ∈ emissions (State.connected ids) es,
      receives p.1 s p.2 = true → p.2.target ≠ Target.room a) := by
  have hs : a ∉ ((State.connected ids).sessions s).joined := by
    simp [State.connected, Session.fresh, hid]
  exact ⟨observed_purge a s es _ _ (agreeOutside_refl a _) hs h,
    emissions_not_to_unattached a s es _ hs h⟩

theorem C6_rooms_isolated_witness :
    (neverJoins 1 "a" exampleTwoRoomEvents = true ∧ "a" ≠ exampleIds 1) ∧
    (observed 1 (State.connected exampleIds) exampleTwoRoomEvents =
        observed 1 (State.connected exampleIds) (purge "a" exampleTwoRoomEvents) ∧
      (∀ p ∈ emissions (State.connected exampleIds) exampleTwoRoomEvents,
        receives p.1 1 p.2 = true → p.2.target ≠ Target.room "a")) :=
  ⟨⟨by decide, by decide⟩,
   C6_rooms_isolated exampleIds "a" 1 exampleTwoRoomEvents (by decide) (by decide)⟩

/-- C6 as stated fails: session 1, which has the socket id `socket-1`, joins
room `b` and never joins the room `socket-1`; session 0 joins the room
`socket-1` and rolls there. Session 1 is delivered the user-joined message of
that room and the dice-rolled message with the record submitted to it; without
the submission it is delivered one message less. -/
theorem C6_own_id_room_observed :
    exampleIds 1 = "socket-1" ∧
    neverJoins 1 "socket-1" exampleOwnIdRoom = true ∧
    "b" ∈ ((run (State.connected exampleIds) exampleOwnIdRoom).sessions 1).joined ∧
    observed 1 (State.connected exampleIds) exampleOwnIdRoom =
      [ Payload.userJoined "y" ["y"], Payload.rollHistory [],
        Payload.userJoined "x" ["x"],
        Payload.diceRolled
          { username := "x", diceType := "d20", result := 17, timestamp := 1000 } ] ∧
    observed 1 (State.connected exampleIds) (purge "socket-1" exampleOwnIdRoom) =
      [ Payload.userJoined "y" ["y"], Payload.rollHistory [],
        Payload.userJoined "x" ["x"] ] := by
  decide

/-! ## Roll: routed by the payload -/

/-- C7, as the code has it: a roll-dice submission changes the history of a
room, and is broadcast to a room, only if that room is the one named by the
payload and it is in the registry; when it is, the record is pushed on that
room and broadcast to it, for every submitting session, whatever its current
room. -/
theorem C7_roll_routed_by_payload (st : State) (sid : SessionId)
    (roomId diceType : String) (result : Int) (username : String) (now : Nat) :
    (∀ r : String,
      history (step st (Event.rollDice sid roomId diceType result username now)).1 r ≠
          history st r →
        r = roomId ∧ mapHas st.rooms roomId = true) ∧
    (∀ m ∈ (step st (Event.rollDice sid roomId diceType result username now)).2,
      m.target = Target.room roomId ∧ mapHas st.rooms roomId = true) ∧
    (mapHas st.rooms roomId = true →
      history (step st (Event.rollDice sid roomId diceType result username now)).1 roomId =
          pushRoll (history st roomId) ⟨username, diceType, result, now⟩ ∧
        (step st (Event.rollDice sid roomId diceType result username now)).2 =
          [ { target := Target.room roomId,
              payload := Payload.diceRolled ⟨username, diceType, result, now⟩ } ]) := by
  have hstep : step st (Event.rollDice sid roomId diceType result username now) =
      rollDice st roomId diceType result username now := rfl
  rw [hstep]
  refine ⟨?_, ?_, ?_⟩
  · intro r hne
    by_cases hr : r = roomId
    · refine ⟨hr, ?_⟩
      subst hr
      cases hh : mapHas st.rooms r with
      | true => rfl
      | false =>
        rw [rollDice_absent st r diceType result username now
          ((mapHas_eq_false_iff _ _).1 hh)] at hne
        exact absurd rfl hne
    · exact absurd (history_rollDice_ne st roomId diceType result username now r hr) hne
  · intro m hm
    rw [rollDice_emits] at hm
    cases hh : mapHas st.rooms roomId with
    | true =>
      simp only [hh, if_true, List.mem_singleton] at hm
      rw [hm]
      exact ⟨rfl, rfl⟩
    | false => simp [hh] at hm
  · intro hh
    refine ⟨history_rollDice_same st roomId diceType result username now hh, ?_⟩
    rw [rollDice_emits]
    simp only [hh, if_true]

/-- C7 as stated fails: session 1, whose current room is `"b"`, submits a roll
with `roomId` `"a"`; the record is pushed on the history of `"a"` and broadcast
to `"a"`, where session 0 receives it. -/
theorem C7_cross_room_submission :
    (exampleTwoRooms.sessions 1).currentRoom = some "b" ∧
    history (step exampleTwoRooms (Event.rollDice 1 "a" "d20" 17 "y" 1000)).1 "a" =
      [⟨"y", "d20", 17, 1000⟩] ∧
    (step exampleTwoRooms (Event.rollDice 1 "a" "d20" 17 "y" 1000)).2 =
      [ { target := Target.room "a", payload := Payload.diceRolled ⟨"y", "d20", 17, 1000⟩ } ] ∧
    receives (step exampleTwoRooms (Event.rollDice 1 "a" "d20" 17 "y" 1000)).1 0
      { target := Target.room "a", payload := Payload.diceRolled ⟨"y", "d20", 17, 1000⟩ } =
        true := by
  decide

/-! ## Disconnect -/

theorem step_disconnect_present (st : State) (sid : SessionId) (r u : String) (room : Room)
    (hr : (st.sessions sid).currentRoom = some r) (hu : (st.sessions sid).username = some u)
    (hr0 : r ≠ "") (hu0 : u ≠ "") (hg : mapGet st.rooms r = some room) :
    mapGet (step st (Event.disconnect sid)).1.rooms r = leaveRoom u room ∧
    (step st (Event.disconnect sid)).2 =
      [ { target := Target.room r,
          payload := Payload.userLeft u (setDelete room.users u) } ] := by
  have hstep : step st (Event.disconnect sid) = disconnect st sid := rfl
  have hl : leaving (st.sessions sid) = some (r, u) := by
    unfold leaving
    simp only [hr, hu]
    rw [if_pos ⟨hr0, hu0⟩]
  rw [hstep, mapGet_disconnect, disconnect_emits, hl]
  simp only [if_true, hg, Option.some_bind, and_self]

/-- C8: when a disconnect removes the last member name of a room, the room and
its history are gone from the registry, and a join-room with the same identifier
afterwards makes a new room: the member list broadcast is the joiner alone and
the roll-history sent to the joiner is empty. -/
theorem C8_last_leave_deletes_room (st : State) (sid : SessionId) (r u : String)
    (room : Room) (joiner : SessionId) (name : String)
    (hr : (st.sessions sid).currentRoom = some r) (hu : (st.sessions sid).username = some u)
    (hr0 : r ≠ "") (hu0 : u ≠ "") (hg : mapGet st.rooms r = some room)
    (hlast : setDelete room.users u = []) :
    mapHas (step st (Event.disconnect sid)).1.rooms r = false ∧
    history (step st (Event.disconnect sid)).1 r = [] ∧
    (step (step st (Event.disconnect sid)).1 (Event.joinRoom joiner r name)).2 =
      [ { target := Target.room r, payload := Payload.userJoined name [name] },
        { target := Target.session joiner, payload := Payload.rollHistory [] } ] ∧
    mapGet (step (step st (Event.disconnect sid)).1 (Event.joinRoom joiner r name)).1.rooms r =
      some { users := [name], rolls := [] } := by
  have hgone : mapGet (step st (Event.disconnect sid)).1.rooms r = none := by
    rw [(step_disconnect_present st sid r u room hr hu hr0 hu0 hg).1]
    unfold leaveRoom
    rw [hlast]
    rfl
  have hmem : members (step st (Event.disconnect sid)).1 r = [] := by
    unfold members
    rw [hgone]
  have hhist : history (step st (Event.disconnect sid)).1 r = [] := by
    unfold history
    rw [hgone]
  refine ⟨(mapHas_eq_false_iff _ _).2 hgone, hhist, ?_, ?_⟩
  · show (joinRoom (step st (Event.disconnect sid)).1 joiner r name).2 = _
    rw [joinRoom_emits, hmem, hhist]
    rfl
  · show mapGet (joinRoom (step st (Event.disconnect sid)).1 joiner r name).1.rooms r = _
    rw [mapGet_joinRoom, hmem, hhist, if_pos rfl]
    rfl

theorem C8_last_leave_deletes_room_witness :
    ((exampleOneRoll.sessions 0).currentRoom = some "t" ∧
      (exampleOneRoll.sessions 0).username = some "a" ∧
      mapGet exampleOneRoll.rooms "t" = some ⟨["a"], [⟨"a", "d20", 17, 1000⟩]⟩ ∧
      setDelete ["a"] "a" = []) ∧
    (mapHas (step exampleOneRoll (Event.disconnect 0)).1.rooms "t" = false ∧
      history (step exampleOneRoll (Event.disconnect 0)).1 "t" = [] ∧
      (step (step exampleOneRoll (Event.disconnect 0)).1 (Event.joinRoom 1 "t" "b")).2 =
        [ { target := Target.room "t", payload := Payload.userJoined "b" ["b"] },
          { target := Target.session 1, payload := Payload.rollHistory [] } ] ∧
      mapGet (step (step exampleOneRoll (Event.disconnect 0)).1
          (Event.joinRoom 1 "t" "b")).1.rooms "t" =
        some { users := ["b"], rolls := [] }) :=
  ⟨⟨by decide, by decide, by decide, by decide⟩,
   C8_last_leave_deletes_room exampleOneRoll 0 "t" "a" ⟨["a"], [⟨"a", "d20", 17, 1000⟩]⟩
     1 "b" (by decide) (by decide) (by decide) (by decide) (by decide) (by decide)⟩

/-- C9, as the code has it: the disconnect of a session whose current room and
name are both set and non-empty, and whose room is in the registry, emits one
user-left notification, addressed to the room, with the name of the leaver and
the member list left after the removal, also when that list is empty; the room
is then deleted exactly when the list is empty, and otherwise stays with that
list as its member set. -/
theorem C9_leave_always_notifies (st : State) (sid : SessionId) (r u : String) (room : Room)
    (hr : (st.sessions sid).currentRoom = some r) (hu : (st.sessions sid).username = some u)
    (hr0 : r ≠ "") (hu0 : u ≠ "") (hg : mapGet st.rooms r = some room) :
    (step st (Event.disconnect sid)).2 =
      [ { target := Target.room r,
          payload := Payload.userLeft u (setDelete room.users u) } ] ∧
    (mapHas (step st (Event.disconnect sid)).1.rooms r = false ↔
      setDelete room.users u = []) ∧
    (setDelete room.users u ≠ [] →
      mapGet (step st (Event.disconnect sid)).1.rooms r =
        some { users := setDelete room.users u, rolls := room.rolls }) := by
  obtain ⟨h1, h2⟩ := step_disconnect_present st sid r u room hr hu hr0 hu0 hg
  refine ⟨h2, ?_, ?_⟩
  · rw [mapHas_eq_false_iff, h1]
    unfold leaveRoom
    by_cases he : setDelete room.users u = []
    · simp [he]
    · have he2 : ¬ (setDelete room.users u).length = 0 :=
        fun e => he (List.length_eq_zero.mp e)
      simp [he, he2]
  · intro he
    have he2 : ¬ (setDelete room.users u).length = 0 :=
      fun e => he (List.length_eq_zero.mp e)
    rw [h1]
    unfold leaveRoom
    rw [if_neg he2]

theorem C9_leave_always_notifies_witness :
    ((exampleSameName.sessions 0).currentRoom = some "r" ∧
      (exampleSameName.sessions 0).username = some "a" ∧
      mapGet exampleSameName.rooms "r" = some ⟨["a"], []⟩) ∧
    ((step exampleSameName (Event.disconnect 0)).2 =
        [ { target := Target.room "r",
            payload := Payload.userLeft "a" (setDelete ["a"] "a") } ] ∧
      (mapHas (step exampleSameName (Event.disconnect 0)).1.rooms "r" = false ↔
        setDelete ["a"] "a" = []) ∧
      (setDelete ["a"] "a" ≠ [] →
        mapGet (step exampleSameName (Event.disconnect 0)).1.rooms "r" =
          some { users := setDelete ["a"] "a", rolls := [] })) :=
  ⟨⟨by decide, by decide, by decide⟩,
   C9_leave_always_notifies exampleSameName 0 "r" "a" ⟨["a"], []⟩
     (by decide) (by decide) (by decide) (by decide) (by decide)⟩

/-- C9 as stated fails: sessions 0 and 1 are in room `"r"` under the same name;
the disconnect of session 0 empties the member set and deletes the room, and a
user-left notification with the empty member list is emitted to the room all
the same, where session 1 receives it. -/
theorem C9_notified_although_emptied :
    mapHas (step exampleSameName (Event.disconnect 0)).1.rooms "r" = false ∧
    (step exampleSameName (Event.disconnect 0)).2 =
      [ { target := Target.room "r", payload := Payload.userLeft "a" [] } ] ∧
    receives (step exampleSameName (Event.disconnect 0)).1 1
      { target := Target.room "r", payload := Payload.userLeft "a" [] } = true := by
  decide

/-- C10: the disconnect of a session with no current room leaves the registry
as it is and emits nothing; no session's name or current room changes, and when
the socket is attached to no room, as is every socket that never joined, the
whole state is unchanged. -/
theorem C10_disconnect_without_room (st : State) (sid : SessionId)
    (h : (st.sessions sid).currentRoom = none) :
    (step st (Event.disconnect sid)).1.rooms = st.rooms ∧
    (step st (Event.disconnect sid)).2 = [] ∧
    (∀ i : SessionId,
      ((step st (Event.disconnect sid)).1.sessions i).username = (st.sessions i).username ∧
      ((step st (Event.disconnect sid)).1.sessions i).currentRoom =
        (st.sessions i).currentRoom) ∧
    ((st.sessions sid).joined = [] → step st (Event.disconnect sid) = (st, [])) := by
  have hstep : step st (Event.disconnect sid) = disconnect st sid := rfl
  have hskip := disconnect_skip st sid (by simp [h, truthy])
  rw [hstep, hskip]
  refine ⟨rfl, rfl, ?_, ?_⟩
  · intro i
    unfold detach setSession
    by_cases hi : i = sid
    · subst hi
      simp
    · simp [hi]
  · intro hj
    have hd : detach st sid = st.sessions := by
      funext i
      unfold detach setSession
      by_cases hi : i = sid
      · subst hi
        simp only [if_true]
        rw [← hj]
      · simp [hi]
    rw [hd]

theorem C10_disconnect_without_room_witness :
    (exampleTable.sessions 5).currentRoom = none ∧
    ((step exampleTable (Event.disconnect 5)).1.rooms = exampleTable.rooms ∧
      (step exampleTable (Event.disconnect 5)).2 = [] ∧
      (∀ i : SessionId,
        ((step exampleTable (Event.disconnect 5)).1.sessions i).username =
            (exampleTable.sessions i).username ∧
          ((step exampleTable (Event.disconnect 5)).1.sessions i).currentRoom =
            (exampleTable.sessions i).currentRoom) ∧
      ((exampleTable.sessions 5).joined = [] →
        step exampleTable (Event.disconnect 5) = (exampleTable, []))) :=
  ⟨by decide, C10_disconnect_without_room exampleTable 5 (by decide)⟩

/-! ## Membership after a replay of joins and leaves -/

theorem members_joinRoom (st : State) (sid : SessionId) (roomId username : String) :
    members (joinRoom st sid roomId username).1 roomId =
      setAdd (members st roomId) username := by
  show (match mapGet (joinRoom st sid roomId username).1.rooms roomId with
    | some room => room.users
    | none => []) = _
  rw [mapGet_joinRoom, if_pos rfl]

theorem members_rollDice (st : State) (roomId diceType : String) (result : Int)
    (username : String) (now : Nat) (r : String) :
    members (rollDice st roomId diceType result username now).1 r = members st r := by
  unfold members
  rw [mapGet_rollDice]
  by_cases h : r = roomId
  · subst h
    cases mapGet st.rooms r <;> simp
  · simp [h]

theorem mem_members_disconnect (st : State) (sid : SessionId) (r u n : String)
    (hl : leaving (st.sessions sid) = some (r, u)) :
    n ∈ members (disconnect st sid).1 r ↔ n ∈ members st r ∧ n ≠ u := by
  unfold members
  rw [mapGet_disconnect, hl]
  simp only [if_true]
  cases hg : mapGet st.rooms r with
  | none => simp
  | some room =>
    simp only [Option.some_bind, leaveRoom]
    by_cases he : (setDelete room.users u).length = 0
    · have he2 : setDelete room.users u = [] := List.length_eq_zero.mp he
      have := mem_setDelete room.users u n
      rw [he2] at this
      simp only [he, if_true, List.not_mem_nil, false_iff]
      exact fun hc => (List.not_mem_nil n) (this.2 hc)
    · simp only [he, if_false]
      exact mem_setDelete room.users u n

theorem members_disconnect_skip (st : State) (sid : SessionId) (r : String)
    (hl : leaving (st.sessions sid) = none) :
    members (disconnect st sid).1 r = members st r := by
  unfold members
  rw [mapGet_disconnect, hl]

theorem leaving_setSession (f : SessionId → Session) (sid i : SessionId) (sess : Session) :
    leaving (setSession f sid sess i) = if i = sid then leaving sess else leaving (f i) := by
  unfold setSession
  by_cases h : i = sid
  · simp [h]
  · simp [h]

theorem tracks_step (roomId : String) (hR : roomId ≠ "") (names : SessionId → Option String)
    (st : State) (e : Event) (ht : Tracks roomId names st)
    (hj : joinsOnly roomId [e] = true) :
    Tracks roomId
      (match e with
        | Event.joinRoom sid _ u => fun i => if i = sid then some u else names i
        | _ => names)
      (step st e).1 := by
  intro i
  cases e with
  | joinRoom sid r u =>
    simp only [joinsOnly, Bool.and_true, Bool.and_eq_true, decide_eq_true_eq,
      Bool.not_eq_true', decide_eq_false_iff_not] at hj
    obtain ⟨hr, hu⟩ := hj
    subst hr
    show leaving ((joinRoom st sid r u).1.sessions i) = _
    rw [joinRoom_sessions, leaving_setSession]
    by_cases hi : i = sid
    · simp only [hi, if_true, Option.map_some']
      unfold leaving
      simp only
      rw [if_pos ⟨hR, hu⟩]
    · simp only [hi, if_false]
      exact ht i
  | rollDice sid r d res u now =>
    show leaving ((rollDice st r d res u now).1.sessions i) = _
    rw [rollDice_sessions]
    exact ht i
  | disconnect sid =>
    show leaving ((disconnect st sid).1.sessions i) = _
    rw [disconnect_sessions]
    unfold detach
    rw [leaving_setSession]
    by_cases hi : i = sid
    · simp only [hi, if_true]
      rw [← ht sid]
      rfl
    · simp only [hi, if_false]
      exact ht i

theorem joinsOnly_cons (roomId : String) (e : Event) (es : List Event)
    (h : joinsOnly roomId (e :: es) = true) :
    joinsOnly roomId [e] = true ∧ joinsOnly roomId es = true := by
  cases e with
  | joinRoom sid r u =>
    simp only [joinsOnly, Bool.and_eq_true, Bool.and_true] at h ⊢
    exact ⟨h.1, h.2⟩
  | rollDice sid r d res u now => exact ⟨rfl, h⟩
  | disconnect sid => exact ⟨rfl, h⟩

theorem mem_members_run (roomId : String) (hR : roomId ≠ "") (n : String)
    (es : List Event) :
    ∀ (st : State) (names : SessionId → Option String),
      Tracks roomId names st → joinsOnly roomId es = true →
      (n ∈ members (run st es) roomId ↔
        (lastOp n (nameOps names es)).getD (decide (n ∈ members st roomId)) = true) := by
  induction es with
  | nil =>
    intro st names _ _
    simp [run, nameOps, lastOp]
  | cons e es ih =>
    intro st names ht hj
    obtain ⟨hj1, hj2⟩ := joinsOnly_cons roomId e es hj
    have ht1 := tracks_step roomId hR names st e ht hj1
    cases e with
    | joinRoom sid r u =>
      have hr : r = roomId := by
        simp only [joinsOnly, Bool.and_true, Bool.and_eq_true, decide_eq_true_eq] at hj1
        exact hj1.1
      subst hr
      have hih := ih _ _ ht1 hj2
      have hm : members (step st (Event.joinRoom sid r u)).1 r = setAdd (members st r) u :=
        members_joinRoom st sid r u
      simp only [run, nameOps, lastOp]
      rw [hih]
      cases hlo : lastOp n (nameOps (fun i => if i = sid then some u else names i) es) with
      | some b => rfl
      | none =>
        simp only [Option.getD_none, decide_eq_true_eq, hm, mem_setAdd]
        by_cases hun : u = n
        · simp [hun]
        · have hnu : ¬ n = u := fun e => hun e.symm
          simp [hun, hnu]
    | rollDice sid r d res u now =>
      have hih := ih _ _ ht1 hj2
      have hm : members (step st (Event.rollDice sid r d res u now)).1 roomId =
          members st roomId := members_rollDice st r d res u now roomId
      simp only [run, nameOps]
      rw [hih, hm]
    | disconnect sid =>
      have hih := ih _ _ ht1 hj2
      have hl := ht sid
      simp only [run, nameOps]
      rw [hih]
      cases hn : names sid with
      | none =>
        rw [hn] at hl
        have hm : members (step st (Event.disconnect sid)).1 roomId = members st roomId :=
          members_disconnect_skip st sid roomId hl
        simp only [hm]
      | some u =>
        rw [hn] at hl
        have hm := mem_members_disconnect st sid roomId u n hl
        simp only [lastOp]
        cases hlo : lastOp n (nameOps names es) with
        | some b => rfl
        | none =>
          have hm2 : (n ∈ members (step st (Event.disconnect sid)).1 roomId) ↔
              n ∈ members st roomId ∧ n ≠ u := hm
          simp only [Option.getD_none, decide_eq_true_eq, hm2]
          by_cases hun : u = n
          · simp [hun]
          · have hnu : ¬ n = u := fun e => hun e.symm
            simp [hun, hnu]

/-- Replay of joins and leaves on one room with a non-empty identifier and
non-empty display names: from the empty registry, a name is in the member set
afterwards exactly when the last call on it is a join. -/
theorem members_after_replay (roomId : String) (es : List Event) (n : String)
    (hR : roomId ≠ "") (hj : joinsOnly roomId es = true) :
    n ∈ members (run State.init es) roomId ↔
      lastOp n (nameOps (fun _ => none) es) = some true := by
  have ht : Tracks roomId (fun _ => none) State.init := fun _ => rfl
  rw [mem_members_run roomId hR n es State.init _ ht hj]
  have h0 : members State.init roomId = [] := rfl
  rw [h0]
  cases lastOp n (nameOps (fun _ => none) es) with
  | none => simp
  | some b => cases b <;> simp

/-- C4 fails on the code for the empty display name: session 0 joins room `"r"`
under the name `""` and disconnects; the last call on that name is a leave,
and the name is still in the member set of `"r"`, which stays in the registry,
because the disconnect handler takes the empty name for no name. -/
theorem C4_empty_name_never_leaves :
    lastOp "" (nameOps (fun _ => none) [Event.joinRoom 0 "r" "", Event.disconnect 0]) =
      some false ∧
    members (run State.init [Event.joinRoom 0 "r" "", Event.disconnect 0]) "r" = [""] ∧
    (step (run State.init [Event.joinRoom 0 "r" ""]) (Event.disconnect 0)).2 = [] := by
  decide

/-! ## The capacity of the history -/

theorem historyBounded_init : HistoryBounded State.init := by
  intro p hp
  simp [State.init] at hp

theorem history_length_le (st : State) (r : String) (h : HistoryBounded st) :
    (history st r).length ≤ 50 := by
  unfold history
  cases hg : mapGet st.rooms r with
  | none => exact Nat.zero_le _
  | some room => exact h (r, room) (mapGet_some_mem _ _ _ hg)

theorem historyBounded_step (st : State) (e : Event) (h : HistoryBounded st) :
    HistoryBounded (step st e).1 := by
  cases e with
  | joinRoom sid roomId username =>
    intro p hp
    have hp2 : p ∈ (joinRoom st sid roomId username).1.rooms := hp
    rw [joinRoom_rooms] at hp2
    rcases mem_mapSet _ _ _ _ hp2 with hp2 | hp2
    · exact h p hp2
    · rw [hp2]
      exact history_length_le st roomId h
  | rollDice sid roomId diceType result username now =>
    intro p hp
    have hp2 : p ∈ (rollDice st roomId diceType result username now).1.rooms := hp
    cases hg : mapGet st.rooms roomId with
    | none =>
      rw [rollDice_absent st roomId diceType result username now hg] at hp2
      exact h p hp2
    | some room =>
      rw [rollDice_present st roomId diceType result username now room hg] at hp2
      rcases mem_mapSet _ _ _ _ hp2 with hp2 | hp2
      · exact h p hp2
      · rw [hp2]
        exact pushRoll_length_le _ _ (h (roomId, room) (mapGet_some_mem _ _ _ hg))
  | disconnect sid =>
    intro p hp
    have hp2 : p ∈ (disconnect st sid).1.rooms := hp
    rcases disconnect_cases st sid with hd | ⟨r, u, room, _, _, _, _, hg, hd⟩
    · rw [hd] at hp2
      exact h p hp2
    · rw [hd] at hp2
      have hroom := h (r, room) (mapGet_some_mem _ _ _ hg)
      by_cases he : (setDelete room.users u).length = 0
      · simp only [he, if_true] at hp2
        rcases mem_mapSet _ _ _ _ (mem_mapDelete _ _ _ hp2).1 with hp3 | hp3
        · exact h p hp3
        · rw [hp3]
          exact hroom
      · simp only [he, if_false] at hp2
        rcases mem_mapSet _ _ _ _ hp2 with hp3 | hp3
        · exact h p hp3
        · rw [hp3]
          exact hroom

theorem historyBounded_run (es : List Event) :
    ∀ st : State, HistoryBounded st → HistoryBounded (run st es) := by
  induction es with
  | nil => intro st h; exact h
  | cons e es ih => intro st h; exact ih _ (historyBounded_step st e h)

/-- C20: in every state reached from the empty registry, every room of the
registry retains at most 50 records, so the history of every room identifier
has at most 50 records. -/
theorem C20_history_at_most_50 (es : List Event) :
    (∀ p ∈ (run State.init es).rooms, p.2.rolls.length ≤ 50) ∧
    (∀ roomId : String, (history (run State.init es) roomId).length ≤ 50) := by
  have hinv : HistoryBounded (run State.init es) :=
    historyBounded_run es _ historyBounded_init
  exact ⟨hinv, fun roomId => history_length_le _ roomId hinv⟩

/-! ## A second disconnect -/

theorem mapSet_of_mapGet {α : Type} (m : JSMap α) (k : String) (v : α)
    (h : mapGet m k = some v) : mapSet m k v = m := by
  induction m with
  | nil => simp [mapGet] at h
  | cons p rest ih =>
    obtain ⟨k0, v0⟩ := p
    by_cases h0 : k0 = k
    · simp only [mapGet, h0, if_true, Option.some.injEq] at h
      simp only [mapSet, h0, if_true, h]
    · simp only [mapGet, h0, if_false] at h
      simp only [mapSet, h0, if_false, ih h]

theorem setDelete_of_not_mem (s : List String) (x : String) (h : x ∉ s) :
    setDelete s x = s := by
  unfold setDelete
  rw [List.filter_eq_self]
  intro y hy
  have hne : ¬ y = x := fun e => h (e ▸ hy)
  simp [hne]

theorem not_mem_setDelete_self (s : List String) (x : String) : x ∉ setDelete s x := by
  intro h
  exact ((mem_setDelete s x x).1 h).2 rfl

theorem state_ext (st1 st2 : State) (h1 : st1.rooms = st2.rooms)
    (h2 : st1.sessions = st2.sessions) : st1 = st2 := by
  cases st1
  cases st2
  simp only at h1 h2
  rw [h1, h2]

theorem leaving_detach (st : State) (sid i : SessionId) :
    leaving (detach st sid i) = leaving (st.sessions i) := by
  unfold detach
  rw [leaving_setSession]
  by_cases h : i = sid
  · simp only [h, if_true]
    rfl
  · simp only [h, if_false]

theorem leaving_after_disconnect (st : State) (sid i : SessionId) :
    leaving ((disconnect st sid).1.sessions i) = leaving (st.sessions i) := by
  rw [disconnect_sessions]
  exact leaving_detach st sid i

theorem room_after_disconnect (st : State) (sid : SessionId) (r u : String) (room1 : Room)
    (hl : leaving (st.sessions sid) = some (r, u))
    (hg : mapGet (disconnect st sid).1.rooms r = some room1) :
    u ∉ room1.users ∧ room1.users ≠ [] := by
  rw [mapGet_disconnect, hl] at hg
  simp only [if_true] at hg
  cases hg0 : mapGet st.rooms r with
  | none => simp [hg0] at hg
  | some room =>
    simp only [hg0, Option.some_bind, leaveRoom] at hg
    by_cases he : (setDelete room.users u).length = 0
    · simp [he] at hg
    · simp only [he, if_false, Option.some.injEq] at hg
      rw [← hg]
      exact ⟨not_mem_setDelete_self _ _, fun e => he (List.length_eq_zero.mpr e)⟩

theorem disconnect_twice_state (st : State) (sid : SessionId) :
    (disconnect (disconnect st sid).1 sid).1 = (disconnect st sid).1 := by
  apply state_ext
  · rcases disconnect_cases (disconnect st sid).1 sid with hd | ⟨r, u, room1, hr, hu, hr0, hu0, hg, hd⟩
    · rw [hd]
    · have hl1 : leaving ((disconnect st sid).1.sessions sid) = some (r, u) := by
        unfold leaving
        simp only [hr, hu]
        rw [if_pos ⟨hr0, hu0⟩]
      have hl : leaving (st.sessions sid) = some (r, u) := by
        rw [← leaving_after_disconnect st sid sid]
        exact hl1
      obtain ⟨hnot, hne⟩ := room_after_disconnect st sid r u room1 hl hg
      have hlen : ¬ (setDelete room1.users u).length = 0 := by
        rw [setDelete_of_not_mem _ _ hnot]
        exact fun e => hne (List.length_eq_zero.mp e)
      rw [hd]
      simp only [hlen, if_false]
      rw [setDelete_of_not_mem _ _ hnot]
      exact mapSet_of_mapGet _ _ _ hg
  · rw [disconnect_sessions, disconnect_sessions]
    funext i
    unfold detach setSession
    rw [disconnect_sessions]
    unfold detach setSession
    by_cases h : i = sid
    · simp [h]
    · simp [h]

theorem disconnect_twice_emits (st : State) (sid : SessionId) :
    (disconnect (disconnect st sid).1 sid).2 =
      match leaving (st.sessions sid) with
      | some (r, u) =>
        match mapGet (disconnect st sid).1.rooms r with
        | some room =>
          [ { target := Target.room r, payload := Payload.userLeft u room.users } ]
        | none => []
      | none => [] := by
  rw [disconnect_emits, leaving_after_disconnect]
  cases hl : leaving (st.sessions sid) with
  | none => rfl
  | some p =>
    obtain ⟨r, u⟩ := p
    cases hg : mapGet (disconnect st sid).1.rooms r with
    | none => simp only [hg]
    | some room1 =>
      obtain ⟨hnot, _⟩ := room_after_disconnect st sid r u room1 hl hg
      simp only [hg]
      rw [setDelete_of_not_mem _ _ hnot]

theorem disconnect_emits_length (st : State) (sid : SessionId) :
    (disconnect st sid).2.length ≤ 1 := by
  rcases disconnect_cases st sid with hd | ⟨r, u, room, _, _, _, _, _, hd⟩
  · rw [hd]
    exact Nat.zero_le _
  · rw [hd]
    exact Nat.le_refl _

/-- C11, as the code has it: one disconnect emits at most one message; a second
disconnect of the same session right after the first leaves the registry and
every socket unchanged, and it emits nothing when the session has no usable
room and name or its room is no longer in the registry, but when the room is
still there it emits the user-left notification once more, with the same name
and the unchanged member list. -/
theorem C11_second_disconnect (st : State) (sid : SessionId) :
    (step st (Event.disconnect sid)).2.length ≤ 1 ∧
    (step (step st (Event.disconnect sid)).1 (Event.disconnect sid)).1 =
      (step st (Event.disconnect sid)).1 ∧
    (step (step st (Event.disconnect sid)).1 (Event.disconnect sid)).2 =
      match leaving (st.sessions sid) with
      | some (r, u) =>
        match mapGet (step st (Event.disconnect sid)).1.rooms r with
        | some room =>
          [ { target := Target.room r, payload := Payload.userLeft u room.users } ]
        | none => []
      | none => [] :=
  ⟨disconnect_emits_length st sid, disconnect_twice_state st sid,
    disconnect_twice_emits st sid⟩

/-- C11 as stated fails: in room `"r"` with members `"a"` and `"b"`, the second
disconnect of session 0 in a row emits a further user-left notification, which
session 1 receives. -/
theorem C11_second_disconnect_notifies_again :
    (step (step exampleTwoMembers (Event.disconnect 0)).1 (Event.disconnect 0)).2 =
      [ { target := Target.room "r", payload := Payload.userLeft "a" ["b"] } ] ∧
    receives (step (step exampleTwoMembers (Event.disconnect 0)).1 (Event.disconnect 0)).1 1
      { target := Target.room "r", payload := Payload.userLeft "a" ["b"] } = true := by
  decide

/-! ## Join: the member set and the notification -/

theorem joinRoom_rooms_of_mem (st : State) (sid : SessionId) (roomId username : String)
    (h : username ∈ members st roomId) :
    (joinRoom st sid roomId username).1.rooms = st.rooms := by
  rw [joinRoom_rooms]
  have hadd : setAdd (members st roomId) username = members st roomId := by
    unfold setAdd
    rw [if_pos h]
  rw [hadd]
  cases hg : mapGet st.rooms roomId with
  | none =>
    unfold members at h
    rw [hg] at h
    exact absurd h (List.not_mem_nil _)
  | some room =>
    have hm : members st roomId = room.users := by
      unfold members
      rw [hg]
    have hh : history st roomId = room.rolls := by
      unfold history
      rw [hg]
    rw [hm, hh]
    exact mapSet_of_mapGet _ _ _ hg

/-- C12: a join-room for a room and a name that is already in the member set of
that room leaves the member set, contents and order, and the history as they
are (the whole registry is unchanged), and it still sets the name and the
current room of the joining session to the supplied values. -/
theorem C12_join_idempotent_on_members (st : State) (sid : SessionId)
    (roomId username : String) (h : username ∈ members st roomId) :
    members (step st (Event.joinRoom sid roomId username)).1 roomId = members st roomId ∧
    history (step st (Event.joinRoom sid roomId username)).1 roomId = history st roomId ∧
    (step st (Event.joinRoom sid roomId username)).1.rooms = st.rooms ∧
    ((step st (Event.joinRoom sid roomId username)).1.sessions sid).username =
      some username ∧
    ((step st (Event.joinRoom sid roomId username)).1.sessions sid).currentRoom =
      some roomId := by
  have hrooms : (step st (Event.joinRoom sid roomId username)).1.rooms = st.rooms :=
    joinRoom_rooms_of_mem st sid roomId username h
  refine ⟨?_, ?_, hrooms, ?_, ?_⟩
  · unfold members
    rw [hrooms]
  · unfold history
    rw [hrooms]
  · show ((joinRoom st sid roomId username).1.sessions sid).username = some username
    rw [joinRoom_sessions]
    simp [setSession]
  · show ((joinRoom st sid roomId username).1.sessions sid).currentRoom = some roomId
    rw [joinRoom_sessions]
    simp [setSession]

theorem C12_join_idempotent_on_members_witness :
    "a" ∈ members exampleTwoMembers "r" ∧
    (members (step exampleTwoMembers (Event.joinRoom 7 "r" "a")).1 "r" =
        members exampleTwoMembers "r" ∧
      history (step exampleTwoMembers (Event.joinRoom 7 "r" "a")).1 "r" =
        history exampleTwoMembers "r" ∧
      (step exampleTwoMembers (Event.joinRoom 7 "r" "a")).1.rooms = exampleTwoMembers.rooms ∧
      ((step exampleTwoMembers (Event.joinRoom 7 "r" "a")).1.sessions 7).username =
        some "a" ∧
      ((step exampleTwoMembers (Event.joinRoom 7 "r" "a")).1.sessions 7).currentRoom =
        some "r") :=
  ⟨by decide, C12_join_idempotent_on_members exampleTwoMembers 7 "r" "a" (by decide)⟩

/-- C13: a join-room event emits two messages, of which the first and only
user-joined notification is addressed to the joined room; the joining session,
attached to the room by then, receives it; it carries the supplied name and the
member set of the room after the addition, which is the earlier member set
with the name added and so contains the name. -/
theorem C13_join_notifies_room (st : State) (sid : SessionId) (roomId username : String) :
    (step st (Event.joinRoom sid roomId username)).2 =
      [ { target := Target.room roomId,
          payload := Payload.userJoined username
            (members (step st (Event.joinRoom sid roomId username)).1 roomId) },
        { target := Target.session sid,
          payload := Payload.rollHistory
            (sliceLast 20 (history (step st (Event.joinRoom sid roomId username)).1 roomId)) } ] ∧
    receives (step st (Event.joinRoom sid roomId username)).1 sid
      { target := Target.room roomId,
        payload := Payload.userJoined username
          (members (step st (Event.joinRoom sid roomId username)).1 roomId) } = true ∧
    members (step st (Event.joinRoom sid roomId username)).1 roomId =
      setAdd (members st roomId) username ∧
    username ∈ members (step st (Event.joinRoom sid roomId username)).1 roomId := by
  have hm : members (step st (Event.joinRoom sid roomId username)).1 roomId =
      setAdd (members st roomId) username := members_joinRoom st sid roomId username
  have hh : history (step st (Event.joinRoom sid roomId username)).1 roomId =
      history st roomId := history_joinRoom st sid roomId username roomId
  refine ⟨?_, ?_, hm, ?_⟩
  · rw [hm, hh]
    exact joinRoom_emits st sid roomId username
  · have hs : (step st (Event.joinRoom sid roomId username)).1.sessions =
        setSession st.sessions sid
          { username := some username, currentRoom := some roomId,
            joined := setAdd (st.sessions sid).joined roomId } :=
      joinRoom_sessions st sid roomId username
    unfold receives
    simp [hs, setSession, mem_setAdd]
  · rw [hm, mem_setAdd]
    exact Or.inr rfl

/-! ## The scenario of the specification -/

theorem scenarioTable1_emissions (t1 t2 : Nat) :
    (emissions State.init (scenarioTable1 t1 t2)).map Prod.snd =
      [ { target := Target.room "table1", payload := Payload.userJoined "alice" ["alice"] },
        { target := Target.session 0, payload := Payload.rollHistory [] },
        { target := Target.room "table1",
          payload := Payload.userJoined "bob" ["alice", "bob"] },
        { target := Target.session 1, payload := Payload.rollHistory [] },
        { target := Target.room "table1",
          payload := Payload.diceRolled ⟨"alice", "d20", 17, t1⟩ },
        { target := Target.room "table1",
          payload := Payload.diceRolled ⟨"bob", "d6", 3, t2⟩ },
        { target := Target.room "table1", payload := Payload.userLeft "alice" ["bob"] } ] := by
  rfl

theorem scenarioTable1_final (t1 t2 : Nat) :
    members (run State.init (scenarioTable1 t1 t2)) "table1" = ["bob"] ∧
    history (run State.init (scenarioTable1 t1 t2)) "table1" =
      [⟨"alice", "d20", 17, t1⟩, ⟨"bob", "d6", 3, t2⟩] := by
  constructor <;> rfl

/-- C14: from the empty registry, after alice and bob join `"table1"`, alice
rolls d20 = 17, bob rolls d6 = 3 and alice disconnects, the member lists
broadcast are `["alice"]`, `["alice", "bob"]`, `["bob"]` in that order, and a join
to `"table1"` afterwards, by any session under any name, is sent the history
alice's roll then bob's roll, whatever the clock read at the two rolls. -/
theorem C14_scenario_table1 (t1 t2 : Nat) (joiner : SessionId) (name : String) :
    (emissions State.init (scenarioTable1 t1 t2)).filterMap (fun p => membershipOf p.2) =
      [["alice"], ["alice", "bob"], ["bob"]] ∧
    (step (run State.init (scenarioTable1 t1 t2)) (Event.joinRoom joiner "table1" name)).2 =
      [ { target := Target.room "table1",
          payload := Payload.userJoined name (setAdd ["bob"] name) },
        { target := Target.session joiner,
          payload := Payload.rollHistory
            [⟨"alice", "d20", 17, t1⟩, ⟨"bob", "d6", 3, t2⟩] } ] := by
  constructor
  · rfl
  · show (joinRoom (run State.init (scenarioTable1 t1 t2)) joiner "table1" name).2 = _
    rw [joinRoom_emits, (scenarioTable1_final t1 t2).1, (scenarioTable1_final t1 t2).2]
    rfl

/-! ## One room at a time -/

/-- C15, as the code has it: a session has one current-room pointer, the room
of its latest join-room, but a join-room event alone moves a session to another
room, with no leave of the earlier one: the socket stays attached to every room
it was attached to, so it keeps receiving their broadcasts, and the registry
entry of every other room, the earlier room with the name in its member set
included, is unchanged. -/
theorem C15_join_switches_without_leave (st : State) (sid : SessionId)
    (roomId username : String) :
    ((step st (Event.joinRoom sid roomId username)).1.sessions sid).currentRoom =
      some roomId ∧
    roomId ∈ ((step st (Event.joinRoom sid roomId username)).1.sessions sid).joined ∧
    (∀ r ∈ (st.sessions sid).joined,
      r ∈ ((step st (Event.joinRoom sid roomId username)).1.sessions sid).joined) ∧
    (∀ r : String, r ≠ roomId →
      mapGet (step st (Event.joinRoom sid roomId username)).1.rooms r = mapGet st.rooms r) := by
  have hs : (step st (Event.joinRoom sid roomId username)).1.sessions =
      setSession st.sessions sid
        { username := some username, currentRoom := some roomId,
          joined := setAdd (st.sessions sid).joined roomId } :=
    joinRoom_sessions st sid roomId username
  refine ⟨?_, ?_, ?_, ?_⟩
  · simp [hs, setSession]
  · simp [hs, setSession, mem_setAdd]
  · intro r hr
    simp only [hs, setSession, if_true, mem_setAdd]
    exact Or.inl hr
  · intro r hr
    show mapGet (joinRoom st sid roomId username).1.rooms r = mapGet st.rooms r
    rw [mapGet_joinRoom, if_neg hr]

/-- C15 as stated fails: session 0 joins `"x"` and then `"y"` with no leave in
between; it is then attached to both rooms, receives the broadcasts of both and
its name is in the member set of both, while its current room is `"y"`. -/
theorem C15_session_in_two_rooms :
    ((run State.init exampleSwitch).sessions 0).joined = ["x", "y"] ∧
    ((run State.init exampleSwitch).sessions 0).currentRoom = some "y" ∧
    members (run State.init exampleSwitch) "x" = ["a"] ∧
    members (run State.init exampleSwitch) "y" = ["a"] ∧
    receives (run State.init exampleSwitch) 0
      { target := Target.room "x", payload := Payload.userJoined "b" ["a", "b"] } = true ∧
    receives (run State.init exampleSwitch) 0
      { target := Target.room "y", payload := Payload.userJoined "b" ["a", "b"] } = true := by
  decide

/-! ## Order of the broadcasts of one room -/

theorem emissions_cons (st : State) (e : Event) (es : List Event) :
    emissions st (e :: es) =
      ((step st e).2.map fun m => ((step st e).1, m)) ++ emissions (step st e).1 es := rfl

theorem broadcastsTo_cons (roomId : String) (st : State) (e : Event) (es : List Event) :
    broadcastsTo roomId st (e :: es) =
      (step st e).2.filterMap (rolledIn roomId) ++ broadcastsTo roomId (step st e).1 es := by
  unfold broadcastsTo
  rw [emissions_cons, List.filterMap_append, List.filterMap_map]
  rfl

theorem step_broadcasts (roomId : String) (st : State) (e : Event) :
    (step st e).2.filterMap (rolledIn roomId) = acceptedStep roomId st e := by
  cases e with
  | joinRoom sid r u =>
    show (joinRoom st sid r u).2.filterMap (rolledIn roomId) = []
    rw [joinRoom_emits]
    rfl
  | rollDice sid r d res u now =>
    show (rollDice st r d res u now).2.filterMap (rolledIn roomId) =
      acceptedStep roomId st (Event.rollDice sid r d res u now)
    rw [rollDice_emits]
    simp only [acceptedStep]
    by_cases hr : r = roomId
    · subst hr
      cases hh : mapHas st.rooms r with
      | true => simp [rolledIn]
      | false => simp
    · have hc : ¬ (r = roomId ∧ mapHas st.rooms roomId = true) := fun h => hr h.1
      rw [if_neg hc]
      cases hh : mapHas st.rooms r with
      | true => simp [rolledIn, hr]
      | false => simp
  | disconnect sid =>
    show (disconnect st sid).2.filterMap (rolledIn roomId) = []
    rcases disconnect_cases st sid with hd | ⟨r, u, room, _, _, _, _, _, hd⟩
    · rw [hd]
      rfl
    · rw [hd]
      rfl

theorem broadcastsTo_eq_accepted (roomId : String) (es : List Event) :
    ∀ st : State, broadcastsTo roomId st es = accepted roomId st es := by
  induction es with
  | nil => intro st; rfl
  | cons e es ih =>
    intro st
    rw [broadcastsTo_cons, step_broadcasts, ih]
    rfl

theorem pushRoll_suffix (rolls : List RollData) (r : RollData) :
    ∃ front, front ++ pushRoll rolls r = rolls ++ [r] := by
  unfold pushRoll
  split
  · cases rolls with
    | nil => exact ⟨[r], by simp⟩
    | cons x xs => exact ⟨[x], by simp⟩
  · exact ⟨[], rfl⟩

theorem history_step_suffix (roomId : String) (st : State) (e : Event) :
    ∃ front, front ++ history (step st e).1 roomId =
      history st roomId ++ acceptedStep roomId st e := by
  cases e with
  | joinRoom sid r u =>
    refine ⟨[], ?_⟩
    show [] ++ history (joinRoom st sid r u).1 roomId = history st roomId ++ []
    rw [history_joinRoom]
    simp
  | rollDice sid r d res u now =>
    show ∃ front, front ++ history (rollDice st r d res u now).1 roomId =
      history st roomId ++ acceptedStep roomId st (Event.rollDice sid r d res u now)
    simp only [acceptedStep]
    by_cases hr : r = roomId
    · subst hr
      cases hh : mapHas st.rooms r with
      | true =>
        rw [history_rollDice_same st r d res u now hh]
        simp only [true_and, if_true]
        exact pushRoll_suffix _ _
      | false =>
        rw [rollDice_absent st r d res u now ((mapHas_eq_false_iff _ _).1 hh)]
        exact ⟨[], by simp⟩
    · have hc : ¬ (r = roomId ∧ mapHas st.rooms roomId = true) := fun h => hr h.1
      rw [if_neg hc, history_rollDice_ne st r d res u now roomId (fun e => hr e.symm)]
      exact ⟨[], by simp⟩
  | disconnect sid =>
    show ∃ front, front ++ history (disconnect st sid).1 roomId = history st roomId ++ []
    cases hh : mapHas (disconnect st sid).1.rooms roomId with
    | true =>
      rw [history_disconnect st sid roomId hh]
      exact ⟨[], by simp⟩
    | false =>
      have hnone : history (disconnect st sid).1 roomId = [] := by
        unfold history
        rw [(mapHas_eq_false_iff _ _).1 hh]
      rw [hnone]
      exact ⟨history st roomId, rfl⟩

theorem history_run_suffix (roomId : String) (es : List Event) :
    ∀ st : State, ∃ front, front ++ history (run st es) roomId =
      history st roomId ++ accepted roomId st es := by
  induction es with
  | nil => intro st; exact ⟨[], by simp [run, accepted]⟩
  | cons e es ih =>
    intro st
    obtain ⟨f1, h1⟩ := ih (step st e).1
    obtain ⟨f0, h0⟩ := history_step_suffix roomId st e
    refine ⟨f0 ++ f1, ?_⟩
    show f0 ++ f1 ++ history (run (step st e).1 es) roomId =
      history st roomId ++ (acceptedStep roomId st e ++ accepted roomId (step st e).1 es)
    rw [List.append_assoc, h1, ← List.append_assoc, h0, List.append_assoc]

/-- C16: for every sequence of events from the empty registry and every room,
the records broadcast to the room as dice-rolled are the records of the accepted
submissions to the room, in the same order, and the retained history of the room
is a contiguous suffix of that sequence. -/
theorem C16_room_order_kept (roomId : String) (es : List Event) :
    broadcastsTo roomId State.init es = accepted roomId State.init es ∧
    (∃ front, front ++ history (run State.init es) roomId =
      accepted roomId State.init es) := by
  refine ⟨broadcastsTo_eq_accepted roomId es State.init, ?_⟩
  obtain ⟨front, h⟩ := history_run_suffix roomId es State.init
  exact ⟨front, h⟩

/-! ## The record of a roll -/

theorem getLast?_pushRoll (rolls : List RollData) (r : RollData) :
    (pushRoll rolls r).getLast? = some r := by
  unfold pushRoll
  split
  · rename_i hlen
    cases rolls with
    | nil => simp at hlen
    | cons x xs =>
      show ((x :: xs ++ [r]).tail).getLast? = some r
      simp only [List.cons_append, List.tail_cons]
      exact List.getLast?_concat xs
  · exact List.getLast?_concat rolls

/-- C17: a roll-dice submission to a room of the registry builds the record
whose author, dice type and result are the username, diceType and result of the
payload and whose timestamp is the clock reading at receipt; afterwards the
record is the last element of the history of the room, and it is the payload of
the one message emitted, a dice-rolled broadcast to the room. This holds for
every submitting session, whatever its display name. -/
theorem C17_roll_record (st : State) (sid : SessionId) (roomId diceType : String)
    (result : Int) (username : String) (now : Nat) (h : mapHas st.rooms roomId = true) :
    ∃ roll : RollData,
      roll.username = username ∧ roll.diceType = diceType ∧ roll.result = result ∧
      roll.timestamp = now ∧
      (history (step st (Event.rollDice sid roomId diceType result username now)).1
        roomId).getLast? = some roll ∧
      (step st (Event.rollDice sid roomId diceType result username now)).2 =
        [ { target := Target.room roomId, payload := Payload.diceRolled roll } ] := by
  refine ⟨⟨username, diceType, result, now⟩, rfl, rfl, rfl, rfl, ?_, ?_⟩
  · show (history (rollDice st roomId diceType result username now).1 roomId).getLast? = _
    rw [history_rollDice_same st roomId diceType result username now h]
    exact getLast?_pushRoll _ _
  · show (rollDice st roomId diceType result username now).2 = _
    rw [rollDice_emits, if_pos h]

theorem C17_roll_record_witness :
    ((exampleTwoMembers.sessions 1).username = some "b" ∧
      mapHas exampleTwoMembers.rooms "r" = true) ∧
    (∃ roll : RollData,
      roll.username = "mallory" ∧ roll.diceType = "d20" ∧ roll.result = 20 ∧
      roll.timestamp = 1000 ∧
      (history (step exampleTwoMembers (Event.rollDice 1 "r" "d20" 20 "mallory" 1000)).1
        "r").getLast? = some roll ∧
      (step exampleTwoMembers (Event.rollDice 1 "r" "d20" 20 "mallory" 1000)).2 =
        [ { target := Target.room "r", payload := Payload.diceRolled roll } ]) :=
  ⟨⟨by decide, by decide⟩,
   C17_roll_record exampleTwoMembers 1 "r" "d20" 20 "mallory" 1000 (by decide)⟩

/-! ## Independent rooms -/

theorem step_frame (st : State) (e : Event) (r : String) (h : touched st e ≠ some r) :
    mapGet (step st e).1.rooms r = mapGet st.rooms r := by
  cases e with
  | joinRoom sid r0 u =>
    have hr : r ≠ r0 := fun e => h (by rw [e]; rfl)
    show mapGet (joinRoom st sid r0 u).1.rooms r = mapGet st.rooms r
    rw [mapGet_joinRoom, if_neg hr]
  | rollDice sid r0 d res u now =>
    have hr : r ≠ r0 := fun e => h (by rw [e]; rfl)
    show mapGet (rollDice st r0 d res u now).1.rooms r = mapGet st.rooms r
    rw [mapGet_rollDice, if_neg hr]
  | disconnect sid =>
    show mapGet (disconnect st sid).1.rooms r = mapGet st.rooms r
    rw [mapGet_disconnect]
    cases hl : leaving (st.sessions sid) with
    | none => rfl
    | some p =>
      obtain ⟨r0, u⟩ := p
      obtain ⟨hcur, _, _, _⟩ := leaving_eq_some _ _ _ hl
      have hr : r ≠ r0 := by
        intro e
        apply h
        show (st.sessions sid).currentRoom = some r
        rw [hcur, e]
      simp only [if_neg hr]

theorem currentRoom_step (st : State) (e : Event) (sid : SessionId) :
    ((step st e).1.sessions sid).currentRoom =
      match e with
      | Event.joinRoom s r _ => if s = sid then some r else (st.sessions sid).currentRoom
      | _ => (st.sessions sid).currentRoom := by
  cases e with
  | joinRoom s r u =>
    show ((joinRoom st s r u).1.sessions sid).currentRoom = _
    rw [joinRoom_sessions]
    unfold setSession
    by_cases hs : s = sid
    · subst hs
      simp
    · have hs2 : ¬ sid = s := fun e => hs e.symm
      simp [hs, hs2]
  | rollDice s r d res u now =>
    show ((rollDice st r d res u now).1.sessions sid).currentRoom = _
    rw [rollDice_sessions]
  | disconnect s =>
    show ((disconnect st s).1.sessions sid).currentRoom = _
    rw [disconnect_sessions]
    unfold detach setSession
    by_cases hs : sid = s
    · subst hs
      simp
    · simp [hs]

theorem currentRoom_run (sid : SessionId) (es : List Event) :
    ∀ st : State, ((run st es).sessions sid).currentRoom =
      match lastJoined sid es with
      | some r => some r
      | none => (st.sessions sid).currentRoom := by
  induction es with
  | nil => intro st; rfl
  | cons e es ih =>
    intro st
    show ((run (step st e).1 es).sessions sid).currentRoom = _
    rw [ih, currentRoom_step]
    simp only [lastJoined]
    cases hl : lastJoined sid es with
    | some r => rfl
    | none =>
      cases e with
      | joinRoom s r u =>
        by_cases hs : s = sid
        · simp [hs]
        · simp [hs]
      | rollDice s r d res u now => rfl
      | disconnect s => rfl

theorem touched_run (es : List Event) (e : Event) :
    touched (run State.init es) e = affected es e := by
  cases e with
  | joinRoom sid r u => rfl
  | rollDice sid r d res u now => rfl
  | disconnect sid =>
    show ((run State.init es).sessions sid).currentRoom = lastJoined sid es
    rw [currentRoom_run]
    cases lastJoined sid es with
    | some r => rfl
    | none => rfl

/-- C18: after any events from the empty registry, a join-room, roll-dice or
disconnect event leaves the registry entry, member set and history, of every
room unchanged except at most one: the room named by the payload for join-room
and roll-dice, the room the session joined last for disconnect. Rooms the
disconnecting session joined before its last join are among the unchanged. -/
theorem C18_other_rooms_untouched (es : List Event) (e : Event) (r : String)
    (h : affected es e ≠ some r) :
    mapGet (step (run State.init es) e).1.rooms r = mapGet (run State.init es).rooms r ∧
    members (step (run State.init es) e).1 r = members (run State.init es) r ∧
    history (step (run State.init es) e).1 r = history (run State.init es) r := by
  have hg : mapGet (step (run State.init es) e).1.rooms r =
      mapGet (run State.init es).rooms r :=
    step_frame _ e r (by rw [touched_run]; exact h)
  refine ⟨hg, ?_, ?_⟩
  · unfold members
    rw [hg]
  · unfold history
    rw [hg]

theorem C18_other_rooms_untouched_witness :
    affected exampleSwitch (Event.disconnect 0) ≠ some "x" ∧
    (mapGet (step (run State.init exampleSwitch) (Event.disconnect 0)).1.rooms "x" =
        mapGet (run State.init exampleSwitch).rooms "x" ∧
      members (step (run State.init exampleSwitch) (Event.disconnect 0)).1 "x" =
        members (run State.init exampleSwitch) "x" ∧
      history (step (run State.init exampleSwitch) (Event.disconnect 0)).1 "x" =
        history (run State.init exampleSwitch) "x") :=
  ⟨by decide, C18_other_rooms_untouched exampleSwitch (Event.disconnect 0) "x" (by decide)⟩

/-! ## Disconnect and the empty string -/

theorem disconnect_removes_name (st : State) (sid : SessionId) (r u : String)
    (hl : leaving (st.sessions sid) = some (r, u)) :
    u ∉ members (disconnect st sid).1 r := by
  intro h
  exact ((mem_members_disconnect st sid r u u hl).1 h).2 rfl

/-- C19 fails on the code for the empty string: a session that joined room
`"r"` under the name `""` and disconnects leaves the name in the member set of
the room, and a session that joined the room `""` as `"bob"` and disconnects
leaves `"bob"` in the member set of `""`; in both cases the handler emits
nothing, because its test takes the empty string for a field that is not set. -/
theorem C19_empty_string_not_removed :
    ((run State.init [Event.joinRoom 0 "r" ""]).sessions 0).currentRoom = some "r" ∧
    ((run State.init [Event.joinRoom 0 "r" ""]).sessions 0).username = some "" ∧
    "" ∈ members (step (run State.init [Event.joinRoom 0 "r" ""]) (Event.disconnect 0)).1 "r" ∧
    "bob" ∈
      members (step (run State.init [Event.joinRoom 0 "" "bob"]) (Event.disconnect 0)).1 "" ∧
    (step (run State.init [Event.joinRoom 0 "" "bob"]) (Event.disconnect 0)).2 = [] := by
  decide

/-! ## Records are kept as they are, eviction is first in first out -/

theorem pushRoll_shape (rolls : List RollData) (r : RollData) :
    ∃ removed, removed.length ≤ 1 ∧ removed ++ pushRoll rolls r = rolls ++ [r] := by
  unfold pushRoll
  split
  · cases rolls with
    | nil => exact ⟨[r], Nat.le_refl _, by simp⟩
    | cons x xs => exact ⟨[x], Nat.le_refl _, by simp⟩
  · exact ⟨[], Nat.zero_le _, rfl⟩

/-- C21: for every event and every room that is in the registry before and
after it, the new history is the old one with at most one record removed from
the front and at most one record appended at the end; every other record stays,
unaltered and in the same order. -/
theorem C21_history_fifo (st : State) (e : Event) (r : String)
    (hbefore : mapHas st.rooms r = true)
    (hafter : mapHas (step st e).1.rooms r = true) :
    ∃ removed appended : List RollData,
      removed.length ≤ 1 ∧ appended.length ≤ 1 ∧
      removed ++ history (step st e).1 r = history st r ++ appended := by
  cases e with
  | joinRoom sid r0 u =>
    refine ⟨[], [], Nat.zero_le _, Nat.zero_le _, ?_⟩
    show [] ++ history (joinRoom st sid r0 u).1 r = history st r ++ []
    rw [history_joinRoom]
    simp
  | rollDice sid r0 d res u now =>
    by_cases hr : r = r0
    · subst hr
      obtain ⟨removed, hlen, heq⟩ := pushRoll_shape (history st r) ⟨u, d, res, now⟩
      refine ⟨removed, [⟨u, d, res, now⟩], hlen, Nat.le_refl _, ?_⟩
      show removed ++ history (rollDice st r d res u now).1 r = _
      rw [history_rollDice_same st r d res u now hbefore]
      exact heq
    · refine ⟨[], [], Nat.zero_le _, Nat.zero_le _, ?_⟩
      show [] ++ history (rollDice st r0 d res u now).1 r = history st r ++ []
      rw [history_rollDice_ne st r0 d res u now r hr]
      simp
  | disconnect sid =>
    refine ⟨[], [], Nat.zero_le _, Nat.zero_le _, ?_⟩
    show [] ++ history (disconnect st sid).1 r = history st r ++ []
    rw [history_disconnect st sid r hafter]
    simp

theorem C21_history_fifo_witness :
    (mapHas exampleOneRoll.rooms "t" = true ∧
      mapHas (step exampleOneRoll (Event.rollDice 0 "t" "d6" 3 "a" 1001)).1.rooms "t" = true) ∧
    (∃ removed appended : List RollData,
      removed.length ≤ 1 ∧ appended.length ≤ 1 ∧
      removed ++ history (step exampleOneRoll (Event.rollDice 0 "t" "d6" 3 "a" 1001)).1 "t" =
        history exampleOneRoll "t" ++ appended) :=
  ⟨⟨by decide, by decide⟩,
   C21_history_fifo exampleOneRoll (Event.rollDice 0 "t" "d6" 3 "a" 1001) "t"
     (by decide) (by decide)⟩

/-! ## Membership and history are changed by different events -/

/-- C26: a join-room leaves the history of every room unchanged and a
disconnect leaves the history of every room that is in the registry afterwards
unchanged; a roll-dice leaves the member set of every room and the name and
current room of every session unchanged, and what it does to the registry and
what it emits is the same for any two states with the same registry and any two
submitting sessions. -/
theorem C26_disjoint_effects (st : State) :
    (∀ (sid : SessionId) (roomId username r : String),
      history (step st (Event.joinRoom sid roomId username)).1 r = history st r) ∧
    (∀ (sid : SessionId) (r : String),
      mapHas (step st (Event.disconnect sid)).1.rooms r = true →
        history (step st (Event.disconnect sid)).1 r = history st r) ∧
    (∀ (sid : SessionId) (roomId diceType : String) (result : Int) (username : String)
        (now : Nat) (r : String) (i : SessionId),
      members (step st (Event.rollDice sid roomId diceType result username now)).1 r =
          members st r ∧
        ((step st (Event.rollDice sid roomId diceType result username now)).1.sessions i).username =
          (st.sessions i).username ∧
        ((step st (Event.rollDice sid roomId diceType result username now)).1.sessions
          i).currentRoom = (st.sessions i).currentRoom) ∧
    (∀ (st2 : State) (sid sid2 : SessionId) (roomId diceType : String) (result : Int)
        (username : String) (now : Nat), st2.rooms = st.rooms →
      (step st2 (Event.rollDice sid2 roomId diceType result username now)).1.rooms =
          (step st (Event.rollDice sid roomId diceType result username now)).1.rooms ∧
        (step st2 (Event.rollDice sid2 roomId diceType result username now)).2 =
          (step st (Event.rollDice sid roomId diceType result username now)).2) := by
  refine ⟨?_, ?_, ?_, ?_⟩
  · intro sid roomId username r
    exact history_joinRoom st sid roomId username r
  · intro sid r h
    exact history_disconnect st sid r h
  · intro sid roomId diceType result username now r i
    have hs : (step st (Event.rollDice sid roomId diceType result username now)).1.sessions =
        st.sessions := rollDice_sessions st roomId diceType result username now
    refine ⟨members_rollDice st roomId diceType result username now r, ?_, ?_⟩
    · rw [hs]
    · rw [hs]
  · intro st2 sid sid2 roomId diceType result username now hrooms
    show (rollDice st2 roomId diceType result username now).1.rooms =
        (rollDice st roomId diceType result username now).1.rooms ∧
      (rollDice st2 roomId diceType result username now).2 =
        (rollDice st roomId diceType result username now).2
    cases hg : mapGet st.rooms roomId with
    | none =>
      have hg2 : mapGet st2.rooms roomId = none := by rw [hrooms]; exact hg
      rw [rollDice_absent st roomId diceType result username now hg,
        rollDice_absent st2 roomId diceType result username now hg2]
      exact ⟨hrooms, rfl⟩
    | some room =>
      have hg2 : mapGet st2.rooms roomId = some room := by rw [hrooms]; exact hg
      rw [rollDice_present st roomId diceType result username now room hg,
        rollDice_present st2 roomId diceType result username now room hg2]
      simp only [hrooms, and_self]

/-! ## Two sessions under one name -/

theorem same_name_last_leave (st : State) (s1 s2 : SessionId) (r n : String) (room : Room)
    (h1 : leaving (st.sessions s1) = some (r, n))
    (h2 : leaving (st.sessions s2) = some (r, n)) (hne : s2 ≠ s1)
    (hg : mapGet st.rooms r = some room) (hlast : setDelete room.users n = []) :
    mapHas (step st (Event.disconnect s1)).1.rooms r = false ∧
    ((step st (Event.disconnect s1)).1.sessions s2).currentRoom = some r ∧
    (∀ (diceType : String) (result : Int) (username : String) (now : Nat),
      step (step st (Event.disconnect s1)).1
          (Event.rollDice s2 r diceType result username now) =
        ((step st (Event.disconnect s1)).1, [])) ∧
    (step (step st (Event.disconnect s1)).1 (Event.disconnect s2)).1.rooms =
      (step st (Event.disconnect s1)).1.rooms ∧
    (step (step st (Event.disconnect s1)).1 (Event.disconnect s2)).2 = [] := by
  obtain ⟨hr1, hu1, hr0, hu0⟩ := leaving_eq_some _ _ _ h1
  obtain ⟨hr2, hu2, _, _⟩ := leaving_eq_some _ _ _ h2
  have hgone : mapGet (step st (Event.disconnect s1)).1.rooms r = none := by
    rw [(step_disconnect_present st s1 r n room hr1 hu1 hr0 hu0 hg).1]
    unfold leaveRoom
    rw [hlast]
    rfl
  have hsess : (step st (Event.disconnect s1)).1.sessions s2 = st.sessions s2 := by
    show (disconnect st s1).1.sessions s2 = st.sessions s2
    rw [disconnect_sessions]
    unfold detach setSession
    rw [if_neg hne]
  have hcur : ((step st (Event.disconnect s1)).1.sessions s2).currentRoom = some r := by
    rw [hsess]
    exact hr2
  have husr : ((step st (Event.disconnect s1)).1.sessions s2).username = some n := by
    rw [hsess]
    exact hu2
  have hdisc := disconnect_absent (step st (Event.disconnect s1)).1 s2 r n hcur husr hgone
  refine ⟨(mapHas_eq_false_iff _ _).2 hgone, hcur, ?_, ?_, ?_⟩
  · intro diceType result username now
    exact rollDice_absent _ r diceType result username now hgone
  · show (disconnect (step st (Event.disconnect s1)).1 s2).1.rooms = _
    rw [hdisc]
  · show (disconnect (step st (Event.disconnect s1)).1 s2).2 = []
    rw [hdisc]

/-- C25 fails on the code for the empty display name: sessions 0 and 1 are in
room `"r"` under the name `""` and the room has no other name; the disconnect
of session 0 does not delete the room, the name stays in its member set, and a
roll-dice to the room afterwards is accepted and broadcast instead of being
dropped. -/
theorem C25_empty_name_room_survives :
    (exampleSameEmptyName.sessions 0).username = some "" ∧
    (exampleSameEmptyName.sessions 1).username = some "" ∧
    members exampleSameEmptyName "r" = [""] ∧
    mapHas (step exampleSameEmptyName (Event.disconnect 0)).1.rooms "r" = true ∧
    members (step exampleSameEmptyName (Event.disconnect 0)).1 "r" = [""] ∧
    (step (step exampleSameEmptyName (Event.disconnect 0)).1
        (Event.rollDice 1 "r" "d20" 17 "" 1000)).2 =
      [ { target := Target.room "r", payload := Payload.diceRolled ⟨"", "d20", 17, 1000⟩ } ] := by
  decide

/-! ## Member lists: no duplicates, order of insertion -/

theorem setAdd_nodup (s : List String) (x : String) (h : s.Nodup) : (setAdd s x).Nodup := by
  unfold setAdd
  by_cases hx : x ∈ s
  · rw [if_pos hx]
    exact h
  · rw [if_neg hx]
    rw [List.nodup_append]
    refine ⟨h, List.nodup_singleton x, ?_⟩
    intro a ha hb
    rw [List.mem_singleton] at hb
    exact hx (hb ▸ ha)

theorem setDelete_nodup (s : List String) (x : String) (h : s.Nodup) :
    (setDelete s x).Nodup := by
  unfold setDelete
  exact h.filter _

theorem membersNodup_init : MembersNodup State.init := by
  intro p hp
  simp [State.init] at hp

theorem members_nodup (st : State) (r : String) (h : MembersNodup st) :
    (members st r).Nodup := by
  unfold members
  cases hg : mapGet st.rooms r with
  | none => exact List.nodup_nil
  | some room => exact h (r, room) (mapGet_some_mem _ _ _ hg)

theorem membersNodup_step (st : State) (e : Event) (h : MembersNodup st) :
    MembersNodup (step st e).1 := by
  cases e with
  | joinRoom sid roomId username =>
    intro p hp
    have hp2 : p ∈ (joinRoom st sid roomId username).1.rooms := hp
    rw [joinRoom_rooms] at hp2
    rcases mem_mapSet _ _ _ _ hp2 with hp2 | hp2
    · exact h p hp2
    · rw [hp2]
      exact setAdd_nodup _ _ (members_nodup st roomId h)
  | rollDice sid roomId diceType result username now =>
    intro p hp
    have hp2 : p ∈ (rollDice st roomId diceType result username now).1.rooms := hp
    cases hg : mapGet st.rooms roomId with
    | none =>
      rw [rollDice_absent st roomId diceType result username now hg] at hp2
      exact h p hp2
    | some room =>
      rw [rollDice_present st roomId diceType result username now room hg] at hp2
      rcases mem_mapSet _ _ _ _ hp2 with hp2 | hp2
      · exact h p hp2
      · rw [hp2]
        exact h (roomId, room) (mapGet_some_mem _ _ _ hg)
  | disconnect sid =>
    intro p hp
    have hp2 : p ∈ (disconnect st sid).1.rooms := hp
    rcases disconnect_cases st sid with hd | ⟨r, u, room, _, _, _, _, hg, hd⟩
    · rw [hd] at hp2
      exact h p hp2
    · rw [hd] at hp2
      have hroom : (setDelete room.users u).Nodup :=
        setDelete_nodup _ _ (h (r, room) (mapGet_some_mem _ _ _ hg))
      by_cases he : (setDelete room.users u).length = 0
      · simp only [he, if_true] at hp2
        rcases mem_mapSet _ _ _ _ (mem_mapDelete _ _ _ hp2).1 with hp3 | hp3
        · exact h p hp3
        · rw [hp3]
          exact hroom
      · simp only [he, if_false] at hp2
        rcases mem_mapSet _ _ _ _ hp2 with hp3 | hp3
        · exact h p hp3
        · rw [hp3]
          exact hroom

theorem step_lists_nodup (st : State) (e : Event) (h : MembersNodup st) :
    ∀ m ∈ (step st e).2, ∀ users, membershipOf m = some users → users.Nodup := by
  intro m hm users hu
  cases e with
  | joinRoom sid roomId username =>
    have hm2 : m ∈ (joinRoom st sid roomId username).2 := hm
    rw [joinRoom_emits] at hm2
    simp only [List.mem_cons, List.mem_singleton, List.not_mem_nil, or_false] at hm2
    rcases hm2 with hm2 | hm2
    · rw [hm2] at hu
      simp only [membershipOf, Option.some.injEq] at hu
      rw [← hu]
      exact setAdd_nodup _ _ (members_nodup st roomId h)
    · rw [hm2] at hu
      simp [membershipOf] at hu
  | rollDice sid roomId diceType result username now =>
    have hm2 : m ∈ (rollDice st roomId diceType result username now).2 := hm
    rw [rollDice_emits] at hm2
    by_cases hh : mapHas st.rooms roomId = true
    · simp only [hh, if_true, List.mem_singleton] at hm2
      rw [hm2] at hu
      simp [membershipOf] at hu
    · simp [hh] at hm2
  | disconnect sid =>
    have hm2 : m ∈ (disconnect st sid).2 := hm
    rcases disconnect_cases st sid with hd | ⟨r, u, room, _, _, _, _, hg, hd⟩
    · rw [hd] at hm2
      simp at hm2
    · rw [hd] at hm2
      simp only [List.mem_singleton] at hm2
      rw [hm2] at hu
      simp only [membershipOf, Option.some.injEq] at hu
      rw [← hu]
      exact setDelete_nodup _ _ (h (r, room) (mapGet_some_mem _ _ _ hg))

theorem emissions_lists_nodup (es : List Event) :
    ∀ st : State, MembersNodup st →
      ∀ p ∈ emissions st es, ∀ users, membershipOf p.2 = some users → users.Nodup := by
  induction es with
  | nil =>
    intro st _ p hp
    simp [emissions] at hp
  | cons e es ih =>
    intro st h p hp users hu
    rw [emissions_cons, List.mem_append, List.mem_map] at hp
    rcases hp with ⟨m, hm, hpm⟩ | hp
    · rw [← hpm] at hu
      exact step_lists_nodup st e h m hm users hu
    · exact ih _ (membersNodup_step st e h) p hp users hu

theorem foldl_setAdd (l : List String) :
    ∀ acc : List String,
      l.foldl setAdd acc = acc ++ (firstOccurrences l).filter fun y => !decide (y ∈ acc) := by
  induction l with
  | nil => intro acc; simp [firstOccurrences]
  | cons x xs ih =>
    intro acc
    rw [List.foldl_cons, ih]
    unfold setAdd
    by_cases hx : x ∈ acc
    · rw [if_pos hx]
      simp only [firstOccurrences, List.filter_cons, hx, decide_True, Bool.not_true,
        List.filter_filter]
      congr 1
      apply List.filter_congr
      intro y _
      by_cases hy : y ∈ acc
      · simp [hy]
      · have hyx : ¬ y = x := fun e => hy (e ▸ hx)
        simp [hy, hyx]
    · rw [if_neg hx]
      simp only [firstOccurrences, List.filter_cons, hx, decide_False, Bool.not_false,
        List.filter_filter, List.append_assoc, List.singleton_append, if_true]
      congr 2
      apply List.filter_congr
      intro y _
      by_cases hy : y ∈ acc
      · simp [hy]
      · by_cases hyx : y = x
        · simp [hy, hyx]
        · simp [hy, hyx]

theorem foldl_setAdd_nil (l : List String) : l.foldl setAdd [] = firstOccurrences l := by
  rw [foldl_setAdd]
  simp

theorem members_joinRoom_ne (st : State) (sid : SessionId) (roomId username r : String)
    (h : r ≠ roomId) : members (joinRoom st sid roomId username).1 r = members st r := by
  unfold members
  rw [mapGet_joinRoom, if_neg h]

theorem members_run_joins (r : String) (es : List Event) :
    ∀ st : State, noDisconnect es = true →
      members (run st es) r = (joinedNames r es).foldl setAdd (members st r) := by
  induction es with
  | nil => intro st _; rfl
  | cons e es ih =>
    intro st hnd
    cases e with
    | joinRoom sid r0 u =>
      have hnd2 : noDisconnect es = true := hnd
      show members (run (joinRoom st sid r0 u).1 es) r = _
      rw [ih _ hnd2]
      by_cases hr : r0 = r
      · subst hr
        simp only [joinedNames, if_true, List.foldl_cons]
        rw [members_joinRoom]
      · have hr2 : r ≠ r0 := fun e => hr e.symm
        simp only [joinedNames, hr, if_false]
        rw [members_joinRoom_ne st sid r0 u r hr2]
    | rollDice sid r0 d res u now =>
      have hnd2 : noDisconnect es = true := hnd
      show members (run (rollDice st r0 d res u now).1 es) r = _
      rw [ih _ hnd2, members_rollDice]
      rfl
    | disconnect sid => simp [noDisconnect] at hnd

theorem members_joinRoom_append (st : State) (sid : SessionId) (roomId username r : String) :
    ∃ added : List String, added.length ≤ 1 ∧
      members (joinRoom st sid roomId username).1 r = members st r ++ added := by
  by_cases hr : r = roomId
  · subst hr
    rw [members_joinRoom]
    unfold setAdd
    by_cases hx : username ∈ members st r
    · rw [if_pos hx]
      exact ⟨[], Nat.zero_le _, by simp⟩
    · rw [if_neg hx]
      exact ⟨[username], Nat.le_refl _, rfl⟩
  · rw [members_joinRoom_ne st sid roomId username r hr]
    exact ⟨[], Nat.zero_le _, by simp⟩

theorem members_disconnect_sublist (st : State) (sid : SessionId) (r : String) :
    List.Sublist (members (disconnect st sid).1 r) (members st r) := by
  unfold members
  rw [mapGet_disconnect]
  cases hl : leaving (st.sessions sid) with
  | none => exact List.Sublist.refl _
  | some p =>
    obtain ⟨r0, u⟩ := p
    simp only
    by_cases hr : r = r0
    · subst hr
      simp only [if_true]
      cases hg : mapGet st.rooms r with
      | none => exact List.Sublist.refl _
      | some room =>
        simp only [Option.some_bind, leaveRoom]
        by_cases he : (setDelete room.users u).length = 0
        · simp only [he, if_true]
          exact List.nil_sublist _
        · simp only [he, if_false]
          exact List.filter_sublist _
    · simp only [if_neg hr]
      exact List.Sublist.refl _

/-- C22, as the code has it: the users list of every user-joined and user-left
notification contains no name twice, also when several sessions join a room
under one name. The names are listed in the order in which they were added to
the set: a join appends at most one name at the end and moves none, a
disconnect removes names and keeps the order of the others; so as long as no
session has disconnected the list is the joined names in the order of their
first join. -/
theorem C22_member_lists (es : List Event) :
    (∀ p ∈ emissions State.init es, ∀ users : List String,
      membershipOf p.2 = some users → users.Nodup) ∧
    (noDisconnect es = true → ∀ (sid : SessionId) (roomId username : String),
      (step (run State.init es) (Event.joinRoom sid roomId username)).2.filterMap membershipOf =
        [firstOccurrences (joinedNames roomId es ++ [username])]) ∧
    (∀ (sid : SessionId) (roomId username r : String), ∃ added : List String,
      added.length ≤ 1 ∧
      members (step (run State.init es) (Event.joinRoom sid roomId username)).1 r =
        members (run State.init es) r ++ added) ∧
    (∀ (sid : SessionId) (r : String),
      List.Sublist (members (step (run State.init es) (Event.disconnect sid)).1 r)
        (members (run State.init es) r)) := by
  refine ⟨emissions_lists_nodup es _ membersNodup_init, ?_, ?_, ?_⟩
  · intro hnd sid roomId username
    show (joinRoom (run State.init es) sid roomId username).2.filterMap membershipOf = _
    rw [joinRoom_emits, members_run_joins roomId es State.init hnd]
    have h0 : members State.init roomId = [] := rfl
    have hfold : setAdd ((joinedNames roomId es).foldl setAdd []) username =
        (joinedNames roomId es ++ [username]).foldl setAdd [] := by
      rw [List.foldl_append]
      rfl
    rw [h0, hfold, foldl_setAdd_nil]
    rfl
  · intro sid roomId username r
    exact members_joinRoom_append _ sid roomId username r
  · intro sid r
    exact members_disconnect_sublist _ sid r

/-- C22 as stated fails: in room `"r"`, `"a"` joins, `"b"` joins, `"a"`
disconnects and a session joins as `"a"` again; the user-joined notification
lists `["b", "a"]`, while in the order of their first join the names are `"a"`
then `"b"`. -/
theorem C22_rejoined_name_goes_last :
    (step (run State.init exampleRejoin) (Event.joinRoom 2 "r" "a")).2.filterMap membershipOf =
      [["b", "a"]] ∧
    firstOccurrences (joinedNames "r" (exampleRejoin ++ [Event.joinRoom 2 "r" "a"])) =
      ["a", "b"] := by
  decide

end DiceServer

/-! ## Signup and login -/

namespace Auth

open DiceServer

theorem mapSet_absent {α : Type} (m : JSMap α) (k : String) (v : α)
    (h : mapGet m k = none) : mapSet m k v = m ++ [(k, v)] := by
  induction m with
  | nil => rfl
  | cons p rest ih =>
    obtain ⟨k0, v0⟩ := p
    by_cases h0 : k0 = k
    · simp [mapGet, h0] at h
    · simp only [mapGet, h0, if_false] at h
      simp only [mapSet, h0, if_false, ih h, List.cons_append]

theorem signup_success (env : Env) (users : JSMap User) (u p : String)
    (hu : u ≠ "") (hp : p ≠ "") (hfree : mapHas users (env.toLowerCase u) = false)
    (hlen : 6 ≤ utf16Length p) :
    signup env users (JSVal.str u) (JSVal.str p) =
      (users ++ [(env.toLowerCase u,
          { username := u, password := env.hash p, createdAt := env.now })],
        Response.token (env.sign u) u) := by
  have hl : ¬ utf16Length p < 6 := Nat.not_lt.mpr hlen
  have habs : mapGet users (env.toLowerCase u) = none := (mapHas_eq_false_iff _ _).1 hfree
  simp [signup, JSVal.truthy, hu, hp, hfree, hl, mapSet_absent _ _ _ habs]

theorem signup_falsy (env : Env) (users : JSMap User) (username password : JSVal)
    (ht : (!username.truthy || !password.truthy) = true) :
    signup env users username password =
      (users, Response.error 400 "Username and password required") := by
  simp only [signup, ht, if_true]

theorem signup_taken (env : Env) (users : JSMap User) (u : String) (password : JSVal)
    (ht : (!(JSVal.str u).truthy || !password.truthy) = false)
    (hh : mapHas users (env.toLowerCase u) = true) :
    signup env users (JSVal.str u) password =
      (users, Response.error 400 "Username already exists") := by
  simp [signup, ht, hh]

theorem signup_short (env : Env) (users : JSMap User) (u p : String)
    (ht : (!(JSVal.str u).truthy || !(JSVal.str p).truthy) = false)
    (hh : mapHas users (env.toLowerCase u) = false) (hlen : utf16Length p < 6) :
    signup env users (JSVal.str u) (JSVal.str p) =
      (users, Response.error 400 "Password must be at least 6 characters") := by
  simp [signup, ht, hh, hlen]

theorem signup_username_num (env : Env) (users : JSMap User) (n : Int) (password : JSVal)
    (ht : (!(JSVal.num n).truthy || !password.truthy) = false) :
    signup env users (JSVal.num n) password = (users, Response.error 500 "Server error") := by
  simp [signup, ht]

theorem signup_password_num (env : Env) (users : JSMap User) (u : String) (n : Int)
    (ht : (!(JSVal.str u).truthy || !(JSVal.num n).truthy) = false)
    (hh : mapHas users (env.toLowerCase u) = false) :
    signup env users (JSVal.str u) (JSVal.num n) =
      (users, Response.error 500 "Server error") := by
  simp [signup, ht, hh]

theorem signup_cases (env : Env) (users : JSMap User) (username password : JSVal) :
    (∃ u p, username = JSVal.str u ∧ password = JSVal.str p ∧ u ≠ "" ∧ p ≠ "" ∧
      mapHas users (env.toLowerCase u) = false ∧ 6 ≤ utf16Length p) ∨
    ((signup env users username password).1 = users ∧
      ((signup env users username password).2 =
          Response.error 400 "Username and password required" ∨
        (signup env users username password).2 =
          Response.error 400 "Username already exists" ∨
        (signup env users username password).2 =
          Response.error 400 "Password must be at least 6 characters" ∨
        ((signup env users username password).2 = Response.error 500 "Server error" ∧
          ((∀ u, username ≠ JSVal.str u) ∨ ∀ p, password ≠ JSVal.str p)))) := by
  cases ht : (!username.truthy || !password.truthy) with
  | true =>
    right
    rw [signup_falsy env users username password ht]
    exact ⟨rfl, Or.inl rfl⟩
  | false =>
    cases username with
    | undefined => simp [JSVal.truthy] at ht
    | num n =>
      right
      rw [signup_username_num env users n password ht]
      exact ⟨rfl, Or.inr (Or.inr (Or.inr ⟨rfl, Or.inl (fun u h => by cases h)⟩))⟩
    | str u =>
      cases hh : mapHas users (env.toLowerCase u) with
      | true =>
        right
        rw [signup_taken env users u password ht hh]
        exact ⟨rfl, Or.inr (Or.inl rfl)⟩
      | false =>
        cases password with
        | undefined => simp [JSVal.truthy] at ht
        | num n =>
          right
          rw [signup_password_num env users u n ht hh]
          exact ⟨rfl, Or.inr (Or.inr (Or.inr ⟨rfl, Or.inr (fun p h => by cases h)⟩))⟩
        | str p =>
          by_cases hlen : utf16Length p < 6
          · right
            rw [signup_short env users u p ht hh hlen]
            exact ⟨rfl, Or.inr (Or.inr (Or.inl rfl))⟩
          · left
            have hu : u ≠ "" := by
              intro e
              simp [JSVal.truthy, e] at ht
            have hp : p ≠ "" := by
              intro e
              simp [JSVal.truthy, e] at ht
            exact ⟨u, p, rfl, rfl, hu, hp, hh, Nat.not_lt.mp hlen⟩

/-- C23, as the code has it: signup succeeds, storing a user and answering with
a token and the username, exactly when username and password are non-empty
strings, no user is registered under the lower-cased username and the password
has length at least 6; on success the one record added is keyed by the
lower-cased username and keeps the username as supplied. A rejected request
leaves the users map unchanged and is answered with one of the three 400
rejections, or with the 500 `Server error` rejection, which is the answer when
the username or the password is a value other than a string. -/
theorem C23_signup_outcomes (env : Env) (users : JSMap User) (username password : JSVal) :
    ((signup env users username password).2.isToken = true ↔
      ∃ u p, username = JSVal.str u ∧ password = JSVal.str p ∧ u ≠ "" ∧ p ≠ "" ∧
        mapHas users (env.toLowerCase u) = false ∧ 6 ≤ utf16Length p) ∧
    (∀ u p, username = JSVal.str u → password = JSVal.str p → u ≠ "" → p ≠ "" →
        mapHas users (env.toLowerCase u) = false → 6 ≤ utf16Length p →
      signup env users username password =
        (users ++ [(env.toLowerCase u,
            { username := u, password := env.hash p, createdAt := env.now })],
          Response.token (env.sign u) u)) ∧
    ((signup env users username password).2.isToken = false →
      (signup env users username password).1 = users ∧
      ((signup env users username password).2 =
          Response.error 400 "Username and password required" ∨
        (signup env users username password).2 =
          Response.error 400 "Username already exists" ∨
        (signup env users username password).2 =
          Response.error 400 "Password must be at least 6 characters" ∨
        ((signup env users username password).2 = Response.error 500 "Server error" ∧
          ((∀ u, username ≠ JSVal.str u) ∨ ∀ p, password ≠ JSVal.str p)))) := by
  have hsucc : ∀ u p, username = JSVal.str u → password = JSVal.str p → u ≠ "" → p ≠ "" →
      mapHas users (env.toLowerCase u) = false → 6 ≤ utf16Length p →
      signup env users username password =
        (users ++ [(env.toLowerCase u,
            { username := u, password := env.hash p, createdAt := env.now })],
          Response.token (env.sign u) u) := by
    intro u p hu hp hu0 hp0 hfree hlen
    rw [hu, hp]
    exact signup_success env users u p hu0 hp0 hfree hlen
  refine ⟨⟨?_, ?_⟩, hsucc, ?_⟩
  · intro htok
    rcases signup_cases env users username password with h | ⟨_, h | h | h | ⟨h, _⟩⟩
    · exact h
    · rw [h] at htok; exact absurd htok (by decide)
    · rw [h] at htok; exact absurd htok (by decide)
    · rw [h] at htok; exact absurd htok (by decide)
    · rw [h] at htok; exact absurd htok (by decide)
  · rintro ⟨u, p, hu, hp, hu0, hp0, hfree, hlen⟩
    rw [hsucc u p hu hp hu0 hp0 hfree hlen]
    rfl
  · intro hrej
    rcases signup_cases env users username password with h | h
    · obtain ⟨u, p, hu, hp, hu0, hp0, hfree, hlen⟩ := h
      rw [hsucc u p hu hp hu0 hp0 hfree hlen] at hrej
      exact absurd hrej (by simp [Response.isToken])
    · exact h

/-- C23 as stated fails: a signup whose username is the number 5 is rejected
with the 500 `Server error` response, not with a 400. -/
theorem C23_signup_rejected_with_500 :
    signup exampleEnv [] (JSVal.num 5) (JSVal.str "secret1") =
      ([], Response.error 500 "Server error") := by
  decide

theorem login_falsy (env : Env) (users : JSMap User) (username password : JSVal)
    (ht : (!username.truthy || !password.truthy) = true) :
    login env users username password =
      (users, Response.error 400 "Username and password required") := by
  simp only [login, ht, if_true]

theorem login_unknown (env : Env) (users : JSMap User) (u : String) (password : JSVal)
    (ht : (!(JSVal.str u).truthy || !password.truthy) = false)
    (hg : mapGet users (env.toLowerCase u) = none) :
    login env users (JSVal.str u) password =
      (users, Response.error 401 "Invalid credentials") := by
  simp [login, ht, hg]

theorem login_known (env : Env) (users : JSMap User) (u p : String) (user : User)
    (ht : (!(JSVal.str u).truthy || !(JSVal.str p).truthy) = false)
    (hg : mapGet users (env.toLowerCase u) = some user) :
    login env users (JSVal.str u) (JSVal.str p) =
      if env.compare p user.password = true then
        (users, Response.token (env.sign user.username) user.username)
      else (users, Response.error 401 "Invalid credentials") := by
  simp [login, ht, hg]

theorem login_users (env : Env) (users : JSMap User) (username password : JSVal) :
    (login env users username password).1 = users := by
  unfold login
  split
  · rfl
  · split
    · split
      · rfl
      · split
        · split <;> rfl
        · rfl
    · rfl

theorem login_token_or_error (env : Env) (users : JSMap User) (username password : JSVal) :
    (∃ u p user, username = JSVal.str u ∧ password = JSVal.str p ∧ u ≠ "" ∧ p ≠ "" ∧
      mapGet users (env.toLowerCase u) = some user ∧ env.compare p user.password = true ∧
      (login env users username password).2 =
        Response.token (env.sign user.username) user.username) ∨
    (∃ status reason, (login env users username password).2 = Response.error status reason ∧
      (status = 400 ∨ status = 401 ∨ status = 500)) := by
  cases ht : (!username.truthy || !password.truthy) with
  | true =>
    right
    rw [login_falsy env users username password ht]
    exact ⟨400, _, rfl, Or.inl rfl⟩
  | false =>
    cases username with
    | undefined => simp [JSVal.truthy] at ht
    | num n =>
      right
      refine ⟨500, "Server error", ?_, Or.inr (Or.inr rfl)⟩
      simp [login, ht]
    | str u =>
      cases hg : mapGet users (env.toLowerCase u) with
      | none =>
        right
        rw [login_unknown env users u password ht hg]
        exact ⟨401, _, rfl, Or.inr (Or.inl rfl)⟩
      | some user =>
        cases password with
        | undefined => simp [JSVal.truthy] at ht
        | num n =>
          right
          refine ⟨500, "Server error", ?_, Or.inr (Or.inr rfl)⟩
          simp [login, ht, hg]
        | str p =>
          have hu : u ≠ "" := by
            intro e
            simp [JSVal.truthy, e] at ht
          have hp : p ≠ "" := by
            intro e
            simp [JSVal.truthy, e] at ht
          rw [login_known env users u p user ht hg]
          by_cases hc : env.compare p user.password = true
          · left
            rw [if_pos hc]
            exact ⟨u, p, user, rfl, rfl, hu, hp, hg, hc, rfl⟩
          · right
            rw [if_neg hc]
            exact ⟨401, _, rfl, Or.inr (Or.inl rfl)⟩

theorem signup_keeps_login_assumptions (env : Env) (users : JSMap User)
    (username password : JSVal)
    (hlower : ∀ s : String, s ≠ "" → env.toLowerCase s ≠ env.toLowerCase "")
    (hempty : ∀ p : String, 6 ≤ utf16Length p → env.compare "" (env.hash p) = false)
    (hname : mapGet users (env.toLowerCase "") = none)
    (hpass : ∀ q ∈ users, env.compare "" q.2.password = false) :
    mapGet (signup env users username password).1 (env.toLowerCase "") = none ∧
    (∀ q ∈ (signup env users username password).1, env.compare "" q.2.password = false) := by
  rcases signup_cases env users username password with h | ⟨h, _⟩
  · obtain ⟨u, p, hu, hp, hu0, hp0, hfree, hlen⟩ := h
    have habs : mapGet users (env.toLowerCase u) = none := (mapHas_eq_false_iff _ _).1 hfree
    rw [hu, hp, signup_success env users u p hu0 hp0 hfree hlen]
    constructor
    · show mapGet (users ++ [(env.toLowerCase u, _)]) (env.toLowerCase "") = none
      rw [← mapSet_absent _ _ _ habs,
        mapGet_mapSet_ne _ _ _ _ (fun e => hlower u hu0 e.symm)]
      exact hname
    · intro q hq
      have hq2 : q ∈ users ++ [(env.toLowerCase u,
          ({ username := u, password := env.hash p, createdAt := env.now } : User))] := hq
      rw [List.mem_append, List.mem_singleton] at hq2
      rcases hq2 with hq2 | hq2
      · exact hpass q hq2
      · rw [hq2]
        exact hempty p hlen
  · rw [h]
    exact ⟨hname, hpass⟩

/-- C24: when no user is registered under the empty name and the empty
password matches no stored hash, as signup guarantees, login answers with a
token and the username as it was registered exactly when a user is stored under
the lower-cased supplied username and the comparison of the supplied password
with the stored hash succeeds; every other request is rejected, an unknown
username and a wrong password with the same 401 `Invalid credentials` response;
login leaves the users map unchanged. -/
theorem C24_login_outcomes (env : Env) (users : JSMap User) (username password : JSVal)
    (hname : mapGet users (env.toLowerCase "") = none)
    (hpass : ∀ q ∈ users, env.compare "" q.2.password = false) :
    ((login env users username password).2.isToken = true ↔
      ∃ u p user, username = JSVal.str u ∧ password = JSVal.str p ∧
        mapGet users (env.toLowerCase u) = some user ∧
        env.compare p user.password = true) ∧
    (∀ u p user, username = JSVal.str u → password = JSVal.str p →
        mapGet users (env.toLowerCase u) = some user → env.compare p user.password = true →
      (login env users username password).2 =
        Response.token (env.sign user.username) user.username) ∧
    ((login env users username password).2.isToken = false →
      ∃ status reason, (login env users username password).2 = Response.error status reason) ∧
    (∀ u p, username = JSVal.str u → password = JSVal.str p → u ≠ "" → p ≠ "" →
      (mapGet users (env.toLowerCase u) = none →
        (login env users username password).2 = Response.error 401 "Invalid credentials") ∧
      (∀ user, mapGet users (env.toLowerCase u) = some user →
        env.compare p user.password = false →
        (login env users username password).2 = Response.error 401 "Invalid credentials")) ∧
    (login env users username password).1 = users := by
  have hsucc : ∀ u p user, username = JSVal.str u → password = JSVal.str p →
      mapGet users (env.toLowerCase u) = some user → env.compare p user.password = true →
      (login env users username password).2 =
        Response.token (env.sign user.username) user.username := by
    intro u p user hu hp hg hc
    have hu0 : u ≠ "" := by
      intro e
      rw [e, hname] at hg
      cases hg
    have hp0 : p ≠ "" := by
      intro e
      rw [e, hpass (env.toLowerCase u, user) (mapGet_some_mem _ _ _ hg)] at hc
      cases hc
    have ht : (!(JSVal.str u).truthy || !(JSVal.str p).truthy) = false := by
      simp [JSVal.truthy, hu0, hp0]
    rw [hu, hp, login_known env users u p user ht hg, if_pos hc]
  refine ⟨⟨?_, ?_⟩, hsucc, ?_, ?_, login_users env users username password⟩
  · intro htok
    rcases login_token_or_error env users username password with h | ⟨status, reason, h, _⟩
    · obtain ⟨u, p, user, hu, hp, _, _, hg, hc, _⟩ := h
      exact ⟨u, p, user, hu, hp, hg, hc⟩
    · rw [h] at htok
      exact absurd htok (by simp [Response.isToken])
  · rintro ⟨u, p, user, hu, hp, hg, hc⟩
    rw [hsucc u p user hu hp hg hc]
    rfl
  · intro hrej
    rcases login_token_or_error env users username password with h | ⟨status, reason, h, _⟩
    · obtain ⟨u, p, user, _, _, _, _, _, _, h⟩ := h
      rw [h] at hrej
      exact absurd hrej (by simp [Response.isToken])
    · exact ⟨status, reason, h⟩
  · intro u p hu hp hu0 hp0
    have ht : (!(JSVal.str u).truthy || !(JSVal.str p).truthy) = false := by
      simp [JSVal.truthy, hu0, hp0]
    constructor
    · intro hg
      rw [hu, hp, login_unknown env users u (JSVal.str p) ht hg]
    · intro user hg hc
      have hc2 : ¬ env.compare p user.password = true := by
        rw [hc]
        exact Bool.false_ne_true
      rw [hu, hp, login_known env users u p user ht hg, if_neg hc2]

theorem C24_login_outcomes_witness :
    (mapGet exampleUsers (exampleEnv.toLowerCase "") = none ∧
      ∀ q ∈ exampleUsers, exampleEnv.compare "" q.2.password = false) ∧
    (login exampleEnv exampleUsers (JSVal.str "BOB") (JSVal.str "secret1")).2 =
      Response.token "token:Bob" "Bob" ∧
    (login exampleEnv exampleUsers (JSVal.str "BOB") (JSVal.str "secret2")).2 =
      Response.error 401 "Invalid credentials" ∧
    (login exampleEnv exampleUsers (JSVal.str "eve") (JSVal.str "secret1")).2 =
      Response.error 401 "Invalid credentials" :=
  ⟨⟨by decide, by decide⟩,
   (C24_login_outcomes exampleEnv exampleUsers (JSVal.str "BOB") (JSVal.str "secret1")
      (by decide) (by decide)).2.1 "BOB" "secret1"
      { username := "Bob", password := "hash:secret1", createdAt := 1000 }
      rfl rfl (by decide) (by decide),
   ((C24_login_outcomes exampleEnv exampleUsers (JSVal.str "BOB") (JSVal.str "secret2")
      (by decide) (by decide)).2.2.2.1 "BOB" "secret2" rfl rfl (by decide) (by decide)).2
      { username := "Bob", password := "hash:secret1", createdAt := 1000 }
      (by decide) (by decide),
   ((C24_login_outcomes exampleEnv exampleUsers (JSVal.str "eve") (JSVal.str "secret1")
      (by decide) (by decide)).2.2.2.1 "eve" "secret1" rfl rfl (by decide) (by decide)).1
      (by decide)⟩

end Auth

/-! ## Fuzzy search -/

namespace Compendium

theorem fuzzyLoop_more_fuel {α : Type} [DecidableEq α] (query text : List α) (n : Nat) :
    ∀ i queryIndex : Nat, text.length ≤ i + n →
      fuzzyLoop query text (n + 1) i queryIndex = fuzzyLoop query text n i queryIndex := by
  induction n with
  | zero =>
    intro i queryIndex h
    have hi : ¬ (i < text.length ∧ queryIndex < query.length) := fun hc => by omega
    simp only [fuzzyLoop, hi, if_false]
  | succ n ih =>
    intro i queryIndex h
    rw [fuzzyLoop]
    by_cases hc : i < text.length ∧ queryIndex < query.length
    · rw [if_pos hc, ih (i + 1) (queryIndex + 1) (by omega), ih (i + 1) queryIndex (by omega)]
      conv_rhs => rw [fuzzyLoop, if_pos hc]
    · rw [if_neg hc]
      conv_rhs => rw [fuzzyLoop, if_neg hc]

theorem fuzzyLoop_iff {α : Type} [DecidableEq α] (query text : List α) (n : Nat) :
    ∀ i queryIndex : Nat, queryIndex ≤ query.length → text.length ≤ i + n →
      (fuzzyLoop query text n i queryIndex = query.length ↔
        (query.drop queryIndex).isSublist (text.drop i) = true) := by
  induction n with
  | zero =>
    intro i queryIndex hq h
    have hdrop : text.drop i = [] := List.drop_eq_nil_of_le (by omega)
    rw [hdrop]
    simp only [fuzzyLoop]
    by_cases he : queryIndex = query.length
    · have hd : query.drop queryIndex = [] := List.drop_eq_nil_of_le (by omega)
      rw [hd]
      simp [he, List.isSublist]
    · have hlt : queryIndex < query.length := by omega
      rw [List.drop_eq_getElem_cons hlt]
      simp [he, List.isSublist]
  | succ n ih =>
    intro i queryIndex hq h
    rw [fuzzyLoop]
    by_cases hc : i < text.length ∧ queryIndex < query.length
    · rw [if_pos hc, List.drop_eq_getElem_cons hc.1, List.drop_eq_getElem_cons hc.2]
      have ht : text[i]? = some text[i] := List.getElem?_eq_getElem hc.1
      have hqq : query[queryIndex]? = some query[queryIndex] := List.getElem?_eq_getElem hc.2
      rw [ht, hqq]
      by_cases heq : text[i] = query[queryIndex]
      · have h1 : (some text[i] = some query[queryIndex]) := by rw [heq]
        rw [if_pos h1, ih (i + 1) (queryIndex + 1) (by omega) (by omega)]
        simp [List.isSublist, heq]
      · have h1 : ¬ (some text[i] = some query[queryIndex]) := fun e => heq (Option.some.inj e)
        have h2 : ¬ query[queryIndex] = text[i] := fun e => heq e.symm
        rw [if_neg h1, ih (i + 1) queryIndex hq (by omega),
          List.drop_eq_getElem_cons hc.2]
        simp [List.isSublist, h2]
    · rw [if_neg hc]
      by_cases he : queryIndex = query.length
      · have hd : query.drop queryIndex = [] := List.drop_eq_nil_of_le (by omega)
        rw [hd]
        simp [he, List.isSublist]
      · have hlt : queryIndex < query.length := by omega
        have hi : text.length ≤ i := by
          by_contra hcon
          exact hc ⟨by omega, hlt⟩
        rw [List.drop_eq_nil_of_le hi, List.drop_eq_getElem_cons hlt]
        simp [he, List.isSublist]

theorem fuzzyLoop_sublist {α : Type} [DecidableEq α] (query text : List α) :
    fuzzyLoop query text text.length 0 0 = query.length ↔ List.Sublist query text := by
  rw [fuzzyLoop_iff query text text.length 0 0 (Nat.zero_le _) (by omega)]
  simp

theorem includes_iff {α : Type} [DecidableEq α] (text query : List α) :
    includes text query = true ↔ query <:+: text := by
  unfold includes
  rw [List.any_eq_true, List.infix_iff_prefix_suffix]
  constructor
  · rintro ⟨t, ht, hp⟩
    exact ⟨t, List.isPrefixOf_iff_prefix.1 hp, (List.mem_tails t text).1 ht⟩
  · rintro ⟨t, hp, ht⟩
    exact ⟨t, (List.mem_tails t text).2 ht, List.isPrefixOf_iff_prefix.2 hp⟩

theorem fuzzySearch_nonempty {α : Type} [DecidableEq α] (toLowerCase : List α → List α)
    (query text : List α) (hq : query ≠ []) (ht : text ≠ []) :
    fuzzySearch toLowerCase query text =
      (includes (toLowerCase text) (toLowerCase query) ||
        decide (fuzzyLoop (toLowerCase query) (toLowerCase text) (toLowerCase text).length 0 0 =
          (toLowerCase query).length)) := by
  have h1 : query.isEmpty = false := by
    cases query with
    | nil => exact absurd rfl hq
    | cons x xs => rfl
  have h2 : text.isEmpty = false := by
    cases text with
    | nil => exact absurd rfl ht
    | cons x xs => rfl
  unfold fuzzySearch
  rw [h1, h2]
  cases includes (toLowerCase text) (toLowerCase query) <;> simp

/-- C29: for a non-empty query and a non-empty text, `fuzzySearch` returns true
exactly when the lower-cased query is a subsequence, contiguous or not, of the
lower-cased text; the `includes` shortcut never changes the result, a block
that occurs in the text being a subsequence of it, so the function equals the
one without the shortcut; and the function returns false when the query or the
text is empty. -/
theorem C29_fuzzySearch_subsequence {α : Type} [DecidableEq α]
    (toLowerCase : List α → List α) (query text : List α) :
    (query ≠ [] → text ≠ [] →
      (fuzzySearch toLowerCase query text = true ↔
        List.Sublist (toLowerCase query) (toLowerCase text))) ∧
    fuzzySearch toLowerCase query text = fuzzySearchLoopOnly toLowerCase query text ∧
    (includes (toLowerCase text) (toLowerCase query) = true →
      List.Sublist (toLowerCase query) (toLowerCase text)) ∧
    (query = [] ∨ text = [] → fuzzySearch toLowerCase query text = false) := by
  have hinc : includes (toLowerCase text) (toLowerCase query) = true →
      List.Sublist (toLowerCase query) (toLowerCase text) :=
    fun h => ((includes_iff _ _).1 h).sublist
  refine ⟨?_, ?_, hinc, ?_⟩
  · intro hq ht
    rw [fuzzySearch_nonempty toLowerCase query text hq ht, Bool.or_eq_true, decide_eq_true_eq,
      fuzzyLoop_sublist]
    constructor
    · rintro (h | h)
      · exact hinc h
      · exact h
    · exact Or.inr
  · unfold fuzzySearch fuzzySearchLoopOnly
    by_cases he : (query.isEmpty || text.isEmpty) = true
    · rw [if_pos he, if_pos he]
    · rw [if_neg he, if_neg he]
      by_cases hi : includes (toLowerCase text) (toLowerCase query) = true
      · rw [if_pos hi]
        symm
        rw [decide_eq_true_eq, fuzzyLoop_sublist]
        exact hinc hi
      · rw [if_neg hi]
  · intro h
    unfold fuzzySearch
    rcases h with h | h
    · rw [h]
      rfl
    · rw [h]
      simp

end Compendium

/-! ## Player health -/

namespace IsaacGame

theorem healthOk_new (x y : ℚ) : HealthOk (Player.new x y) := by
  unfold HealthOk Player.new
  norm_num

theorem healthOk_takeDamage (p : Player) (amount : ℚ) (ha : 0 ≤ amount) (h : HealthOk p) :
    HealthOk (p.takeDamage amount) := by
  unfold HealthOk at *
  unfold Player.takeDamage
  by_cases hi : p.invulnerable = true
  · rw [if_pos hi]
    exact h
  · rw [if_neg hi]
    simp only
    by_cases hn : p.health - amount < 0
    · rw [if_pos hn]
      exact ⟨le_refl _, le_trans h.1 h.2⟩
    · rw [if_neg hn]
      constructor
      · linarith
      · linarith [h.2]

theorem healthOk_heal (p : Player) (amount : ℚ) (ha : 0 ≤ amount) (h : HealthOk p) :
    HealthOk (p.heal amount) := by
  unfold HealthOk at *
  unfold Player.heal
  simp only
  constructor
  · exact le_min (le_trans h.1 h.2) (by linarith [h.1])
  · exact min_le_left _ _

theorem takeDamage_invulnerable (p : Player) (amount : ℚ) (h : p.invulnerable = true) :
    p.takeDamage amount = p := by
  unfold Player.takeDamage
  rw [if_pos h]

theorem healthOk_items (item : Item) (hi : item ∈ items) (p : Player) (h : HealthOk p) :
    HealthOk (item.effect p) := by
  unfold HealthOk at *
  obtain ⟨h0, h1⟩ := h
  simp only [items, List.mem_cons, List.mem_singleton, List.not_mem_nil, or_false] at hi
  rcases hi with rfl | rfl | rfl | rfl | rfl | rfl | rfl | rfl | rfl | rfl | rfl | rfl |
    rfl | rfl | rfl | rfl
  all_goals simp only
  · exact ⟨h0, h1⟩
  · exact ⟨h0, h1⟩
  · exact ⟨h0, h1⟩
  · exact ⟨h0, h1⟩
  · exact ⟨by linarith, by linarith⟩
  · exact ⟨le_trans h0 h1, le_refl _⟩
  · exact ⟨h0, h1⟩
  · exact ⟨h0, h1⟩
  · exact ⟨h0, h1⟩
  · exact ⟨h0, h1⟩
  · exact ⟨h0, h1⟩
  · exact ⟨by linarith, by linarith⟩
  · exact ⟨le_min h0 (by norm_num), min_le_right _ _⟩
  · exact ⟨by linarith, by linarith⟩
  · exact ⟨h0, h1⟩
  · exact ⟨h0, h1⟩

theorem tearDelay_items (item : Item) (hi : item ∈ items) (p : Player)
    (h : 1 / 10 ≤ p.tearDelay) : 1 / 10 ≤ (item.effect p).tearDelay := by
  simp only [items, List.mem_cons, List.mem_singleton, List.not_mem_nil, or_false] at hi
  rcases hi with rfl | rfl | rfl | rfl | rfl | rfl | rfl | rfl | rfl | rfl | rfl | rfl |
    rfl | rfl | rfl | rfl
  all_goals simp only
  all_goals first
    | exact h
    | exact le_max_left _ _

/-- C30: the player built by the constructor has `0 <= health <= maxHealth`;
`takeDamage` and `heal` with a non-negative amount and the effect of every item
of the items table keep it so; `takeDamage` on an invulnerable player returns
the player unchanged in every field; and every item effect leaves `tearDelay`
at 0.1 or above when it was at 0.1 or above. -/
theorem C30_player_health_invariant :
    (∀ x y : ℚ, HealthOk (Player.new x y)) ∧
    (∀ (p : Player) (amount : ℚ), 0 ≤ amount → HealthOk p →
      HealthOk (p.takeDamage amount) ∧ HealthOk (p.heal amount)) ∧
    (∀ item ∈ items, ∀ p : Player, HealthOk p → HealthOk (item.effect p)) ∧
    (∀ (p : Player) (amount : ℚ), p.invulnerable = true → p.takeDamage amount = p) ∧
    (∀ item ∈ items, ∀ p : Player,
      1 / 10 ≤ p.tearDelay → 1 / 10 ≤ (item.effect p).tearDelay) :=
  ⟨healthOk_new,
   fun p amount ha h => ⟨healthOk_takeDamage p amount ha h, healthOk_heal p amount ha h⟩,
   healthOk_items, takeDamage_invulnerable, tearDelay_items⟩

/-! ## Dungeon generation -/

theorem coords_addRoom (d : DungeonGenerator) (x y : Int) (type : String) :
    coords (addRoom d x y type) = coords d ++ [(x, y)] := by
  simp [coords, addRoom, Room.new]

theorem coords_length (d : DungeonGenerator) : (coords d).length = d.rooms.length := by
  simp [coords]

theorem consistent_addRoom (d : DungeonGenerator) (x y : Int) (type : String)
    (h : Consistent d) (hin : Inside d x y) (hfree : d.grid y x = none) :
    Consistent (addRoom d x y type) := by
  obtain ⟨ha, hb⟩ := h
  have hlen := coords_length d
  constructor
  · intro x' y' i hg
    rw [coords_addRoom]
    have hg2 : (if y' = y ∧ x' = x then some d.rooms.length else d.grid y' x') = some i := hg
    by_cases hc : y' = y ∧ x' = x
    · rw [if_pos hc] at hg2
      have hi : i = d.rooms.length := (Option.some.inj hg2).symm
      obtain ⟨hy, hx⟩ := hc
      subst hy
      subst hx
      refine ⟨?_, hin⟩
      rw [hi, ← hlen, List.getElem?_append_right (Nat.le_refl _)]
      simp
    · rw [if_neg hc] at hg2
      obtain ⟨h1, h2⟩ := ha x' y' i hg2
      refine ⟨?_, h2⟩
      have hlt : i < (coords d).length := by
        by_contra hcon
        rw [List.getElem?_eq_none (Nat.le_of_not_lt hcon)] at h1
        cases h1
      rw [List.getElem?_append_left hlt]
      exact h1
  · intro i x' y' hc
    rw [coords_addRoom] at hc
    show (if y' = y ∧ x' = x then some d.rooms.length else d.grid y' x') = some i
    by_cases hlt : i < (coords d).length
    · rw [List.getElem?_append_left hlt] at hc
      have hg := hb i x' y' hc
      have hne : ¬ (y' = y ∧ x' = x) := by
        rintro ⟨hy, hx⟩
        rw [hy, hx, hfree] at hg
        cases hg
      rw [if_neg hne]
      exact hg
    · rw [List.getElem?_append_right (Nat.le_of_not_lt hlt)] at hc
      by_cases hi : i = (coords d).length
      · rw [hi] at hc
        simp only [Nat.sub_self, List.getElem?_cons_zero, Option.some.injEq,
          Prod.mk.injEq] at hc
        rw [if_pos ⟨hc.2.symm, hc.1.symm⟩, hi, hlen]
      · have hpos : 0 < i - (coords d).length := by omega
        obtain ⟨j, hj⟩ := Nat.exists_eq_succ_of_ne_zero (Nat.pos_iff_ne_zero.mp hpos)
        rw [hj] at hc
        simp at hc

theorem noDoors_addRoom (d : DungeonGenerator) (x y : Int) (type : String) (h : NoDoors d) :
    NoDoors (addRoom d x y type) := by
  intro doors hd
  simp only [addRoom, List.map_append, List.mem_append, List.map_cons, List.map_nil,
    List.mem_singleton] at hd
  rcases hd with hd | hd
  · exact h doors hd
  · rw [hd]
    rfl

theorem onRoom_addRoom (d : DungeonGenerator) (x y : Int) (type : String) (h : OnRoom d) :
    OnRoom (addRoom d x y type) := by
  obtain ⟨h1, h2⟩ := h
  refine ⟨h1, ?_⟩
  show (if d.currentY = y ∧ d.currentX = x then some d.rooms.length
    else d.grid d.currentY d.currentX).isSome = true
  by_cases hc : d.currentY = y ∧ d.currentX = x
  · rw [if_pos hc]
    rfl
  · rw [if_neg hc]
    exact h2

theorem genInv_addRoom (d : DungeonGenerator) (x y : Int) (type : String)
    (h : GenInv d) (hin : Inside d x y) (hfree : d.grid y x = none) :
    GenInv (addRoom d x y type) :=
  ⟨consistent_addRoom d x y type h.1 hin hfree, noDoors_addRoom d x y type h.2.1,
    onRoom_addRoom d x y type h.2.2⟩

theorem addRoom_length (d : DungeonGenerator) (x y : Int) (type : String) :
    (addRoom d x y type).rooms.length = d.rooms.length + 1 := by
  simp [addRoom]

theorem tryDirections_spec (rand : Nat → ℚ) (P : DungeonGenerator → Prop)
    (targetCount b : Nat) (x y : Int)
    (recur : DungeonGenerator × Nat → Int → Int → Option (DungeonGenerator × Nat))
    (hadd : ∀ (d : DungeonGenerator) (x y : Int), P d → d.rooms.length < targetCount →
      Inside d x y → d.grid y x = none → P (addRoom d x y "normal"))
    (hrec : ∀ (s : DungeonGenerator × Nat) (x y : Int), P s.1 →
      targetCount - s.1.rooms.length ≤ b →
      ∃ s2, recur s x y = some s2 ∧ P s2.1 ∧ s.1.rooms.length ≤ s2.1.rooms.length)
    (dirs : List Direction) :
    ∀ s : DungeonGenerator × Nat, P s.1 → targetCount - s.1.rooms.length ≤ b + 1 →
      ∃ s2, tryDirections rand recur x y targetCount dirs s = some s2 ∧ P s2.1 ∧
        s.1.rooms.length ≤ s2.1.rooms.length := by
  induction dirs with
  | nil =>
    intro s hP _
    exact ⟨s, rfl, hP, Nat.le_refl _⟩
  | cons dir rest ih =>
    intro s hP hb
    rw [tryDirections]
    by_cases h1 : targetCount ≤ s.1.rooms.length
    · rw [if_pos h1]
      exact ⟨s, rfl, hP, Nat.le_refl _⟩
    · rw [if_neg h1]
      by_cases h2 : x + dir.dx < 0 ∨ s.1.width ≤ x + dir.dx ∨ y + dir.dy < 0 ∨
          s.1.height ≤ y + dir.dy
      · rw [if_pos h2]
        exact ih s hP hb
      · rw [if_neg h2]
        by_cases h3 : (s.1.grid (y + dir.dy) (x + dir.dx)).isSome = true
        · rw [if_pos h3]
          exact ih s hP hb
        · rw [if_neg h3]
          by_cases h4 : rand s.2 < 7 / 10
          · rw [if_pos h4]
            have hin : Inside s.1 (x + dir.dx) (y + dir.dy) := by
              unfold Inside
              refine ⟨?_, ?_, ?_, ?_⟩
              · exact Int.not_lt.mp (fun hc => h2 (Or.inl hc))
              · exact Int.not_le.mp (fun hc => h2 (Or.inr (Or.inl hc)))
              · exact Int.not_lt.mp (fun hc => h2 (Or.inr (Or.inr (Or.inl hc))))
              · exact Int.not_le.mp (fun hc => h2 (Or.inr (Or.inr (Or.inr hc))))
            have hfree : s.1.grid (y + dir.dy) (x + dir.dx) = none := by
              cases hg : s.1.grid (y + dir.dy) (x + dir.dx) with
              | none => rfl
              | some i =>
                rw [hg] at h3
                exact absurd rfl h3
            have hP1 : P (addRoom s.1 (x + dir.dx) (y + dir.dy) "normal") :=
              hadd s.1 _ _ hP (Nat.lt_of_not_le h1) hin hfree
            have hlen1 := addRoom_length s.1 (x + dir.dx) (y + dir.dy) "normal"
            obtain ⟨s2, hs2, hP2, hl2⟩ :=
              hrec (addRoom s.1 (x + dir.dx) (y + dir.dy) "normal", s.2 + 1)
                (x + dir.dx) (y + dir.dy) hP1 (by simp only [hlen1]; omega)
            rw [hs2]
            simp only [hlen1] at hl2
            obtain ⟨s3, hs3, hP3, hl3⟩ := ih s2 hP2 (by omega)
            exact ⟨s3, hs3, hP3, by omega⟩
          · rw [if_neg h4]
            exact ih (s.1, s.2 + 1) hP hb

theorem generateRooms_spec (rand : Nat → ℚ) (P : DungeonGenerator → Prop) (targetCount : Nat)
    (hadd : ∀ (d : DungeonGenerator) (x y : Int), P d → d.rooms.length < targetCount →
      Inside d x y → d.grid y x = none → P (addRoom d x y "normal"))
    (fuel : Nat) :
    ∀ (s : DungeonGenerator × Nat) (x y : Int), P s.1 →
      targetCount - s.1.rooms.length ≤ fuel →
      ∃ s2, generateRooms rand targetCount fuel s x y = some s2 ∧ P s2.1 ∧
        s.1.rooms.length ≤ s2.1.rooms.length := by
  induction fuel with
  | zero =>
    intro s x y hP hb
    have h1 : targetCount ≤ s.1.rooms.length := by omega
    rw [generateRooms, if_pos h1]
    exact ⟨s, rfl, hP, Nat.le_refl _⟩
  | succ fuel ih =>
    intro s x y hP hb
    rw [generateRooms]
    by_cases h1 : targetCount ≤ s.1.rooms.length
    · rw [if_pos h1]
      exact ⟨s, rfl, hP, Nat.le_refl _⟩
    · rw [if_neg h1]
      exact tryDirections_spec rand P targetCount fuel x y
        (generateRooms rand targetCount fuel) hadd ih (shuffle rand s.2).1
        (s.1, (shuffle rand s.2).2) hP hb

theorem setType_layout (rooms : List Room) :
    ∀ (i : Nat) (type : String),
      ((setType rooms i type).map fun room => (room.x, room.y, room.doors)) =
        rooms.map fun room => (room.x, room.y, room.doors) := by
  induction rooms with
  | nil => intro i type; rfl
  | cons room rest ih =>
    intro i type
    cases i with
    | zero => rfl
    | succ i =>
      simp only [setType, List.map_cons, ih i type]

theorem sameLayout_refl (d : DungeonGenerator) : SameLayout d d :=
  ⟨rfl, rfl, rfl, rfl, rfl, rfl⟩

theorem sameLayout_trans (d1 d2 d3 : DungeonGenerator) (h12 : SameLayout d1 d2)
    (h23 : SameLayout d2 d3) : SameLayout d1 d3 := by
  obtain ⟨a1, a2, a3, a4, a5, a6⟩ := h12
  obtain ⟨b1, b2, b3, b4, b5, b6⟩ := h23
  exact ⟨b1.trans a1, b2.trans a2, b3.trans a3, b4.trans a4, b5.trans a5, b6.trans a6⟩

theorem sameLayout_placeBossRoom (d : DungeonGenerator) : SameLayout d (placeBossRoom d) := by
  unfold placeBossRoom
  split
  · exact sameLayout_refl d
  · split
    · exact sameLayout_refl d
    · split
      · exact sameLayout_refl d
      · exact ⟨rfl, rfl, rfl, rfl, rfl, setType_layout _ _ _⟩

theorem sameLayout_placeTreasures (rand : Nat → ℚ) (count : Nat) :
    ∀ (normal : List Nat) (s : DungeonGenerator × Nat),
      SameLayout s.1 (placeTreasures rand count normal s).1 := by
  induction count with
  | zero => intro normal s; exact sameLayout_refl _
  | succ count ih =>
    intro normal s
    rw [placeTreasures]
    split
    · exact sameLayout_refl _
    · split
      · exact sameLayout_refl _
      · rename_i i _
        refine sameLayout_trans _ _ _ ?_ (ih _ _)
        exact ⟨rfl, rfl, rfl, rfl, rfl, setType_layout _ _ _⟩

theorem sameLayout_placeTreasureRooms (rand : Nat → ℚ) (s : DungeonGenerator × Nat) :
    SameLayout s.1 (placeTreasureRooms rand s).1 := by
  unfold placeTreasureRooms
  exact sameLayout_placeTreasures rand _ _ (s.1, s.2 + 1)

theorem sameLayout_coords (d1 d2 : DungeonGenerator) (h : SameLayout d1 d2) :
    coords d2 = coords d1 := by
  have h6 := congrArg (List.map fun t : Int × Int × Doors => (t.1, t.2.1)) h.2.2.2.2.2
  simpa [coords, List.map_map] using h6

theorem sameLayout_doors (d1 d2 : DungeonGenerator) (h : SameLayout d1 d2) :
    d2.rooms.map Room.doors = d1.rooms.map Room.doors := by
  have h6 := congrArg (List.map fun t : Int × Int × Doors => t.2.2) h.2.2.2.2.2
  simpa [List.map_map, Function.comp_def] using h6

theorem sameLayout_length (d1 d2 : DungeonGenerator) (h : SameLayout d1 d2) :
    d2.rooms.length = d1.rooms.length := by
  have h6 := congrArg List.length h.2.2.2.2.2
  simpa using h6

theorem genInv_sameLayout (d1 d2 : DungeonGenerator) (h : SameLayout d1 d2)
    (hinv : GenInv d1) : GenInv d2 := by
  have hc := sameLayout_coords d1 d2 h
  have hd := sameLayout_doors d1 d2 h
  obtain ⟨hw, hh, hg, hx, hy, _⟩ := h
  obtain ⟨⟨ca, cb⟩, hno, hon⟩ := hinv
  refine ⟨⟨?_, ?_⟩, ?_, ?_⟩
  · intro x y i hgi
    rw [hg] at hgi
    rw [hc]
    obtain ⟨h1, h2⟩ := ca x y i hgi
    refine ⟨h1, ?_⟩
    unfold Inside at *
    rw [hw, hh]
    exact h2
  · intro i x y hci
    rw [hc] at hci
    rw [hg]
    exact cb i x y hci
  · intro doors hdoors
    rw [hd] at hdoors
    exact hno doors hdoors
  · unfold OnRoom Inside at *
    rw [hw, hh, hg, hx, hy]
    exact hon

theorem cell_inside (d : DungeonGenerator) (h : Consistent d) (x y : Int)
    (hs : (d.grid y x).isSome = true) : Inside d x y := by
  cases hg : d.grid y x with
  | none =>
    rw [hg] at hs
    cases hs
  | some i => exact (h.1 x y i hg).2

theorem room_cell (d : DungeonGenerator) (h : Consistent d) (room : Room)
    (hr : room ∈ d.rooms) :
    Inside d room.x room.y ∧ (d.grid room.y room.x).isSome = true := by
  obtain ⟨i, hi⟩ := List.getElem?_of_mem hr
  have hc : (coords d)[i]? = some (room.x, room.y) := by
    simp only [coords, List.getElem?_map, hi, Option.map_some']
  have hg := h.2 i room.x room.y hc
  exact ⟨(h.1 room.x room.y i hg).2, by rw [hg]; rfl⟩

theorem coords_connectRooms (d : DungeonGenerator) : coords (connectRooms d) = coords d := by
  simp [coords, connectRooms, connectRoom, List.map_map, Function.comp_def]

theorem consistent_connectRooms (d : DungeonGenerator) (h : Consistent d) :
    Consistent (connectRooms d) := by
  have hc := coords_connectRooms d
  obtain ⟨ha, hb⟩ := h
  constructor
  · intro x y i hg
    rw [hc]
    exact ha x y i hg
  · intro i x y hci
    rw [hc] at hci
    exact hb i x y hci

theorem doorsMatch_connectRooms (d : DungeonGenerator) (h : Consistent d) (hno : NoDoors d) :
    DoorsMatch (connectRooms d) := by
  intro room2 hr2
  have hr3 : room2 ∈ d.rooms.map (connectRoom d) := hr2
  obtain ⟨room, hr, hroom⟩ := List.mem_map.1 hr3
  have hdoors : room.doors = { north := false, south := false, east := false, west := false } :=
    hno room.doors (List.mem_map.2 ⟨room, hr, rfl⟩)
  obtain ⟨hin, _⟩ := room_cell d h room hr
  obtain ⟨hx0, hxw, hy0, hyh⟩ := hin
  subst hroom
  show (((connectRoom d room).doors.north = true ↔
      Inside d room.x (room.y - 1) ∧ (d.grid (room.y - 1) room.x).isSome = true) ∧
    ((connectRoom d room).doors.south = true ↔
      Inside d room.x (room.y + 1) ∧ (d.grid (room.y + 1) room.x).isSome = true) ∧
    ((connectRoom d room).doors.east = true ↔
      Inside d (room.x + 1) room.y ∧ (d.grid room.y (room.x + 1)).isSome = true) ∧
    ((connectRoom d room).doors.west = true ↔
      Inside d (room.x - 1) room.y ∧ (d.grid room.y (room.x - 1)).isSome = true))
  simp only [connectRoom, hdoors]
  refine ⟨?_, ?_, ?_, ?_⟩
  · constructor
    · intro hc
      by_cases hcond : 0 < room.y ∧ (d.grid (room.y - 1) room.x).isSome = true
      · exact ⟨cell_inside d h _ _ hcond.2, hcond.2⟩
      · rw [if_neg hcond] at hc
        cases hc
    · rintro ⟨hi, hs⟩
      have hcond : 0 < room.y ∧ (d.grid (room.y - 1) room.x).isSome = true :=
        ⟨by have := hi.2.2.1; omega, hs⟩
      rw [if_pos hcond]
  · constructor
    · intro hc
      by_cases hcond : room.y < d.height - 1 ∧ (d.grid (room.y + 1) room.x).isSome = true
      · exact ⟨cell_inside d h _ _ hcond.2, hcond.2⟩
      · rw [if_neg hcond] at hc
        cases hc
    · rintro ⟨hi, hs⟩
      have hcond : room.y < d.height - 1 ∧ (d.grid (room.y + 1) room.x).isSome = true :=
        ⟨by have := hi.2.2.2; omega, hs⟩
      rw [if_pos hcond]
  · constructor
    · intro hc
      by_cases hcond : room.x < d.width - 1 ∧ (d.grid room.y (room.x + 1)).isSome = true
      · exact ⟨cell_inside d h _ _ hcond.2, hcond.2⟩
      · rw [if_neg hcond] at hc
        cases hc
    · rintro ⟨hi, hs⟩
      have hcond : room.x < d.width - 1 ∧ (d.grid room.y (room.x + 1)).isSome = true :=
        ⟨by have := hi.2.1; omega, hs⟩
      rw [if_pos hcond]
  · constructor
    · intro hc
      by_cases hcond : 0 < room.x ∧ (d.grid room.y (room.x - 1)).isSome = true
      · exact ⟨cell_inside d h _ _ hcond.2, hcond.2⟩
      · rw [if_neg hcond] at hc
        cases hc
    · rintro ⟨hi, hs⟩
      have hcond : 0 < room.x ∧ (d.grid room.y (room.x - 1)).isSome = true :=
        ⟨by have := hi.1; omega, hs⟩
      rw [if_pos hcond]

theorem generate_eq (rand : Nat → ℚ) (d : DungeonGenerator) :
    generate rand d =
      match generateRooms rand (targetRooms rand) (targetRooms rand) (withStartRoom d, 1)
          (d.width / 2) (d.height / 2) with
      | none => none
      | some s =>
        some (connectRooms (placeTreasureRooms rand (placeBossRoom s.1, s.2)).1,
          (placeTreasureRooms rand (placeBossRoom s.1, s.2)).2) := rfl

theorem genInv_withStartRoom (width height : Int) (hw : 0 < width) (hh : 0 < height) :
    GenInv (withStartRoom (DungeonGenerator.new width height)) ∧
    (withStartRoom (DungeonGenerator.new width height)).rooms.length = 1 := by
  have hin : Inside
      { DungeonGenerator.new width height with
        grid := fun _ _ => none, currentX := width / 2, currentY := height / 2 }
      (width / 2) (height / 2) := by
    unfold Inside
    show 0 ≤ width / 2 ∧ width / 2 < width ∧ 0 ≤ height / 2 ∧ height / 2 < height
    omega
  have hcons0 : Consistent
      { DungeonGenerator.new width height with
        grid := fun _ _ => none, currentX := width / 2, currentY := height / 2 } := by
    constructor
    · intro x y i hg
      cases hg
    · intro i x y hc
      simp [coords, DungeonGenerator.new] at hc
  have hcons := consistent_addRoom _ (width / 2) (height / 2) "start" hcons0 hin rfl
  refine ⟨⟨hcons, ?_, ?_⟩, rfl⟩
  · intro doors hd
    simp only [withStartRoom, addRoom, DungeonGenerator.new, List.nil_append, List.map_cons,
      List.map_nil, List.mem_singleton] at hd
    rw [hd]
    rfl
  · refine ⟨hin, ?_⟩
    show (if height / 2 = height / 2 ∧ width / 2 = width / 2 then some 0 else none).isSome = true
    rw [if_pos ⟨rfl, rfl⟩]
    rfl

theorem generate_spec (rand : Nat → ℚ) (width height : Int) (hw : 0 < width)
    (hh : 0 < height) :
    ∃ s, generate rand (DungeonGenerator.new width height) = some s ∧
      Consistent s.1 ∧ DoorsMatch s.1 ∧ OnRoom s.1 ∧
      1 ≤ s.1.rooms.length ∧ s.1.rooms.length ≤ targetRooms rand := by
  obtain ⟨hinv0, hlen0⟩ := genInv_withStartRoom width height hw hh
  have htarget : 8 ≤ targetRooms rand := by
    unfold targetRooms
    omega
  obtain ⟨s, hs, ⟨hinv, hle⟩, hmono⟩ :=
    generateRooms_spec rand (fun d => GenInv d ∧ d.rooms.length ≤ targetRooms rand)
      (targetRooms rand)
      (fun d x y hP hlt hin hfree =>
        ⟨genInv_addRoom d x y "normal" hP.1 hin hfree, by
          rw [addRoom_length]
          omega⟩)
      (targetRooms rand) (withStartRoom (DungeonGenerator.new width height), 1)
      (width / 2) (height / 2) ⟨hinv0, by rw [hlen0]; omega⟩ (by omega)
  have hl1 := sameLayout_placeBossRoom s.1
  have hl2 := sameLayout_placeTreasureRooms rand (placeBossRoom s.1, s.2)
  have hl := sameLayout_trans _ _ _ hl1 hl2
  have hinv2 := genInv_sameLayout _ _ hl hinv
  have hlen2 := sameLayout_length _ _ hl
  refine ⟨(connectRooms (placeTreasureRooms rand (placeBossRoom s.1, s.2)).1,
    (placeTreasureRooms rand (placeBossRoom s.1, s.2)).2), ?_, ?_, ?_, ?_, ?_, ?_⟩
  · rw [generate_eq]
    show (match generateRooms rand (targetRooms rand) (targetRooms rand)
        (withStartRoom (DungeonGenerator.new width height), 1) (width / 2) (height / 2) with
      | none => none
      | some s =>
        some (connectRooms (placeTreasureRooms rand (placeBossRoom s.1, s.2)).1,
          (placeTreasureRooms rand (placeBossRoom s.1, s.2)).2)) = _
    rw [hs]
  · exact consistent_connectRooms _ hinv2.1
  · exact doorsMatch_connectRooms _ hinv2.1 hinv2.2.1
  · exact hinv2.2.2
  · show 1 ≤ ((placeTreasureRooms rand (placeBossRoom s.1, s.2)).1.rooms.map _).length
    rw [List.length_map, hlen2]
    have : (withStartRoom (DungeonGenerator.new width height)).rooms.length ≤
        s.1.rooms.length := hmono
    omega
  · show ((placeTreasureRooms rand (placeBossRoom s.1, s.2)).1.rooms.map _).length ≤ _
    rw [List.length_map, hlen2]
    exact hle

theorem cell_room (d : DungeonGenerator) (h : Consistent d) (x y : Int)
    (hs : (d.grid y x).isSome = true) :
    ∃ room ∈ d.rooms, room.x = x ∧ room.y = y ∧
      ∃ i, d.grid y x = some i ∧ d.rooms[i]? = some room := by
  cases hg : d.grid y x with
  | none =>
    rw [hg] at hs
    cases hs
  | some i =>
    have hc := (h.1 x y i hg).1
    simp only [coords, List.getElem?_map] at hc
    cases hr : d.rooms[i]? with
    | none =>
      rw [hr] at hc
      cases hc
    | some room =>
      rw [hr] at hc
      simp only [Option.map_some', Option.some.injEq, Prod.mk.injEq] at hc
      exact ⟨room, List.getElem?_mem hr, hc.1, hc.2, i, rfl, hr⟩

theorem getCurrentRoom_spec (d : DungeonGenerator) (h : Consistent d) (room : Room)
    (hr : getCurrentRoom d = some room) :
    room ∈ d.rooms ∧ room.x = d.currentX ∧ room.y = d.currentY := by
  unfold getCurrentRoom at hr
  cases hg : d.grid d.currentY d.currentX with
  | none =>
    rw [hg] at hr
    cases hr
  | some i =>
    rw [hg] at hr
    have hr2 : d.rooms[i]? = some room := hr
    have hc := (h.1 d.currentX d.currentY i hg).1
    simp only [coords, List.getElem?_map, hr2, Option.map_some', Option.some.injEq,
      Prod.mk.injEq] at hc
    exact ⟨List.getElem?_mem hr2, hc.1, hc.2⟩

theorem canMove_true (d : DungeonGenerator) (direction : String)
    (hc : canMove d direction = true) :
    ∃ room, getCurrentRoom d = some room ∧
      ((direction = "north" ∧ room.doors.north = true ∧
          move d direction = ({ d with currentY := d.currentY - 1 }, true)) ∨
        (direction = "south" ∧ room.doors.south = true ∧
          move d direction = ({ d with currentY := d.currentY + 1 }, true)) ∨
        (direction = "east" ∧ room.doors.east = true ∧
          move d direction = ({ d with currentX := d.currentX + 1 }, true)) ∨
        (direction = "west" ∧ room.doors.west = true ∧
          move d direction = ({ d with currentX := d.currentX - 1 }, true))) := by
  have hm : (if canMove d direction = false then (d, false)
      else if direction = "north" then ({ d with currentY := d.currentY - 1 }, true)
      else if direction = "south" then ({ d with currentY := d.currentY + 1 }, true)
      else if direction = "east" then ({ d with currentX := d.currentX + 1 }, true)
      else if direction = "west" then ({ d with currentX := d.currentX - 1 }, true)
      else (d, true)) = move d direction := rfl
  rw [hc, if_neg (by decide)] at hm
  unfold canMove at hc
  cases hr : getCurrentRoom d with
  | none =>
    rw [hr] at hc
    cases hc
  | some room =>
    rw [hr] at hc
    refine ⟨room, rfl, ?_⟩
    dsimp only at hc
    by_cases hn : direction = "north"
    · rw [if_pos hn] at hc hm
      simp only [Bool.and_eq_true] at hc
      exact Or.inl ⟨hn, hc.1, hm.symm⟩
    · rw [if_neg hn] at hc hm
      by_cases hs : direction = "south"
      · rw [if_pos hs] at hc hm
        simp only [Bool.and_eq_true] at hc
        exact Or.inr (Or.inl ⟨hs, hc.1, hm.symm⟩)
      · rw [if_neg hs] at hc hm
        by_cases he : direction = "east"
        · rw [if_pos he] at hc hm
          simp only [Bool.and_eq_true] at hc
          exact Or.inr (Or.inr (Or.inl ⟨he, hc.1, hm.symm⟩))
        · rw [if_neg he] at hc hm
          by_cases hw : direction = "west"
          · rw [if_pos hw] at hc hm
            simp only [Bool.and_eq_true] at hc
            exact Or.inr (Or.inr (Or.inr ⟨hw, hc.1, hm.symm⟩))
          · rw [if_neg hw] at hc
            cases hc

theorem move_of_not_canMove (d : DungeonGenerator) (direction : String)
    (hc : canMove d direction = false) : move d direction = (d, false) := by
  unfold move
  rw [if_pos hc]

theorem move_spec (d : DungeonGenerator) (direction : String) :
    ((move d direction).2 = false ↔ canMove d direction = false) ∧
    (((move d direction).1.currentX = d.currentX ∧
        (move d direction).1.currentY = d.currentY) ↔ canMove d direction = false) ∧
    (canMove d direction = false → (move d direction).1 = d) := by
  cases hc : canMove d direction with
  | false =>
    rw [move_of_not_canMove d direction hc]
    simp
  | true =>
    obtain ⟨room, _, h | h | h | h⟩ := canMove_true d direction hc
    · rw [h.2.2]
      simp
    · rw [h.2.2]
      simp
    · rw [h.2.2]
      simp
    · rw [h.2.2]
      simp

/-- What holds of a generated dungeon, and is kept by `move`. -/
theorem move_keeps (d : DungeonGenerator) (direction : String)
    (hcons : Consistent d) (hdoors : DoorsMatch d) (hon : OnRoom d) :
    Consistent (move d direction).1 ∧ DoorsMatch (move d direction).1 ∧
      OnRoom (move d direction).1 := by
  cases hc : canMove d direction with
  | false =>
    rw [move_of_not_canMove d direction hc]
    exact ⟨hcons, hdoors, hon⟩
  | true =>
    obtain ⟨room, hr, h⟩ := canMove_true d direction hc
    obtain ⟨hmem, hx, hy⟩ := getCurrentRoom_spec d hcons room hr
    obtain ⟨hn, hs, he, hw⟩ := hdoors room hmem
    rw [hx, hy] at hn hs he hw
    rcases h with h | h | h | h
    · rw [h.2.2]
      exact ⟨hcons, hdoors, hn.1 h.2.1⟩
    · rw [h.2.2]
      exact ⟨hcons, hdoors, hs.1 h.2.1⟩
    · rw [h.2.2]
      exact ⟨hcons, hdoors, he.1 h.2.1⟩
    · rw [h.2.2]
      exact ⟨hcons, hdoors, hw.1 h.2.1⟩

theorem moves_keep (ds : List String) :
    ∀ d : DungeonGenerator, Consistent d → DoorsMatch d → OnRoom d →
      Consistent (moves d ds) ∧ DoorsMatch (moves d ds) ∧ OnRoom (moves d ds) := by
  induction ds with
  | nil =>
    intro d h1 h2 h3
    exact ⟨h1, h2, h3⟩
  | cons direction rest ih =>
    intro d h1 h2 h3
    obtain ⟨k1, k2, k3⟩ := move_keeps d direction h1 h2 h3
    exact ih (move d direction).1 k1 k2 k3

/-- A door leads to a room that has the door back. -/
theorem doors_symmetric (d : DungeonGenerator) (hcons : Consistent d) (hdoors : DoorsMatch d)
    (a : Room) (ha : a ∈ d.rooms) :
    (a.doors.north = true →
      ∃ b ∈ d.rooms, b.x = a.x ∧ b.y = a.y - 1 ∧ b.doors.south = true) ∧
    (a.doors.south = true →
      ∃ b ∈ d.rooms, b.x = a.x ∧ b.y = a.y + 1 ∧ b.doors.north = true) ∧
    (a.doors.east = true →
      ∃ b ∈ d.rooms, b.x = a.x + 1 ∧ b.y = a.y ∧ b.doors.west = true) ∧
    (a.doors.west = true →
      ∃ b ∈ d.rooms, b.x = a.x - 1 ∧ b.y = a.y ∧ b.doors.east = true) := by
  obtain ⟨hn, hs, he, hw⟩ := hdoors a ha
  have hcell := room_cell d hcons a ha
  refine ⟨?_, ?_, ?_, ?_⟩
  · intro h
    obtain ⟨b, hb, hbx, hby, _⟩ := cell_room d hcons a.x (a.y - 1) (hn.1 h).2
    refine ⟨b, hb, hbx, hby, ?_⟩
    rw [(hdoors b hb).2.1, hbx, hby, Int.sub_add_cancel]
    exact hcell
  · intro h
    obtain ⟨b, hb, hbx, hby, _⟩ := cell_room d hcons a.x (a.y + 1) (hs.1 h).2
    refine ⟨b, hb, hbx, hby, ?_⟩
    rw [(hdoors b hb).1, hbx, hby, Int.add_sub_cancel]
    exact hcell
  · intro h
    obtain ⟨b, hb, hbx, hby, _⟩ := cell_room d hcons (a.x + 1) a.y (he.1 h).2
    refine ⟨b, hb, hbx, hby, ?_⟩
    rw [(hdoors b hb).2.2.2, hbx, hby, Int.add_sub_cancel]
    exact hcell
  · intro h
    obtain ⟨b, hb, hbx, hby, _⟩ := cell_room d hcons (a.x - 1) a.y (hw.1 h).2
    refine ⟨b, hb, hbx, hby, ?_⟩
    rw [(hdoors b hb).2.2.1, hbx, hby, Int.sub_add_cancel]
    exact hcell

/-! ## Doors and moves in a generated dungeon -/

/-- C28: for a generator built with a positive width and height, and for every
outcome of the random choices, `generate` returns, and in the dungeon it gives
every room has a door in a direction exactly when the adjacent cell in that
direction is inside the grid and holds a room; every door leads to a room that
has the door back; after every sequence of `move` calls the current position
is inside the grid on a cell that holds a room; and a further `move` returns
false exactly when `canMove` is false for its direction, and leaves the
position unchanged exactly then, changing nothing else either. -/
theorem C28_doors_and_moves (rand : Nat → ℚ) (width height : Int) (hw : 0 < width)
    (hh : 0 < height) :
    ∃ s, generate rand (DungeonGenerator.new width height) = some s ∧
      DoorsMatch s.1 ∧
      (∀ a ∈ s.1.rooms,
        (a.doors.north = true →
          ∃ b ∈ s.1.rooms, b.x = a.x ∧ b.y = a.y - 1 ∧ b.doors.south = true) ∧
        (a.doors.south = true →
          ∃ b ∈ s.1.rooms, b.x = a.x ∧ b.y = a.y + 1 ∧ b.doors.north = true) ∧
        (a.doors.east = true →
          ∃ b ∈ s.1.rooms, b.x = a.x + 1 ∧ b.y = a.y ∧ b.doors.west = true) ∧
        (a.doors.west = true →
          ∃ b ∈ s.1.rooms, b.x = a.x - 1 ∧ b.y = a.y ∧ b.doors.east = true)) ∧
      ∀ ds : List String,
        OnRoom (moves s.1 ds) ∧
        ∀ direction : String,
          ((move (moves s.1 ds) direction).2 = false ↔
            canMove (moves s.1 ds) direction = false) ∧
          (((move (moves s.1 ds) direction).1.currentX = (moves s.1 ds).currentX ∧
              (move (moves s.1 ds) direction).1.currentY = (moves s.1 ds).currentY) ↔
            canMove (moves s.1 ds) direction = false) ∧
          (canMove (moves s.1 ds) direction = false →
            (move (moves s.1 ds) direction).1 = moves s.1 ds) := by
  obtain ⟨s, hs, hcons, hdoors, hon, _, _⟩ := generate_spec rand width height hw hh
  refine ⟨s, hs, hdoors, ?_, ?_⟩
  · intro a ha
    exact doors_symmetric s.1 hcons hdoors a ha
  · intro ds
    exact ⟨(moves_keep ds s.1 hcons hdoors hon).2.2, fun direction =>
      move_spec (moves s.1 ds) direction⟩

/-- The dungeon of the 5 by 5 grid when every draw is 0.5, so that
`targetRooms` is 12, the directions are tried in the order north, west, south,
east and every room that can be created is: the rooms in the order of their
creation, each with `x`, `y`, its type, the flags `visited` and `cleared`, and
its doors to the north, south, east and west. -/
theorem generate_randHalf :
    (generate randHalf (DungeonGenerator.new 5 5)).map (fun s => s.1.rooms) =
      some
        [ ⟨2, 2, "start", false, false, ⟨true, false, false, true⟩⟩,
          ⟨2, 1, "normal", false, false, ⟨true, true, false, false⟩⟩,
          ⟨2, 0, "normal", false, false, ⟨false, true, false, true⟩⟩,
          ⟨1, 0, "normal", false, false, ⟨false, false, true, true⟩⟩,
          ⟨0, 0, "boss", false, false, ⟨false, true, true, false⟩⟩,
          ⟨0, 1, "normal", false, false, ⟨true, true, false, false⟩⟩,
          ⟨0, 2, "treasure", false, false, ⟨true, true, true, false⟩⟩,
          ⟨0, 3, "treasure", false, false, ⟨true, true, true, false⟩⟩,
          ⟨0, 4, "normal", false, false, ⟨true, false, true, false⟩⟩,
          ⟨1, 4, "normal", false, false, ⟨true, false, false, true⟩⟩,
          ⟨1, 3, "normal", false, false, ⟨true, true, false, true⟩⟩,
          ⟨1, 2, "normal", false, false, ⟨false, true, true, true⟩⟩ ] := by
  decide!

/-- In that dungeon: from the start room `(2, 2)` a move north is possible and
a move south is not, and the moves north, north, west, west, south lead to the
room at `(0, 1)`. -/
theorem generate_randHalf_moves :
    (generate randHalf (DungeonGenerator.new 5 5)).map
        (fun s => (s.1.rooms.length, s.1.currentX, s.1.currentY)) = some (12, 2, 2) ∧
    (generate randHalf (DungeonGenerator.new 5 5)).map
        (fun s => (canMove s.1 "north", canMove s.1 "south", (move s.1 "south").2)) =
      some (true, false, false) ∧
    (generate randHalf (DungeonGenerator.new 5 5)).map
        (fun s => ((move s.1 "north").2, (move s.1 "north").1.currentX,
          (move s.1 "north").1.currentY)) = some (true, 2, 1) ∧
    (generate randHalf (DungeonGenerator.new 5 5)).map
        (fun s => ((moves s.1 ["north", "north", "west", "west", "south"]).currentX,
          (moves s.1 ["north", "north", "west", "west", "south"]).currentY)) =
      some (0, 1) := by
  decide!

theorem C28_doors_and_moves_witness :
    ((0 : Int) < 5 ∧ (0 : Int) < 5) ∧
    ∃ s, generate randHalf (DungeonGenerator.new 5 5) = some s ∧
      (s.1.rooms.length = 12 ∧ s.1.currentX = 2 ∧ s.1.currentY = 2 ∧
        canMove s.1 "north" = true ∧ canMove s.1 "south" = false ∧
        (move s.1 "south").2 = false ∧ (move s.1 "north").2 = true ∧
        (move s.1 "north").1.currentX = 2 ∧ (move s.1 "north").1.currentY = 1 ∧
        (moves s.1 ["north", "north", "west", "west", "south"]).currentX = 0 ∧
        (moves s.1 ["north", "north", "west", "west", "south"]).currentY = 1) ∧
      DoorsMatch s.1 ∧
      (∀ a ∈ s.1.rooms,
        (a.doors.north = true →
          ∃ b ∈ s.1.rooms, b.x = a.x ∧ b.y = a.y - 1 ∧ b.doors.south = true) ∧
        (a.doors.south = true →
          ∃ b ∈ s.1.rooms, b.x = a.x ∧ b.y = a.y + 1 ∧ b.doors.north = true) ∧
        (a.doors.east = true →
          ∃ b ∈ s.1.rooms, b.x = a.x + 1 ∧ b.y = a.y ∧ b.doors.west = true) ∧
        (a.doors.west = true →
          ∃ b ∈ s.1.rooms, b.x = a.x - 1 ∧ b.y = a.y ∧ b.doors.east = true)) ∧
      ∀ ds : List String,
        OnRoom (moves s.1 ds) ∧
        ∀ direction : String,
          ((move (moves s.1 ds) direction).2 = false ↔
            canMove (moves s.1 ds) direction = false) ∧
          (((move (moves s.1 ds) direction).1.currentX = (moves s.1 ds).currentX ∧
              (move (moves s.1 ds) direction).1.currentY = (moves s.1 ds).currentY) ↔
            canMove (moves s.1 ds) direction = false) ∧
          (canMove (moves s.1 ds) direction = false →
            (move (moves s.1 ds) direction).1 = moves s.1 ds) := by
  obtain ⟨s, hs, hrest⟩ := C28_doors_and_moves randHalf 5 5 (by decide) (by decide)
  have hfacts := generate_randHalf_moves
  rw [hs] at hfacts
  simp only [Option.map_some', Option.some.injEq, Prod.mk.injEq] at hfacts
  obtain ⟨⟨h1, h2, h3⟩, ⟨h4, h5, h6⟩, ⟨h7, h8, h9⟩, h10, h11⟩ := hfacts
  exact ⟨⟨by decide, by decide⟩, s, hs, ⟨h1, h2, h3, h4, h5, h6, h7, h8, h9, h10, h11⟩, hrest⟩

/-! ## The number of rooms -/

theorem tryDirections_none_created (rand : Nat → ℚ) (hr : ∀ k, ¬ rand k < 7 / 10)
    (recur : DungeonGenerator × Nat → Int → Int → Option (DungeonGenerator × Nat))
    (x y : Int) (targetCount : Nat) (dirs : List Direction) :
    ∀ s : DungeonGenerator × Nat,
      ∃ k, tryDirections rand recur x y targetCount dirs s = some (s.1, k) := by
  induction dirs with
  | nil =>
    intro s
    exact ⟨s.2, rfl⟩
  | cons dir rest ih =>
    intro s
    rw [tryDirections]
    by_cases h1 : targetCount ≤ s.1.rooms.length
    · rw [if_pos h1]
      exact ⟨s.2, rfl⟩
    · rw [if_neg h1]
      by_cases h2 : x + dir.dx < 0 ∨ s.1.width ≤ x + dir.dx ∨ y + dir.dy < 0 ∨
          s.1.height ≤ y + dir.dy
      · rw [if_pos h2]
        exact ih s
      · rw [if_neg h2]
        by_cases h3 : (s.1.grid (y + dir.dy) (x + dir.dx)).isSome = true
        · rw [if_pos h3]
          exact ih s
        · rw [if_neg h3, if_neg (hr s.2)]
          exact ih (s.1, s.2 + 1)

theorem generateRooms_none_created (rand : Nat → ℚ) (hr : ∀ k, ¬ rand k < 7 / 10)
    (targetCount fuel : Nat) (s : DungeonGenerator × Nat) (x y : Int) :
    ∃ k, generateRooms rand targetCount (fuel + 1) s x y = some (s.1, k) := by
  rw [generateRooms]
  by_cases h1 : targetCount ≤ s.1.rooms.length
  · rw [if_pos h1]
    exact ⟨s.2, rfl⟩
  · rw [if_neg h1]
    exact tryDirections_none_created rand hr _ x y targetCount _ (s.1, (shuffle rand s.2).2)

/-- When no draw is below 0.7 the dungeon has the start room only. -/
theorem generate_none_created (rand : Nat → ℚ) (hr : ∀ k, ¬ rand k < 7 / 10)
    (width height : Int) :
    ∃ s, generate rand (DungeonGenerator.new width height) = some s ∧
      s.1.rooms.length = 1 := by
  have htarget : ∃ fuel, targetRooms rand = fuel + 1 := by
    refine ⟨randomIndex (rand 0) (15 - 8 + 1) + 7, ?_⟩
    unfold targetRooms
    omega
  obtain ⟨fuel, hfuel⟩ := htarget
  obtain ⟨k, hk⟩ := generateRooms_none_created rand hr (targetRooms rand) fuel
    (withStartRoom (DungeonGenerator.new width height), 1) (width / 2) (height / 2)
  rw [← hfuel] at hk
  have hl1 := sameLayout_placeBossRoom (withStartRoom (DungeonGenerator.new width height))
  have hl2 := sameLayout_placeTreasureRooms rand
    (placeBossRoom (withStartRoom (DungeonGenerator.new width height)), k)
  have hlen := sameLayout_length _ _ (sameLayout_trans _ _ _ hl1 hl2)
  refine ⟨(connectRooms (placeTreasureRooms rand
      (placeBossRoom (withStartRoom (DungeonGenerator.new width height)), k)).1,
    (placeTreasureRooms rand
      (placeBossRoom (withStartRoom (DungeonGenerator.new width height)), k)).2), ?_, ?_⟩
  · rw [generate_eq]
    show (match generateRooms rand (targetRooms rand) (targetRooms rand)
        (withStartRoom (DungeonGenerator.new width height), 1) (width / 2) (height / 2) with
      | none => none
      | some s =>
        some (connectRooms (placeTreasureRooms rand (placeBossRoom s.1, s.2)).1,
          (placeTreasureRooms rand (placeBossRoom s.1, s.2)).2)) = _
    rw [hk]
  · show ((placeTreasureRooms rand
      (placeBossRoom (withStartRoom (DungeonGenerator.new width height)), k)).1.rooms.map
        _).length = 1
    rw [List.length_map, hlen]
    rfl

theorem randomIndex_lt (r : ℚ) (n : Nat) (h0 : 0 ≤ r) (h1 : r < 1) (hn : 0 < n) :
    randomIndex r n < n := by
  unfold randomIndex
  have hpos : (0 : ℚ) < n := by exact_mod_cast hn
  have hlt : r * n < n := by nlinarith
  have hfl : Int.floor (r * n) < (n : Int) := by
    rw [Int.floor_lt]
    exact_mod_cast hlt
  have hnn : 0 ≤ Int.floor (r * n) := Int.floor_nonneg.mpr (by positivity)
  omega

/-- The part of C27 that holds: `generate` returns for every outcome of the
random choices, and the dungeon has at least the start room and at most
`targetRooms` rooms, a number between `minRooms = 8` and `maxRooms = 15`. -/
theorem generate_room_count (rand : Nat → ℚ) (h0 : 0 ≤ rand 0) (h1 : rand 0 < 1)
    (width height : Int) (hw : 0 < width) (hh : 0 < height) :
    ∃ s, generate rand (DungeonGenerator.new width height) = some s ∧
      1 ≤ s.1.rooms.length ∧ s.1.rooms.length ≤ targetRooms rand ∧
      8 ≤ targetRooms rand ∧ targetRooms rand ≤ 15 := by
  obtain ⟨s, hs, _, _, _, hlow, hhigh⟩ := generate_spec rand width height hw hh
  have hidx := randomIndex_lt (rand 0) (15 - 8 + 1) h0 h1 (by decide)
  refine ⟨s, hs, hlow, hhigh, ?_, ?_⟩
  · unfold targetRooms
    omega
  · unfold targetRooms
    omega

/-- When every draw is 0.875 on the 5 by 5 grid, the dungeon has no boss room
and no treasure room either: the one room is the start room at `(2, 2)`, with
no door, and nine draws are used. -/
theorem generate_randHigh :
    (generate randHigh (DungeonGenerator.new 5 5)).map (fun s => s.1.rooms) =
      some [⟨2, 2, "start", false, false, ⟨false, false, false, false⟩⟩] ∧
    (generate randHigh (DungeonGenerator.new 5 5)).map
        (fun s => (s.1.bossRoom, s.1.treasureRooms, s.2)) = some (none, [], 9) := by
  decide!

/-- C27 fails on the code: on the 5 by 5 grid of the game, when every
`Math.random()` call gives 0.875, `generate` produces a dungeon that has one
room, the start room, fewer than `minRooms = 8`. -/
theorem C27_one_room_dungeon :
    ∃ s, generate randHigh (DungeonGenerator.new 5 5) = some s ∧ s.1.rooms.length = 1 ∧
      s.1.rooms.length < 8 := by
  obtain ⟨s, hs, hlen⟩ := generate_none_created randHigh
    (fun k => by unfold randHigh; norm_num) 5 5
  exact ⟨s, hs, hlen, by omega⟩

end IsaacGame
